import Mathlib

/-!
Playback engine of `mous`: plugin registry, renderer slot, Open and Close.

A shallow embedding of `core/Player.cc`.

* Pointers are identities: an agent (`IPluginAgent*`) and a plugin object
  (`IDecoder*`, `IRenderer*`) are natural numbers, a nullable pointer is an
  `Option`.  `CreateObject` hands out the next unused identity, so an identity
  is never reused after `FreeObject`.
* Plugin code is outside the engine.  Every call into a plugin that changes
  something is appended to `Player.calls` in program order; what a plugin
  answers is read from `Plugins`, as a function of the calls made so far.
* A null dereference is the result `none`.
* `Pause`, `Close` and the members that call them are embedded twice.  On
  `Player` they are the assignments of a call whose waits on the latches return;
  that is what the statements about the state after a call are about.  On
  `Latched`, the player with its end latches and the place of the two worker
  threads, a wait that no thread ends is the outcome `blocks`; that is what the
  statements about whether a call returns are about.  The positions inside the
  buffer ring are not represented.  A pass of a worker thread's inner loop is a
  function of the slot that the ring hands out.
* Double arithmetic is a parameter (`DoubleArith`); `m_UnitPerMs` is kept as
  the two operands of its division.  The arithmetic of the compiled code is
  `doubleArith`: IEEE 754 binary64 with rounding to nearest, ties to even, and
  the conversion to `uint64_t` of x86-64.  Values of type `uint64_t` are natural
  numbers, reduced modulo `2 ^ 64` where the code adds or subtracts.

Of the ncurses frontend, `Session::SendMediaItemsByChunk` of `Session.cc` is
embedded as the list of packets it sends, and the scroll keys of
`ExplorerView.cc` as functions on the list, the selection, the first visible
index and the window height; values of type `int` are integers, reduced to 32
bits in two's complement (`int32`) after every operation.
-/

namespace mous

/-- Status of the player (`PlayerStatus::e` in `sdk/core/IPlayer.h`). -/
inductive PlayerStatus where
  | Closed
  | Playing
  | Paused
  | Stopped
  deriving DecidableEq, Repr

/-- Modelled from the spec: `util/ErrorCode.h` is not part of the sources.  The
three codes that `Player.cc` names, and the codes of decoders and renderers,
which the player only forwards. -/
inductive ErrorCode where
  | Ok
  | PlayerNoDecoder
  | PlayerNoRenderer
  | Plugin (code : Nat)
  deriving DecidableEq, Repr

/-- Modelled from the spec: `util/PluginDef.h` is not part of the sources.  The
type tags that `Player.cc` names, and the remaining ones. -/
inductive PluginType where
  | None
  | Decoder
  | Renderer
  | Other (tag : Nat)
  deriving DecidableEq, Repr

/-- Identity of an `IPluginAgent`. -/
abbrev Agent := Nat

/-- Identity of an object made by `IPluginAgent::CreateObject`. -/
abbrev Obj := Nat

/-- One slot of the ring.  `data` is the length of the byte array, `none` for a
null pointer. -/
structure UnitBuffer where
  data : Option Nat
  used : Nat
  max : Nat
  unitCount : Nat
  deriving DecidableEq, Repr

/-- Calls into plugin code that the engine makes, in program order, and the
firing of the completion signal `m_SigFinished`.  `Write` carries the slot
whose bytes are written, `DecodeUnit` the slot as the decoder filled it. -/
inductive PluginCall where
  | CreateObject (agent : Agent) (obj : Obj)
  | FreeObject (agent : Agent) (obj : Obj)
  | DecoderOpen (decoder : Obj) (path : String)
  | DecoderClose (decoder : Obj)
  | RendererOpen (renderer : Obj)
  | RendererClose (renderer : Obj)
  | RendererSetup (renderer : Obj) (channels sampleRate bitsPerSample : Int)
  | SetUnitIndex (decoder : Obj) (index : Nat)
  | SetVolumeLevel (renderer : Obj) (level : Int)
  | DecodeUnit (decoder : Obj) (buf : UnitBuffer)
  | Write (renderer : Obj) (buf : UnitBuffer)
  | SigFinished
  deriving DecidableEq, Repr

/-- What the plugins answer.  The first argument of the instance methods is the
list of calls made before the question is asked. -/
structure Plugins where
  /-- The tag `IPluginAgent::Type()`. -/
  AgentType : Agent → PluginType
  /-- The list `IDecoder::FileSuffix()` of the decoder `obj` made by `agent`. -/
  FileSuffix : Agent → Obj → List String
  /-- The result of `IDecoder::Open(path)`. -/
  DecoderOpen : List PluginCall → Obj → String → ErrorCode
  MaxBytesPerUnit : List PluginCall → Obj → Nat
  UnitCount : List PluginCall → Obj → Nat
  Duration : List PluginCall → Obj → Nat
  Channels : List PluginCall → Obj → Int
  SampleRate : List PluginCall → Obj → Int
  BitsPerSample : List PluginCall → Obj → Int
  /-- The result of `IRenderer::Setup(channels, sampleRate, bitsPerSample)`. -/
  Setup : List PluginCall → Obj → Int → Int → Int → ErrorCode
  /-- The result of `IRenderer::VolumeLevel()`. -/
  VolumeLevel : List PluginCall → Obj → Int
  /-- The values `used` and `unitCount` that `IDecoder::DecodeUnit` stores. -/
  DecodeUnit : List PluginCall → Obj → Nat × Nat

/-- The value type `DecoderPluginNode` of the decoder map. -/
structure DecoderPluginNode where
  agent : Agent
  decoder : Obj
  deriving DecidableEq, Repr

/-- The map `m_DecoderPluginMap`, as the list of its entries in key order. -/
abbrev DecoderPluginMap := List (String × DecoderPluginNode)

/-- The fields of `Player` that `Player.cc` reads and writes, with the next
unused object identity and the calls made into plugins so far. -/
structure Player where
  m_Status : PlayerStatus
  m_DecoderPluginMap : DecoderPluginMap
  m_RendererPlugin : Option Agent
  m_Renderer : Option Obj
  m_Decoder : Option Obj
  m_DecodeFile : String
  m_UnitBuffers : List UnitBuffer
  /-- The operands `UnitCount()` and `Duration()` of the division stored in
  the double `m_UnitPerMs`. -/
  m_UnitPerMs : Nat × Nat
  m_UnitBeg : Nat
  m_UnitEnd : Nat
  m_DecoderIndex : Nat
  m_RendererIndex : Nat
  m_SuspendRenderer : Bool
  m_SuspendDecoder : Bool
  m_PauseDecoder : Bool
  nextObj : Obj
  calls : List PluginCall
  deriving DecidableEq, Repr

/-- Modelled from the spec: `scx/Conv.hpp` is not part of the sources.
`ToLower` lowercases every letter `A`..`Z` and keeps the other characters. -/
def ToLower (s : String) : String :=
  ⟨s.data.map Char.toLower⟩

/-- Modelled from the spec: `scx/FileHelper.hpp` is not part of the sources.
The suffix of a path is the text after its last dot, empty without a dot. -/
def FileHelper.FileSuffix (path : String) : String :=
  if path.data.contains '.' then
    ⟨(path.data.reverse.takeWhile (fun c => c != '.')).reverse⟩
  else ""

/-- The lookup `m_DecoderPluginMap.find(key)`: the entry, or `none` for `end()`. -/
def mapFind : DecoderPluginMap → String → Option DecoderPluginNode
  | [], _ => none
  | (k, n) :: rest, key => if k = key then some n else mapFind rest key

/-- The insertion `m_DecoderPluginMap.emplace(key, node)`: at the place the key
order gives (strings compare character by character), and nothing when the key
is present. -/
def mapEmplace : DecoderPluginMap → String → DecoderPluginNode → DecoderPluginMap
  | [], key, node => [(key, node)]
  | (k, n) :: rest, key, node =>
    if key.data < k.data then (key, node) :: (k, n) :: rest
    else if k = key then (k, n) :: rest
    else (k, n) :: mapEmplace rest key node

/-- The removal `m_DecoderPluginMap.erase(iter)` of the entry found under
`key`; keys of a map are unique, so this drops what is stored under `key`. -/
def mapErase (m : DecoderPluginMap) (key : String) : DecoderPluginMap :=
  m.filter (fun e => decide (e.1 ≠ key))

/-- Modelled from the spec: `Player.h` is not part of the sources.  A new
player is Closed, has no plugin, no decoder and file, and a ring of 5 slots
(`AllocBuffer(5)` in the constructor). -/
def Player.init : Player :=
  { m_Status := PlayerStatus.Closed
    m_DecoderPluginMap := []
    m_RendererPlugin := none
    m_Renderer := none
    m_Decoder := none
    m_DecodeFile := ""
    m_UnitBuffers := List.replicate 5 ⟨none, 0, 0, 0⟩
    m_UnitPerMs := (0, 0)
    m_UnitBeg := 0
    m_UnitEnd := 0
    m_DecoderIndex := 0
    m_RendererIndex := 0
    m_SuspendRenderer := true
    m_SuspendDecoder := true
    m_PauseDecoder := false
    nextObj := 0
    calls := [] }

/-- The loop of `AddDecoderPlugin` over the declared suffixes: the map and the
flag `usedAtLeastOnce`. -/
def AddDecoderPlugin.loop (pAgent : Agent) (pDecoder : Obj) :
    List String → DecoderPluginMap × Bool → DecoderPluginMap × Bool
  | [], acc => acc
  | item :: rest, (m, usedAtLeastOnce) =>
    let suffix := ToLower item
    match mapFind m suffix with
    | none => AddDecoderPlugin.loop pAgent pDecoder rest (mapEmplace m suffix ⟨pAgent, pDecoder⟩, true)
    | some _ => AddDecoderPlugin.loop pAgent pDecoder rest (m, usedAtLeastOnce)

/-- The function `Player::AddDecoderPlugin`. -/
def AddDecoderPlugin (env : Plugins) (pAgent : Agent) (p : Player) : Player :=
  let pDecoder := p.nextObj
  let p1 := { p with nextObj := p.nextObj + 1,
                     calls := p.calls ++ [PluginCall.CreateObject pAgent pDecoder] }
  let list := env.FileSuffix pAgent pDecoder
  let r := AddDecoderPlugin.loop pAgent pDecoder list (p1.m_DecoderPluginMap, false)
  let p2 := { p1 with m_DecoderPluginMap := r.1 }
  if r.2 = false then
    { p2 with calls := p2.calls ++ [PluginCall.FreeObject pAgent pDecoder] }
  else p2

/-- The function `Player::Pause` when its waits on the two end latches return:
the assignments of a call that returns.  Whether the waits return is in
`Latched.Pause`. -/
def Pause (p : Player) : Player :=
  if p.m_Status = PlayerStatus.Paused then p
  else
    let p1 := if p.m_SuspendRenderer = false then { p with m_SuspendRenderer := true } else p
    let p2 := if p1.m_SuspendDecoder = false then { p1 with m_SuspendDecoder := true } else p1
    { p2 with m_Status := PlayerStatus.Paused }

/-- The function `Player::Close`; `none` when `m_Decoder` is null at
`m_Decoder->Close()`. -/
def Close (p : Player) : Option Player :=
  if p.m_Status = PlayerStatus.Closed then some p
  else
    let p1 := Pause p
    match p1.m_Decoder with
    | none => none
    | some d =>
      some { p1 with calls := p1.calls ++ [PluginCall.DecoderClose d],
                     m_Decoder := none,
                     m_DecodeFile := "",
                     m_Status := PlayerStatus.Closed }

/-- The loop of `RemoveDecoderPlugin` over the suffixes of the throwaway
decoder, with the flag `freedOnce`. -/
def RemoveDecoderPlugin.loop (pAgent : Agent) : List String → Bool → Player → Option Player
  | [], _, p => some p
  | item :: rest, freedOnce, p =>
    let suffix := ToLower item
    match mapFind p.m_DecoderPluginMap suffix with
    | none => RemoveDecoderPlugin.loop pAgent rest freedOnce p
    | some node =>
      if node.agent = pAgent then
        if freedOnce = false then
          match (if some node.decoder = p.m_Decoder then Close p else some p) with
          | none => none
          | some p1 =>
            let p2 := { p1 with calls := p1.calls ++ [PluginCall.FreeObject pAgent node.decoder] }
            RemoveDecoderPlugin.loop pAgent rest true
              { p2 with m_DecoderPluginMap := mapErase p2.m_DecoderPluginMap suffix }
        else
          RemoveDecoderPlugin.loop pAgent rest freedOnce
            { p with m_DecoderPluginMap := mapErase p.m_DecoderPluginMap suffix }
      else RemoveDecoderPlugin.loop pAgent rest freedOnce p

/-- The function `Player::RemoveDecoderPlugin`. -/
def RemoveDecoderPlugin (env : Plugins) (pAgent : Agent) (p : Player) : Option Player :=
  let pDecoder := p.nextObj
  let list := env.FileSuffix pAgent pDecoder
  let p1 := { p with nextObj := p.nextObj + 1,
                     calls := p.calls ++ [PluginCall.CreateObject pAgent pDecoder,
                                          PluginCall.FreeObject pAgent pDecoder] }
  RemoveDecoderPlugin.loop pAgent list false p1

/-- The function `Player::SetRendererPlugin`; the argument `none` is a null pointer. -/
def SetRendererPlugin (pAgent : Option Agent) (p : Player) : Player :=
  match pAgent with
  | none => p
  | some a =>
    if p.m_RendererPlugin ≠ none then p
    else
      { p with m_RendererPlugin := some a,
               m_Renderer := some p.nextObj,
               nextObj := p.nextObj + 1,
               calls := p.calls ++ [PluginCall.CreateObject a p.nextObj,
                                    PluginCall.RendererOpen p.nextObj] }

/-- The function `Player::UnsetRendererPlugin`; `none` when `m_Renderer` is
null at `m_Renderer->Close()`. -/
def UnsetRendererPlugin (pAgent : Option Agent) (p : Player) : Option Player :=
  if pAgent ≠ p.m_RendererPlugin then some p
  else
    match p.m_RendererPlugin with
    | none => some p
    | some a =>
      match p.m_Renderer with
      | none => none
      | some r =>
        some { p with calls := p.calls ++ [PluginCall.RendererClose r, PluginCall.FreeObject a r],
                      m_Renderer := none,
                      m_RendererPlugin := none }

/-- The function `Player::RegisterDecoderPlugin(const IPluginAgent*)`. -/
def RegisterDecoderPlugin (env : Plugins) (pAgent : Agent) (p : Player) : Player :=
  if env.AgentType pAgent = PluginType.Decoder then AddDecoderPlugin env pAgent p else p

/-- The function `Player::RegisterRendererPlugin`. -/
def RegisterRendererPlugin (env : Plugins) (pAgent : Agent) (p : Player) : Player :=
  if env.AgentType pAgent = PluginType.Renderer then SetRendererPlugin (some pAgent) p else p

/-- The function `Player::UnregisterPlugin(const IPluginAgent*)`. -/
def UnregisterPlugin (env : Plugins) (pAgent : Agent) (p : Player) : Option Player :=
  match env.AgentType pAgent with
  | PluginType.Decoder => RemoveDecoderPlugin env pAgent p
  | PluginType.Renderer => UnsetRendererPlugin (some pAgent) p
  | _ => some p

/-- The while loop of `Player::UnregisterAll`, run for at most `fuel`
iterations; `none` when the fuel is used up before the map is empty. -/
def UnregisterAll.loop (env : Plugins) : Nat → Player → Option Player
  | fuel, p =>
    match p.m_DecoderPluginMap with
    | [] => some p
    | e :: _ =>
      match fuel with
      | 0 => none
      | fuel + 1 =>
        match RemoveDecoderPlugin env e.2.agent p with
        | none => none
        | some q => UnregisterAll.loop env fuel q

/-- The function `Player::UnregisterAll`. -/
def UnregisterAll (env : Plugins) (fuel : Nat) (p : Player) : Option Player :=
  match UnregisterAll.loop env fuel p with
  | none => none
  | some q => UnsetRendererPlugin q.m_RendererPlugin q

/-- The function `Player::SupportedSuffixes`. -/
def SupportedSuffixes (p : Player) : List String :=
  p.m_DecoderPluginMap.map (fun entry => entry.1)

/-- The loop of `Player::Open` over the ring: every slot is emptied and grown
to `maxBytesPerUnit` when smaller. -/
def Open.prepare (maxBytesPerUnit : Nat) (buf : UnitBuffer) : UnitBuffer :=
  let buf1 := { buf with used := 0 }
  if buf1.max < maxBytesPerUnit then
    { buf1 with data := some maxBytesPerUnit, max := maxBytesPerUnit }
  else buf1

/-- The function `Player::Open`: the error code returned and the player left. -/
def Open (env : Plugins) (path : String) (p : Player) : ErrorCode × Player :=
  let suffix := ToLower (FileHelper.FileSuffix path)
  match mapFind p.m_DecoderPluginMap suffix with
  | none => (ErrorCode.PlayerNoDecoder, p)
  | some node =>
    let d := node.decoder
    let p1 := { p with m_Decoder := some d }
    match p1.m_Renderer with
    | none => (ErrorCode.PlayerNoRenderer, p1)
    | some r =>
      let err := env.DecoderOpen p1.calls d path
      let p2 := { p1 with calls := p1.calls ++ [PluginCall.DecoderOpen d path] }
      if err ≠ ErrorCode.Ok then (err, p2)
      else
        let p3 := { p2 with m_DecodeFile := path }
        let maxBytesPerUnit := env.MaxBytesPerUnit p3.calls d
        let p4 := { p3 with m_UnitBuffers := p3.m_UnitBuffers.map (Open.prepare maxBytesPerUnit) }
        let p5 := { p4 with m_UnitPerMs := (env.UnitCount p4.calls d, env.Duration p4.calls d) }
        let channels := env.Channels p5.calls d
        let samleRate := env.SampleRate p5.calls d
        let bitsPerSamle := env.BitsPerSample p5.calls d
        let err2 := env.Setup p5.calls r channels samleRate bitsPerSamle
        let p6 := { p5 with calls := p5.calls ++
                      [PluginCall.RendererSetup r channels samleRate bitsPerSamle] }
        if err2 ≠ ErrorCode.Ok then (err2, p6)
        else (err2, { p6 with m_Status := PlayerStatus.Stopped })

/-- A value of the C++ type `double` that a caller passes in. -/
inductive Double where
  | finite (value : ℚ)
  | inf (negative : Bool)
  | nan

/-- The double arithmetic of `Player.cc`, each expression with its conversion
to `uint64_t`.  No rounding behaviour is fixed: the operations are parameters.
The arithmetic of the compiled code is `doubleArith`. -/
structure DoubleArith where
  /-- The value `(uint64_t)(m_UnitPerMs * ms)`, where `m_UnitPerMs` is the
  quotient of the two operands. -/
  scale : Nat × Nat → Nat → Nat
  /-- The value `(uint64_t)(beg + span * percent)`. -/
  lerp : Nat → Nat → Double → Nat
  /-- The value `(uint64_t)(index / m_UnitPerMs)`. -/
  unscale : Nat × Nat → Nat → Nat

/-- The integer nearest to `x`, and of the two nearest the even one when `x` is
halfway between them. -/
def roundHalfEven (x : ℚ) : ℤ :=
  if 2 * (x - ⌊x⌋) < 1 then ⌊x⌋
  else if 1 < 2 * (x - ⌊x⌋) then ⌊x⌋ + 1
  else if ⌊x⌋ % 2 = 0 then ⌊x⌋
  else ⌊x⌋ + 1

/-- The rounding of IEEE 754 binary64 arithmetic in its default mode: the
nearest number with a significand of 53 bits, at a tie the one with the even
significand.  With `e` the exponent of `x`, `x` is scaled into the binade of
`2 ^ 52`, rounded to an integer, and scaled back.  The exponent is not bounded:
the quotients and products of `Player.cc` on `uint64_t` operands lie between
`2 ^ -64` and `2 ^ 128`, inside the range of binary64. -/
def binary64 (x : ℚ) : ℚ :=
  if x = 0 then 0
  else (roundHalfEven (x * 2 ^ (52 - Int.log 2 |x|)) : ℚ) * 2 ^ (Int.log 2 |x| - 52)

/-- The conversion `(double)n` of a `uint64_t`. -/
def Double.ofUInt64 (n : Nat) : Double :=
  Double.finite (binary64 n)

/-- The product `x * y` of two doubles. -/
def Double.mul : Double → Double → Double
  | Double.nan, _ => Double.nan
  | _, Double.nan => Double.nan
  | Double.inf s, Double.inf t => Double.inf (s != t)
  | Double.inf s, Double.finite b =>
    if b = 0 then Double.nan else Double.inf (s != decide (b < 0))
  | Double.finite a, Double.inf t =>
    if a = 0 then Double.nan else Double.inf (decide (a < 0) != t)
  | Double.finite a, Double.finite b => Double.finite (binary64 (a * b))

/-- The quotient `x / y` of two doubles.  A zero is `+0`: the divisors of
`Player.cc` are converted from `uint64_t` or are quotients of such values. -/
def Double.div : Double → Double → Double
  | Double.nan, _ => Double.nan
  | _, Double.nan => Double.nan
  | Double.inf _, Double.inf _ => Double.nan
  | Double.inf s, Double.finite b => Double.inf (s != decide (b < 0))
  | Double.finite _, Double.inf _ => Double.finite 0
  | Double.finite a, Double.finite b =>
    if b = 0 then (if a = 0 then Double.nan else Double.inf (decide (a < 0)))
    else Double.finite (binary64 (a / b))

/-- The sum `x + y` of two doubles. -/
def Double.add : Double → Double → Double
  | Double.nan, _ => Double.nan
  | _, Double.nan => Double.nan
  | Double.inf s, Double.inf t => if s = t then Double.inf s else Double.nan
  | Double.inf s, Double.finite _ => Double.inf s
  | Double.finite _, Double.inf t => Double.inf t
  | Double.finite a, Double.finite b => Double.finite (binary64 (a + b))

/-- The conversion `(uint64_t)x` of a double.  Between `-1` and `2 ^ 64` it is
the truncation.  Outside, C++ leaves it undefined; the values here are those of
the code GCC emits for x86-64, `cvttsd2si` on `x` when `x` is below `2 ^ 63` or
not a number, and else on `x - 2 ^ 63` with the top bit flipped, where
`cvttsd2si` gives `-2 ^ 63` for every operand outside `int64_t`: `0` from
`2 ^ 64` on and for `+inf`, `2 ^ 63` for a NaN, below `-2 ^ 63` and for
`-inf`, and `2 ^ 64 + t` for a truncation `t` from `-2 ^ 63` to `-1`. -/
def Double.toUInt64 : Double → Nat
  | Double.nan => 2 ^ 63
  | Double.inf negative => if negative then 2 ^ 63 else 0
  | Double.finite q =>
    if q < 0 then
      if -2 ^ 63 ≤ ⌈q⌉ then (⌈q⌉ % 2 ^ 64).toNat else 2 ^ 63
    else if q < 2 ^ 64 then ⌊q⌋₊
    else 0

/-- The double arithmetic of `Player.cc` as compiled: `m_UnitPerMs` is
`(double)UnitCount() / Duration()` (`Open`), the operands of type `uint64_t`
are converted to `double`, every operation rounds to binary64, and the result
is converted to `uint64_t`. -/
def doubleArith : DoubleArith :=
  { scale := fun upm ms =>
      (Double.mul (Double.div (Double.ofUInt64 upm.1) (Double.ofUInt64 upm.2))
        (Double.ofUInt64 ms)).toUInt64
    lerp := fun beg span percent =>
      (Double.add (Double.ofUInt64 beg) (Double.mul (Double.ofUInt64 span) percent)).toUInt64
    unscale := fun upm index =>
      (Double.div (Double.ofUInt64 index)
        (Double.div (Double.ofUInt64 upm.1) (Double.ofUInt64 upm.2))).toUInt64 }

/-- The function `Player::Volume`. -/
def Volume (env : Plugins) (p : Player) : Int :=
  match p.m_Renderer with
  | some r => env.VolumeLevel p.calls r
  | none => -1

/-- The function `Player::SetVolume`. -/
def SetVolume (level : Int) (p : Player) : Player :=
  match p.m_Renderer with
  | some r => { p with calls := p.calls ++ [PluginCall.SetVolumeLevel r level] }
  | none => p

/-- The function `Player::PlayRange`; `none` when `m_Decoder` is null at
`m_Decoder->SetUnitIndex`.  The waits on the two begin latches return. -/
def PlayRange (beg : Nat) (end_ : Nat) (p : Player) : Option Player :=
  let p1 := { p with m_UnitBeg := beg, m_UnitEnd := end_ }
  let p2 := { p1 with m_DecoderIndex := p1.m_UnitBeg, m_RendererIndex := p1.m_UnitBeg }
  match p2.m_Decoder with
  | none => none
  | some d =>
    some { p2 with calls := p2.calls ++ [PluginCall.SetUnitIndex d p2.m_UnitBeg],
                   m_SuspendRenderer := false,
                   m_SuspendDecoder := false,
                   m_Status := PlayerStatus.Playing }

/-- The function `Player::Play()`. -/
def Play (env : Plugins) (p : Player) : Option Player :=
  match p.m_Decoder with
  | none => none
  | some d =>
    let beg := 0
    let end_ := env.UnitCount p.calls d
    PlayRange beg end_ p

/-- The function `Player::Play(uint64_t msBegin, uint64_t msEnd)`. -/
def Play2 (env : Plugins) (fp : DoubleArith) (msBegin msEnd : Nat) (p : Player) :
    Option Player :=
  match p.m_Decoder with
  | none => none
  | some d =>
    let total := env.UnitCount p.calls d
    let beg0 := fp.scale p.m_UnitPerMs msBegin
    let beg := if beg0 > total then total else beg0
    let end_ :=
      if msEnd ≠ 2 ^ 64 - 1 then
        let end0 := fp.scale p.m_UnitPerMs msEnd
        if end0 > total then total else end0
      else total
    PlayRange beg end_ p

/-- The function `Player::Resume`; `none` when `m_Decoder` is null. -/
def Resume (p : Player) : Option Player :=
  let p1 := { p with m_DecoderIndex := p.m_RendererIndex }
  match p1.m_Decoder with
  | none => none
  | some d =>
    some { p1 with calls := p1.calls ++ [PluginCall.SetUnitIndex d p1.m_DecoderIndex],
                   m_SuspendRenderer := false,
                   m_SuspendDecoder := false,
                   m_Status := PlayerStatus.Playing }

/-- The function `Player::DoSeekUnit`. -/
def DoSeekUnit (unit : Nat) (p : Player) : Option Player :=
  let unit1 :=
    if unit < p.m_UnitBeg then p.m_UnitBeg
    else if unit > p.m_UnitEnd then p.m_UnitEnd
    else unit
  match p.m_Decoder with
  | none => none
  | some d =>
    some { p with calls := p.calls ++ [PluginCall.SetUnitIndex d unit1],
                  m_DecoderIndex := unit1,
                  m_RendererIndex := unit1 }

/-- The function `Player::DoSeekTime`. -/
def DoSeekTime (env : Plugins) (fp : DoubleArith) (msPos : Nat) (p : Player) : Option Player :=
  match p.m_Decoder with
  | none => none
  | some d =>
    let unitPos := min (fp.scale p.m_UnitPerMs msPos) (env.UnitCount p.calls d)
    DoSeekUnit unitPos p

/-- The function `Player::SeekTime`. -/
def SeekTime (env : Plugins) (fp : DoubleArith) (msPos : Nat) (p : Player) : Option Player :=
  match p.m_Status with
  | PlayerStatus.Playing =>
    match DoSeekTime env fp msPos (Pause p) with
    | none => none
    | some q => Resume q
  | PlayerStatus.Paused => DoSeekTime env fp msPos p
  | PlayerStatus.Stopped => DoSeekTime env fp msPos p
  | PlayerStatus.Closed => some p

/-- The function `Player::RangeBegin`. -/
def RangeBegin (fp : DoubleArith) (p : Player) : Nat :=
  fp.unscale p.m_UnitPerMs p.m_UnitBeg

/-- The function `Player::RangeEnd`. -/
def RangeEnd (fp : DoubleArith) (p : Player) : Nat :=
  fp.unscale p.m_UnitPerMs p.m_UnitEnd

/-- The function `Player::CurrentMs`. -/
def CurrentMs (fp : DoubleArith) (p : Player) : Nat :=
  fp.unscale p.m_UnitPerMs p.m_RendererIndex

/-- The function `Player::SeekPercent`.  The difference `m_UnitEnd - m_UnitBeg`
is taken in `uint64_t`. -/
def SeekPercent (fp : DoubleArith) (percent : Double) (p : Player) : Option Player :=
  let unit := fp.lerp p.m_UnitBeg ((p.m_UnitEnd + 2 ^ 64 - p.m_UnitBeg) % 2 ^ 64) percent
  match p.m_Status with
  | PlayerStatus.Playing =>
    match DoSeekUnit unit (Pause p) with
    | none => none
    | some q => Resume q
  | PlayerStatus.Paused => DoSeekUnit unit p
  | PlayerStatus.Stopped => DoSeekUnit unit p
  | PlayerStatus.Closed => some p

/-- One pass of the inner loop of `Player::ThDecoder`, when `TakeFree` hands out
the slot `buf`: the player, and the slot that `RecycleFree` puts at the end of
the data queue, if any.  `none` when `m_Decoder` is null. -/
def ThDecoder.body (env : Plugins) (buf : UnitBuffer) (p : Player) :
    Option (Player × Option UnitBuffer) :=
  if p.m_PauseDecoder = true then some (p, none)
  else if p.m_SuspendDecoder = true then some (p, none)
  else
    match p.m_Decoder with
    | none => none
    | some d =>
      let r := env.DecodeUnit p.calls d
      let buf1 := { buf with used := r.1 % 2 ^ 32, unitCount := r.2 % 2 ^ 32 }
      let p1 := { p with calls := p.calls ++ [PluginCall.DecodeUnit d buf1],
                         m_DecoderIndex := (p.m_DecoderIndex + buf1.unitCount) % 2 ^ 64 }
      if p1.m_DecoderIndex ≥ p1.m_UnitEnd then
        some ({ p1 with m_SuspendDecoder := true }, some buf1)
      else some (p1, some buf1)

/-- One pass of the inner loop of `Player::ThRenderer`, when `TakeData` hands
out the slot `buf`; `none` when `m_Renderer` is null.  The loop is left when
`m_SuspendRenderer` is set. -/
def ThRenderer.body (buf : UnitBuffer) (p : Player) : Option Player :=
  if p.m_SuspendRenderer = true then some p
  else
    match p.m_Renderer with
    | none => none
    | some r =>
      let p1 := { p with calls := p.calls ++ [PluginCall.Write r buf],
                         m_RendererIndex := (p.m_RendererIndex + buf.unitCount) % 2 ^ 64 }
      if p1.m_RendererIndex ≥ p1.m_UnitEnd then some { p1 with m_SuspendRenderer := true }
      else some p1

/-- The inner loop of `Player::ThRenderer` over the slots that `TakeData` hands
out, in this order, until the loop is left; with no slot to take the thread
waits in `TakeData`. -/
def ThRenderer.loop : List UnitBuffer → Player → Option Player
  | [], p => some p
  | buf :: rest, p =>
    match ThRenderer.body buf p with
    | none => none
    | some q => if q.m_SuspendRenderer = true then some q else ThRenderer.loop rest q

/-- One cycle of `Player::ThRenderer` after the wake latch: the inner loop,
and when it is left, the end latch and the test for the end of the range. -/
def ThRenderer (frames : List UnitBuffer) (p : Player) : Option Player :=
  match ThRenderer.loop frames p with
  | none => none
  | some q =>
    if q.m_SuspendRenderer = false then some q
    else if q.m_RendererIndex ≥ q.m_UnitEnd then
      some { q with m_Status := PlayerStatus.Stopped,
                    calls := q.calls ++ [PluginCall.SigFinished] }
    else some q

/-- The number of units in the slots written to the renderer, by the calls. -/
def writtenUnits : List PluginCall → Nat
  | [] => 0
  | PluginCall.Write _ buf :: rest => buf.unitCount + writtenUnits rest
  | _ :: rest => writtenUnits rest

/-- The test `unit_beg ≤ renderer_index ≤ unit_end`. -/
def InRange (p : Player) : Prop :=
  p.m_UnitBeg ≤ p.m_RendererIndex ∧ p.m_RendererIndex ≤ p.m_UnitEnd

/-- The states that follow a player by steps of the renderer thread, `Pause`,
`Resume`, `SeekTime` and `SeekPercent`, where every slot that the renderer
thread writes ends at or before `m_UnitEnd`. -/
inductive Playback (env : Plugins) (fp : DoubleArith) (p : Player) : Player → Prop where
  | start : Playback env fp p p
  | render {q r : Player} (buf : UnitBuffer) :
      Playback env fp p q →
      q.m_RendererIndex + buf.unitCount ≤ q.m_UnitEnd →
      ThRenderer.body buf q = some r → Playback env fp p r
  | pause {q : Player} : Playback env fp p q → Playback env fp p (Pause q)
  | resume {q r : Player} : Playback env fp p q → Resume q = some r → Playback env fp p r
  | seekTime {q r : Player} (msPos : Nat) :
      Playback env fp p q → SeekTime env fp msPos q = some r → Playback env fp p r
  | seekPercent {q r : Player} (percent : Double) :
      Playback env fp p q → SeekPercent fp percent q = some r → Playback env fp p r

/-- Exact arithmetic for the examples, which `decide` evaluates.  For a decoder
that reports as many units as ms, and up to `2 ^ 53` ms, it computes the units
that `doubleArith` computes (`demoArith_scale_eq`); elsewhere it is not the
arithmetic of the code. -/
def demoArith : DoubleArith :=
  { scale := fun upm ms => if upm.2 = 0 then 0 else upm.1 * ms / upm.2
    lerp := fun beg span percent =>
      match percent with
      | Double.finite q => beg + span * q.num.toNat / q.den
      | _ => 0
    unscale := fun upm index => if upm.1 = 0 then 0 else index * upm.2 / upm.1 }

/-- The plugins of the examples: agent 0 is a decoder plugin that declares
`syn`, agent 1 a decoder plugin that declares `SYN` and `raw`, agent 2 a
renderer plugin.  Every decoder reports 1000 units in 1000 ms and at most 256
bytes per unit, and decodes frames of 100 bytes and 100 units; every call
succeeds and the volume level is 50. -/
def demoPlugins : Plugins :=
  { AgentType := fun a =>
      if a = 0 then PluginType.Decoder
      else if a = 1 then PluginType.Decoder
      else if a = 2 then PluginType.Renderer
      else PluginType.None
    FileSuffix := fun a _ => if a = 1 then ["SYN", "raw"] else ["syn"]
    DecoderOpen := fun _ _ _ => ErrorCode.Ok
    MaxBytesPerUnit := fun _ _ => 256
    UnitCount := fun _ _ => 1000
    Duration := fun _ _ => 1000
    Channels := fun _ _ => 2
    SampleRate := fun _ _ => 44100
    BitsPerSample := fun _ _ => 16
    Setup := fun _ _ _ _ _ => ErrorCode.Ok
    VolumeLevel := fun _ _ => 50
    DecodeUnit := fun _ _ => (100, 100) }

/-- The plugins of the examples with a renderer that refuses every format. -/
def demoPluginsNoSetup : Plugins :=
  { demoPlugins with Setup := fun _ _ _ _ _ => ErrorCode.Plugin 7 }

/-- The player of the examples after: register agent 0, register agent 1,
unregister agent 0.  Agent 1 holds `raw` with its instance 1; `syn` is free
again. -/
def demoAfterUnregister : Player :=
  { Player.init with
    m_DecoderPluginMap := [("raw", ⟨1, 1⟩)]
    nextObj := 3
    calls := [PluginCall.CreateObject 0 0, PluginCall.CreateObject 1 1,
              PluginCall.CreateObject 0 2, PluginCall.FreeObject 0 2,
              PluginCall.FreeObject 0 0] }

/-- The player of the examples after agent 1 is registered once more. -/
def demoRegisteredAgain : Player :=
  RegisterDecoderPlugin demoPlugins 1 demoAfterUnregister

/-- The player of the examples after the renderer plugin is registered and
`x.raw` is opened. -/
def demoOpened : Player :=
  (Open demoPlugins "x.raw" (RegisterRendererPlugin demoPlugins 2 demoRegisteredAgain)).2

/-- The player of the examples after the decoder plugin 0 and the renderer
plugin are registered and `a.syn` is opened: Stopped, 1000 units in 1000 ms. -/
def demoStopped : Player :=
  (Open demoPlugins "a.syn"
    (RegisterRendererPlugin demoPlugins 2 (RegisterDecoderPlugin demoPlugins 0 Player.init))).2

/-- The plugins of the examples with a decoder that reports a duration of 0 ms
for its 1000 units. -/
def demoPluginsNoDuration : Plugins :=
  { demoPlugins with Duration := fun _ _ => 0 }

/-- The player of the examples after the decoder plugin 0 and the renderer
plugin are registered and `a.syn` is opened, with a decoder that reports a
duration of 0 ms: Stopped, 1000 units in 0 ms. -/
def demoNoDuration : Player :=
  (Open demoPluginsNoDuration "a.syn"
    (RegisterRendererPlugin demoPluginsNoDuration 2
      (RegisterDecoderPlugin demoPluginsNoDuration 0 Player.init))).2

/-- The Stopped player of the examples after `Play()`: Playing, range 0 to
1000. -/
def demoPlaying : Player :=
  { demoStopped with
    m_UnitBeg := 0
    m_UnitEnd := 1000
    m_DecoderIndex := 0
    m_RendererIndex := 0
    calls := demoStopped.calls ++ [PluginCall.SetUnitIndex 0 0]
    m_SuspendRenderer := false
    m_SuspendDecoder := false
    m_Status := PlayerStatus.Playing }

/-- The plugins of the examples with a decoder that reports `2 ^ 53 + 1` units
in as many ms. -/
def demoPluginsLong : Plugins :=
  { demoPlugins with
    UnitCount := fun _ _ => 2 ^ 53 + 1
    Duration := fun _ _ => 2 ^ 53 + 1 }

/-- The player of the examples after `Open("a.syn")`, `Play()` and `Pause()` with
the decoder of `2 ^ 53 + 1` units: Paused, range 0 to `2 ^ 53 + 1`. -/
def demoLongPaused : Player :=
  Pause ((Play demoPluginsLong
    (Open demoPluginsLong "a.syn"
      (RegisterRendererPlugin demoPluginsLong 2
        (RegisterDecoderPlugin demoPluginsLong 0 Player.init))).2).getD Player.init)

/-- A slot of the examples as the decoder of the examples fills it: 100 bytes,
100 units. -/
def demoFrame : UnitBuffer :=
  { data := some 256, used := 100, max := 256, unitCount := 100 }

/-- The Stopped player of the examples after `PlayRange(250, 750)`. -/
def demoRanged : Player :=
  (PlayRange 250 750 demoStopped).getD demoStopped

/-- The player of the examples after `PlayRange(250, 750)` and the renderer
loop over five slots of 100 units. -/
def demoRangedDone : Player :=
  (ThRenderer.loop (List.replicate 5 demoFrame) demoRanged).getD demoRanged

/-- The players that follow a player by calls of `Open` and `Close`. -/
inductive OpenClose (env : Plugins) (p : Player) : Player → Prop where
  | start : OpenClose env p p
  | openFile {q : Player} (path : String) :
      OpenClose env p q → OpenClose env p (Open env path q).2
  | close {q r : Player} : OpenClose env p q → Close q = some r → OpenClose env p r

/-- The constant `MEDIAITEMS_IN_CHUNK` of `Session.cc`. -/
def MEDIAITEMS_IN_CHUNK : Nat := 20

/-- A packet that `Session::SendMediaItemsByChunk` hands to `SendOut`: the
playlist index, the count, and the items `list[off+i]` written after them,
`none` for an index outside the list. -/
structure AppendPacket (α : Type) where
  index : Int
  count : Nat
  items : List (Option α)
  deriving DecidableEq, Repr

/-- The loop of `Session::SendMediaItemsByChunk` from the offset `off`, run for
at most `fuel` passes, with the packets sent so far; `none` when the fuel is
used up before the loop ends. -/
def SendMediaItemsByChunk.loop {α : Type} (index : Int) (list : List α) :
    Nat → Nat → List (AppendPacket α) → Option (List (AppendPacket α))
  | fuel, off, sent =>
    if off < list.length then
      match fuel with
      | 0 => none
      | fuel + 1 =>
        let count := min (list.length - off) MEDIAITEMS_IN_CHUNK
        let items := (List.range count).map (fun i => list[off + i]?)
        SendMediaItemsByChunk.loop index list fuel (off + count)
          (sent ++ [{ index := index, count := count, items := items }])
    else some sent

/-- The function `Session::SendMediaItemsByChunk`: the packets sent, in order. -/
def SendMediaItemsByChunk {α : Type} (index : Int) (list : List α) (fuel : Nat) :
    Option (List (AppendPacket α)) :=
  SendMediaItemsByChunk.loop index list fuel 0 []

/-- The value of an `int` expression, in two's complement on 32 bits. -/
@[irreducible] def int32 (x : Int) : Int :=
  (x + 2 ^ 31) % 2 ^ 32 - 2 ^ 31

/-- The fields of `ExplorerView` that the scroll keys read and write: the file
items by name, the last elements of `m_BeginStack` and `m_SelectionStack`, and
the height `d.h` of the window. -/
structure ExplorerView where
  m_FileItems : List String
  beg : Int
  sel : Int
  h : Int
  deriving DecidableEq, Repr

/-- The function `ExplorerView::ScrollDown`. -/
def ScrollDown (v : ExplorerView) : ExplorerView :=
  let size := int32 v.m_FileItems.length
  let sel1 := if v.sel < int32 (size - 1) then int32 (v.sel + 1) else v.sel
  let beg1 :=
    if sel1 > Int.tdiv (int32 (v.h - 2)) 2 ∧
        v.beg < int32 (size - int32 (int32 (v.h - 2) - 1)) then
      int32 (v.beg + 1)
    else v.beg
  { v with sel := sel1, beg := beg1 }

/-- The function `ExplorerView::ScrollUp`. -/
def ScrollUp (v : ExplorerView) : ExplorerView :=
  let sel1 := if v.sel > 0 then int32 (v.sel - 1) else v.sel
  let beg1 :=
    if sel1 < int32 (v.beg + Int.tdiv (int32 (v.h - 2)) 2) ∧ v.beg > 0 then
      int32 (v.beg - 1)
    else v.beg
  { v with sel := sel1, beg := beg1 }

/-- The keys of `ExplorerView::InjectKey` that scroll; `j` and `k` are handled
as `KEY_DOWN` and `KEY_UP`. -/
inductive Key where
  | KEY_DOWN
  | KEY_UP
  | KEY_NPAGE
  | KEY_PPAGE
  | KEY_HOME
  | KEY_END
  deriving DecidableEq, Repr

/-- The function `ExplorerView::InjectKey` on the scroll keys. -/
def InjectKey (key : Key) (v : ExplorerView) : ExplorerView :=
  if v.m_FileItems = [] then v
  else
    match key with
    | Key.KEY_DOWN => ScrollDown v
    | Key.KEY_UP => ScrollUp v
    | Key.KEY_NPAGE =>
      let line := Int.tdiv (int32 (v.h - 3)) 2
      Nat.iterate ScrollDown line.toNat v
    | Key.KEY_PPAGE =>
      let line := Int.tdiv (int32 (v.h - 3)) 2
      Nat.iterate ScrollUp line.toNat v
    | Key.KEY_HOME => { v with beg := 0, sel := 0 }
    | Key.KEY_END =>
      { v with sel := int32 ((v.m_FileItems.length : Int) - 1),
               beg := max (int32 (int32 v.m_FileItems.length - int32 (v.h - 3))) 0 }

/-- A view with a non-empty list of fewer than `2 ^ 31` items, the selection
an index of the list, and the first visible index an `int` that is not
negative. -/
def ValidView (v : ExplorerView) : Prop :=
  v.m_FileItems ≠ [] ∧ (v.m_FileItems.length : Int) < 2 ^ 31 ∧
  0 ≤ v.sel ∧ v.sel < v.m_FileItems.length ∧ 0 ≤ v.beg ∧ v.beg < 2 ^ 31

/-- Whether a view is valid can be computed. -/
instance (v : ExplorerView) : Decidable (ValidView v) := by
  unfold ValidView
  infer_instance

/-- A view of the examples: three files in a window of height 4. -/
def demoView : ExplorerView :=
  { m_FileItems := ["a", "b", "c"], beg := 0, sel := 0, h := 4 }

/-- How a call on the control thread ends. -/
inductive Outcome (α : Type) where
  /-- The call returns. -/
  | returns (a : α)
  /-- The call dereferences a null pointer. -/
  | null
  /-- The call waits on a latch that no thread posts. -/
  | blocks
  /-- The fuel of the embedding is used up before the call returns. -/
  | fuel
  deriving DecidableEq, Repr

/-- Modelled from the spec: `scx::Semaphore` is not part of the sources.  A
latch is a counting semaphore, `Post` adds one, `Wait` blocks until the count is
positive and takes one, `Clear` sets the count to zero, and a new latch has the
count zero.  The player with its two end latches and the place of the two
worker threads: a worker is either at its wait on the wake latch, as it is
after the constructor, or in a playback cycle, which it began by clearing its
end latch and which it ends by posting it once its suspend flag is set. -/
structure Latched where
  player : Player
  /-- The renderer thread is in a playback cycle. -/
  rendererCycle : Bool
  /-- The count of `m_SemRendererEnd`. -/
  m_SemRendererEnd : Nat
  /-- The decoder thread is in a playback cycle. -/
  decoderCycle : Bool
  /-- The count of `m_SemDecoderEnd`. -/
  m_SemDecoderEnd : Nat
  deriving DecidableEq, Repr

/-- A new player: both workers wait on their wake latches, no latch is posted. -/
def Latched.init : Latched :=
  { player := Player.init
    rendererCycle := false
    m_SemRendererEnd := 0
    decoderCycle := false
    m_SemDecoderEnd := 0 }

/-- The call `m_SemRendererEnd.Wait()` of `Pause`, made after the suspend flag
is set: a renderer in a cycle ends the cycle and posts the latch, which the wait
takes; else the wait takes a post that is there; else no thread posts the latch
and the result is `none`. -/
def Latched.waitRendererEnd (s : Latched) : Option Latched :=
  if s.rendererCycle = true then some { s with rendererCycle := false }
  else if 0 < s.m_SemRendererEnd then some { s with m_SemRendererEnd := s.m_SemRendererEnd - 1 }
  else none

/-- The call `m_SemDecoderEnd.Wait()` of `Pause`. -/
def Latched.waitDecoderEnd (s : Latched) : Option Latched :=
  if s.decoderCycle = true then some { s with decoderCycle := false }
  else if 0 < s.m_SemDecoderEnd then some { s with m_SemDecoderEnd := s.m_SemDecoderEnd - 1 }
  else none

/-- The function `Player::Pause` with its two waits; the assignments are those
of `Pause`. -/
def Latched.Pause (s : Latched) : Outcome Latched :=
  if s.player.m_Status = PlayerStatus.Paused then Outcome.returns s
  else
    match Latched.waitRendererEnd s with
    | none => Outcome.blocks
    | some s1 =>
      match Latched.waitDecoderEnd s1 with
      | none => Outcome.blocks
      | some s2 => Outcome.returns { s2 with player := mous.Pause s.player }

/-- The function `Player::Close` with the waits of `Pause`. -/
def Latched.Close (s : Latched) : Outcome Latched :=
  if s.player.m_Status = PlayerStatus.Closed then Outcome.returns s
  else
    match Latched.Pause s with
    | Outcome.returns s1 =>
      match s1.player.m_Decoder with
      | none => Outcome.null
      | some d =>
        Outcome.returns
          { s1 with player :=
              { s1.player with calls := s1.player.calls ++ [PluginCall.DecoderClose d],
                               m_Decoder := none,
                               m_DecodeFile := "",
                               m_Status := PlayerStatus.Closed } }
    | Outcome.null => Outcome.null
    | Outcome.blocks => Outcome.blocks
    | Outcome.fuel => Outcome.fuel

/-- The loop of `RemoveDecoderPlugin` with the waits of `Pause`. -/
def Latched.RemoveDecoderPlugin.loop (pAgent : Agent) :
    List String → Bool → Latched → Outcome Latched
  | [], _, s => Outcome.returns s
  | item :: rest, freedOnce, s =>
    let suffix := ToLower item
    match mapFind s.player.m_DecoderPluginMap suffix with
    | none => Latched.RemoveDecoderPlugin.loop pAgent rest freedOnce s
    | some node =>
      if node.agent = pAgent then
        if freedOnce = false then
          match (if some node.decoder = s.player.m_Decoder then Latched.Close s
                 else Outcome.returns s) with
          | Outcome.returns s1 =>
            let p2 := { s1.player with
              calls := s1.player.calls ++ [PluginCall.FreeObject pAgent node.decoder] }
            Latched.RemoveDecoderPlugin.loop pAgent rest true
              { s1 with player :=
                  { p2 with m_DecoderPluginMap := mapErase p2.m_DecoderPluginMap suffix } }
          | Outcome.null => Outcome.null
          | Outcome.blocks => Outcome.blocks
          | Outcome.fuel => Outcome.fuel
        else
          Latched.RemoveDecoderPlugin.loop pAgent rest freedOnce
            { s with player :=
                { s.player with
                  m_DecoderPluginMap := mapErase s.player.m_DecoderPluginMap suffix } }
      else Latched.RemoveDecoderPlugin.loop pAgent rest freedOnce s

/-- The function `Player::RemoveDecoderPlugin` with the waits of `Pause`. -/
def Latched.RemoveDecoderPlugin (env : Plugins) (pAgent : Agent) (s : Latched) :
    Outcome Latched :=
  let pDecoder := s.player.nextObj
  let list := env.FileSuffix pAgent pDecoder
  let p1 := { s.player with
    nextObj := s.player.nextObj + 1,
    calls := s.player.calls ++ [PluginCall.CreateObject pAgent pDecoder,
                                PluginCall.FreeObject pAgent pDecoder] }
  Latched.RemoveDecoderPlugin.loop pAgent list false { s with player := p1 }

/-- The while loop of `Player::UnregisterAll` with the waits of `Pause`, run for
at most `fuel` iterations. -/
def Latched.UnregisterAll.loop (env : Plugins) : Nat → Latched → Outcome Latched
  | fuel, s =>
    match s.player.m_DecoderPluginMap with
    | [] => Outcome.returns s
    | e :: _ =>
      match fuel with
      | 0 => Outcome.fuel
      | fuel + 1 =>
        match Latched.RemoveDecoderPlugin env e.2.agent s with
        | Outcome.returns s1 => Latched.UnregisterAll.loop env fuel s1
        | Outcome.null => Outcome.null
        | Outcome.blocks => Outcome.blocks
        | Outcome.fuel => Outcome.fuel

/-- The function `Player::UnregisterAll` with the waits of `Pause`. -/
def Latched.UnregisterAll (env : Plugins) (fuel : Nat) (s : Latched) : Outcome Latched :=
  match Latched.UnregisterAll.loop env fuel s with
  | Outcome.returns s1 =>
    match UnsetRendererPlugin s1.player.m_RendererPlugin s1.player with
    | none => Outcome.null
    | some q => Outcome.returns { s1 with player := q }
  | Outcome.null => Outcome.null
  | Outcome.blocks => Outcome.blocks
  | Outcome.fuel => Outcome.fuel

/-- The function `Player::PlayRange` with its latches: the two wake latches are
posted and the waits on the two begin latches return once each worker has begun
a cycle, in which it clears its end latch. -/
def Latched.PlayRange (beg : Nat) (end_ : Nat) (s : Latched) : Outcome Latched :=
  match mous.PlayRange beg end_ s.player with
  | none => Outcome.null
  | some q =>
    Outcome.returns
      { player := q
        rendererCycle := true
        m_SemRendererEnd := 0
        decoderCycle := true
        m_SemDecoderEnd := 0 }

/-- The function `Player::Play()` with the latches of `PlayRange`. -/
def Latched.Play (env : Plugins) (s : Latched) : Outcome Latched :=
  match s.player.m_Decoder with
  | none => Outcome.null
  | some d => Latched.PlayRange 0 (env.UnitCount s.player.calls d) s

/-- The state in which a call returned, if it did. -/
def Outcome.toOption {α : Type} : Outcome α → Option α
  | Outcome.returns a => some a
  | _ => none

/-- The waits of `Pause` return: the player is Closed, where `Close` does not
call `Pause`, or Paused, where `Pause` returns at once, or each worker is in a
cycle or has posted its end latch. -/
def Latched.Pending (s : Latched) : Prop :=
  s.player.m_Status = PlayerStatus.Closed ∨ s.player.m_Status = PlayerStatus.Paused ∨
    ((s.rendererCycle = true ∨ 0 < s.m_SemRendererEnd) ∧
     (s.decoderCycle = true ∨ 0 < s.m_SemDecoderEnd))

/-- The Stopped player of the examples with its latches: no `Play` or `Resume`
has run, both workers wait on their wake latches and no end latch is posted. -/
def demoLatchedStopped : Latched :=
  { Latched.init with player := demoStopped }

/-- The decoders that the agent makes all declare one and the same suffix list. -/
def FixedSuffixes (env : Plugins) (a : Agent) : Prop :=
  ∀ o1 o2 : Obj, env.FileSuffix a o1 = env.FileSuffix a o2

/-- A string without a letter `A`..`Z`. -/
def IsLowercase (s : String) : Prop :=
  ∀ c ∈ s.data, c.isUpper = false

/-- The states of the player that the command surface reaches from a new
player.  The overloads that take a vector of agents are runs of the calls with
one agent.  `other` stands for the remaining members (`Play`, `Pause`,
`Resume`, the seeks, `SetVolume`, `SetBufferCount`) and for the steps of the
two worker threads: none of them assigns `m_DecoderPluginMap`,
`m_RendererPlugin` or `m_Renderer`. -/
inductive Reachable (env : Plugins) : Player → Prop where
  | init : Reachable env Player.init
  | registerDecoder {p : Player} (a : Agent) :
      Reachable env p → Reachable env (RegisterDecoderPlugin env a p)
  | registerRenderer {p : Player} (a : Agent) :
      Reachable env p → Reachable env (RegisterRendererPlugin env a p)
  | unregister {p q : Player} (a : Agent) :
      Reachable env p → UnregisterPlugin env a p = some q → Reachable env q
  | unregisterAll {p q : Player} (fuel : Nat) :
      Reachable env p → UnregisterAll env fuel p = some q → Reachable env q
  | openFile {p : Player} (path : String) :
      Reachable env p → Reachable env (Open env path p).2
  | close {p q : Player} :
      Reachable env p → Close p = some q → Reachable env q
  | other {p q : Player} :
      Reachable env p →
      q.m_DecoderPluginMap = p.m_DecoderPluginMap →
      q.m_RendererPlugin = p.m_RendererPlugin →
      q.m_Renderer = p.m_Renderer →
      Reachable env q

/-- What every reachable registry satisfies: the keys of the decoder map are
pairwise different, every key is the lowercase form of a suffix that a decoder
of its agent declares, every agent in the map is a decoder plugin, and the
renderer agent is null exactly when the renderer instance is. -/
structure Registered (env : Plugins) (p : Player) : Prop where
  keys : (p.m_DecoderPluginMap.map (fun entry => entry.1)).Nodup
  declared : ∀ e ∈ p.m_DecoderPluginMap,
    ∃ o : Obj, e.1 ∈ (env.FileSuffix e.2.agent o).map ToLower
  decoders : ∀ e ∈ p.m_DecoderPluginMap, env.AgentType e.2.agent = PluginType.Decoder
  slot : p.m_RendererPlugin = none ↔ p.m_Renderer = none

/-! ## The decoder map -/

theorem mapFind_eq_none_iff (m : DecoderPluginMap) (key : String) :
    mapFind m key = none ↔ key ∉ m.map (fun entry => entry.1) := by
  induction m with
  | nil => simp [mapFind]
  | cons e rest ih =>
    obtain ⟨k, n⟩ := e
    by_cases h : k = key
    · simp [mapFind, h]
    · have h2 : ¬ key = k := fun h3 => h h3.symm
      simp [mapFind, h, h2, ih]

theorem mapFind_mem {m : DecoderPluginMap} {key : String} {node : DecoderPluginNode}
    (h : mapFind m key = some node) : (key, node) ∈ m := by
  induction m with
  | nil => simp [mapFind] at h
  | cons e rest ih =>
    obtain ⟨k, n⟩ := e
    by_cases hk : k = key
    · simp [mapFind, hk] at h
      simp [hk, h]
    · simp [mapFind, hk] at h
      exact List.mem_cons_of_mem _ (ih h)

/-! ## Open -/

/-- C1: `Open(path)` returns `PlayerNoDecoder` when the lowercased suffix of
the path is not a key of the decoder map; else `PlayerNoRenderer` when no
renderer is set; else what the decoder answers to `Open(path)` when that is not
`Ok`; else what the renderer answers to `Setup` with the channels, sample rate
and bits per sample that the decoder reports. -/
theorem Open_result (env : Plugins) (path : String) (p : Player) :
    (mapFind p.m_DecoderPluginMap (ToLower (FileHelper.FileSuffix path)) = none ↔
        ToLower (FileHelper.FileSuffix path) ∉ SupportedSuffixes p) ∧
    (Open env path p).1 =
      match mapFind p.m_DecoderPluginMap (ToLower (FileHelper.FileSuffix path)) with
      | none => ErrorCode.PlayerNoDecoder
      | some node =>
        match p.m_Renderer with
        | none => ErrorCode.PlayerNoRenderer
        | some r =>
          if env.DecoderOpen p.calls node.decoder path ≠ ErrorCode.Ok then
            env.DecoderOpen p.calls node.decoder path
          else
            env.Setup (p.calls ++ [PluginCall.DecoderOpen node.decoder path]) r
              (env.Channels (p.calls ++ [PluginCall.DecoderOpen node.decoder path]) node.decoder)
              (env.SampleRate (p.calls ++ [PluginCall.DecoderOpen node.decoder path]) node.decoder)
              (env.BitsPerSample (p.calls ++ [PluginCall.DecoderOpen node.decoder path]) node.decoder) := by
  refine ⟨mapFind_eq_none_iff _ _, ?_⟩
  simp only [Open]
  cases hf : mapFind p.m_DecoderPluginMap (ToLower (FileHelper.FileSuffix path)) with
  | none => rfl
  | some node =>
    cases hr : p.m_Renderer with
    | none => rfl
    | some r =>
      by_cases he : env.DecoderOpen p.calls node.decoder path = ErrorCode.Ok
      · simp only [he, ne_eq, not_true_eq_false, if_false]
        split <;> rfl
      · simp [he]

/-- C2: from status Closed, `Open(path)` leaves the status Stopped exactly when
it returns `Ok`, and leaves it Closed on every failure; with a decoder
registered for the suffix and no renderer set it returns `PlayerNoRenderer`
and the status stays Closed. -/
theorem Open_status (env : Plugins) (path : String) (p : Player)
    (hclosed : p.m_Status = PlayerStatus.Closed) :
    ((Open env path p).2.m_Status = PlayerStatus.Stopped ↔ (Open env path p).1 = ErrorCode.Ok) ∧
    ((Open env path p).1 ≠ ErrorCode.Ok → (Open env path p).2.m_Status = PlayerStatus.Closed) ∧
    (ToLower (FileHelper.FileSuffix path) ∈ SupportedSuffixes p → p.m_Renderer = none →
      (Open env path p).1 = ErrorCode.PlayerNoRenderer ∧
      (Open env path p).2.m_Status = PlayerStatus.Closed) := by
  have hkey := mapFind_eq_none_iff p.m_DecoderPluginMap (ToLower (FileHelper.FileSuffix path))
  simp only [Open]
  cases hf : mapFind p.m_DecoderPluginMap (ToLower (FileHelper.FileSuffix path)) with
  | none =>
    rw [hf] at hkey
    have hno : ToLower (FileHelper.FileSuffix path) ∉ SupportedSuffixes p := hkey.mp rfl
    simp [hclosed, hno]
  | some node =>
    cases hr : p.m_Renderer with
    | none => simp [hclosed]
    | some r =>
      by_cases he : env.DecoderOpen p.calls node.decoder path = ErrorCode.Ok
      · simp only [he, ne_eq, not_true_eq_false, if_false]
        split
        · next h2 => simp [hclosed, h2]
        · next h2 =>
          have h3 := not_not.mp h2
          simp [h3]
      · simp [he, hclosed]

/-- Witness of C2: the synthetic decoder registered, no renderer, status Closed. -/
theorem Open_status_witness :
    (RegisterDecoderPlugin demoPlugins 0 Player.init).m_Status = PlayerStatus.Closed ∧
    (Open demoPlugins "a.syn" (RegisterDecoderPlugin demoPlugins 0 Player.init)).1
      = ErrorCode.PlayerNoRenderer ∧
    (Open demoPlugins "a.syn" (RegisterDecoderPlugin demoPlugins 0 Player.init)).2.m_Status
      = PlayerStatus.Closed :=
  ⟨by decide,
   (Open_status demoPlugins "a.syn" (RegisterDecoderPlugin demoPlugins 0 Player.init)
      (by decide)).2.2 (by decide) (by decide)⟩

theorem mapFind_mapEmplace {m : DecoderPluginMap} {key : String} (node : DecoderPluginNode)
    (h : mapFind m key = none) (k : String) :
    mapFind (mapEmplace m key node) k = if k = key then some node else mapFind m k := by
  induction m with
  | nil =>
    by_cases hk : k = key
    · simp [mapEmplace, mapFind, hk]
    · have hk2 : ¬ key = k := fun h3 => hk h3.symm
      simp [mapEmplace, mapFind, hk, hk2]
  | cons e rest ih =>
    obtain ⟨k0, n0⟩ := e
    have h0 : ¬ k0 = key := by
      intro h1
      simp [mapFind, h1] at h
    have hrest : mapFind rest key = none := by
      simpa [mapFind, h0] using h
    by_cases hlt : key.data < k0.data
    · by_cases hk : k = key
      · simp [mapEmplace, hlt, mapFind, hk]
      · have hk2 : ¬ key = k := fun h3 => hk h3.symm
        simp [mapEmplace, hlt, mapFind, hk, hk2]
    · by_cases hk : k = key
      · subst hk
        simp [mapEmplace, hlt, mapFind, h0, ih hrest]
      · by_cases hk0 : k0 = k
        · subst hk0
          simp [mapEmplace, hlt, mapFind, h0]
        · simp [mapEmplace, hlt, mapFind, h0, hk0, hk, ih hrest]

theorem mapEmplace_perm {m : DecoderPluginMap} {key : String} (node : DecoderPluginNode)
    (h : mapFind m key = none) :
    List.Perm (mapEmplace m key node) ((key, node) :: m) := by
  induction m with
  | nil => simp [mapEmplace]
  | cons e rest ih =>
    obtain ⟨k0, n0⟩ := e
    have h0 : ¬ k0 = key := by
      intro h1
      simp [mapFind, h1] at h
    have hrest : mapFind rest key = none := by
      simpa [mapFind, h0] using h
    by_cases hlt : key.data < k0.data
    · simp [mapEmplace, hlt]
    · simp only [mapEmplace, hlt, h0, if_false]
      exact ((ih hrest).cons (k0, n0)).trans (List.Perm.swap _ _ _)

theorem AddDecoderPlugin.loop_find (a : Agent) (d : Obj) (L : List String)
    (m : DecoderPluginMap) (b : Bool) (k : String) :
    mapFind (AddDecoderPlugin.loop a d L (m, b)).1 k =
      match mapFind m k with
      | some n => some n
      | none => if k ∈ L.map ToLower then some ⟨a, d⟩ else none := by
  induction L generalizing m b with
  | nil =>
    simp only [AddDecoderPlugin.loop]
    cases mapFind m k <;> simp
  | cons item rest ih =>
    cases hs : mapFind m (ToLower item) with
    | none =>
      simp only [AddDecoderPlugin.loop, hs]
      rw [ih, mapFind_mapEmplace _ hs]
      by_cases hk : k = ToLower item
      · subst hk
        simp [hs]
      · cases mapFind m k <;> simp [hk]
    | some n0 =>
      simp only [AddDecoderPlugin.loop, hs]
      rw [ih]
      cases hmk : mapFind m k with
      | some n => rfl
      | none =>
        have hne : ¬ k = ToLower item := by
          intro h
          rw [h, hs] at hmk
          cases hmk
        simp [hne]

theorem AddDecoderPlugin.loop_used (a : Agent) (d : Obj) (L : List String)
    (m : DecoderPluginMap) (b : Bool) :
    (AddDecoderPlugin.loop a d L (m, b)).2 = true ↔
      b = true ∨ ∃ k ∈ L.map ToLower, mapFind m k = none := by
  induction L generalizing m b with
  | nil => simp [AddDecoderPlugin.loop]
  | cons item rest ih =>
    cases hs : mapFind m (ToLower item) with
    | none =>
      simp only [AddDecoderPlugin.loop, hs]
      rw [ih]
      simp only [true_or, true_iff]
      exact Or.inr ⟨ToLower item, by simp, hs⟩
    | some n0 =>
      simp only [AddDecoderPlugin.loop, hs]
      rw [ih]
      simp [hs]

theorem AddDecoderPlugin.loop_unchanged (a : Agent) (d : Obj) (L : List String)
    (m : DecoderPluginMap) (b : Bool) (h : ∀ k ∈ L.map ToLower, mapFind m k ≠ none) :
    AddDecoderPlugin.loop a d L (m, b) = (m, b) := by
  induction L generalizing m b with
  | nil => simp [AddDecoderPlugin.loop]
  | cons item rest ih =>
    cases hs : mapFind m (ToLower item) with
    | none => exact absurd hs (h _ (by simp))
    | some n0 =>
      simp only [AddDecoderPlugin.loop, hs]
      exact ih m b (fun k hk => h k (by simp at hk ⊢; exact Or.inr hk))

theorem AddDecoderPlugin.loop_mem (a : Agent) (d : Obj) (L : List String)
    (m : DecoderPluginMap) (b : Bool) (e : String × DecoderPluginNode)
    (he : e ∈ (AddDecoderPlugin.loop a d L (m, b)).1) :
    e ∈ m ∨ (e.2 = ⟨a, d⟩ ∧ e.1 ∈ L.map ToLower) := by
  induction L generalizing m b with
  | nil => exact Or.inl (by simpa [AddDecoderPlugin.loop] using he)
  | cons item rest ih =>
    cases hs : mapFind m (ToLower item) with
    | none =>
      simp only [AddDecoderPlugin.loop, hs] at he
      rcases ih _ _ he with h1 | h1
      · rcases List.mem_cons.mp ((mapEmplace_perm _ hs).mem_iff.mp h1) with h2 | h2
        · subst h2
          exact Or.inr ⟨rfl, by simp⟩
        · exact Or.inl h2
      · exact Or.inr ⟨h1.1, by
          have h2 := h1.2
          simp at h2 ⊢
          exact Or.inr h2⟩
    | some n0 =>
      simp only [AddDecoderPlugin.loop, hs] at he
      rcases ih _ _ he with h1 | h1
      · exact Or.inl h1
      · exact Or.inr ⟨h1.1, by
          have h2 := h1.2
          simp at h2 ⊢
          exact Or.inr h2⟩

theorem AddDecoderPlugin.loop_nodup (a : Agent) (d : Obj) (L : List String)
    (m : DecoderPluginMap) (b : Bool) (h : (m.map (fun entry => entry.1)).Nodup) :
    ((AddDecoderPlugin.loop a d L (m, b)).1.map (fun entry => entry.1)).Nodup := by
  induction L generalizing m b with
  | nil => simpa [AddDecoderPlugin.loop] using h
  | cons item rest ih =>
    cases hs : mapFind m (ToLower item) with
    | none =>
      simp only [AddDecoderPlugin.loop, hs]
      apply ih
      have hp := (mapEmplace_perm (⟨a, d⟩ : DecoderPluginNode) hs).map (fun entry => entry.1)
      rw [hp.nodup_iff]
      simp only [List.map_cons, List.nodup_cons]
      exact ⟨(mapFind_eq_none_iff m _).mp hs, h⟩
    | some n0 =>
      simp only [AddDecoderPlugin.loop, hs]
      exact ih m b h

theorem AddDecoderPlugin_map (env : Plugins) (a : Agent) (p : Player) :
    (AddDecoderPlugin env a p).m_DecoderPluginMap =
      (AddDecoderPlugin.loop a p.nextObj (env.FileSuffix a p.nextObj)
        (p.m_DecoderPluginMap, false)).1 := by
  simp only [AddDecoderPlugin]
  split <;> rfl

theorem AddDecoderPlugin_nextObj (env : Plugins) (a : Agent) (p : Player) :
    (AddDecoderPlugin env a p).nextObj = p.nextObj + 1 := by
  simp only [AddDecoderPlugin]
  split <;> rfl

theorem AddDecoderPlugin_slot (env : Plugins) (a : Agent) (p : Player) :
    (AddDecoderPlugin env a p).m_RendererPlugin = p.m_RendererPlugin ∧
    (AddDecoderPlugin env a p).m_Renderer = p.m_Renderer := by
  simp only [AddDecoderPlugin]
  split <;> exact ⟨rfl, rfl⟩

theorem AddDecoderPlugin_calls (env : Plugins) (a : Agent) (p : Player) :
    (AddDecoderPlugin env a p).calls =
      p.calls ++ PluginCall.CreateObject a p.nextObj ::
        (if ∀ k ∈ (env.FileSuffix a p.nextObj).map ToLower, mapFind p.m_DecoderPluginMap k ≠ none
          then [PluginCall.FreeObject a p.nextObj] else []) := by
  have hused := AddDecoderPlugin.loop_used a p.nextObj (env.FileSuffix a p.nextObj)
    p.m_DecoderPluginMap false
  simp only [AddDecoderPlugin]
  split
  · next h =>
    have hall : ∀ k ∈ (env.FileSuffix a p.nextObj).map ToLower,
        mapFind p.m_DecoderPluginMap k ≠ none := by
      intro k hk hnone
      have h2 := hused.mpr (Or.inr ⟨k, hk, hnone⟩)
      rw [h] at h2
      cases h2
    rw [if_pos hall]
    simp
  · next h =>
    have hnot : ¬ ∀ k ∈ (env.FileSuffix a p.nextObj).map ToLower,
        mapFind p.m_DecoderPluginMap k ≠ none := by
      intro hall
      have h2 : (AddDecoderPlugin.loop a p.nextObj (env.FileSuffix a p.nextObj)
          (p.m_DecoderPluginMap, false)).2 = true := by
        simpa using h
      rcases hused.mp h2 with h3 | ⟨k, hk, hnone⟩
      · cases h3
      · exact hall k hk hnone
    rw [if_neg hnot]

/-- C4: `AddDecoderPlugin(agent)` creates one decoder instance; afterwards a
key that was in the map holds its old entry, a key that was not in the map and
is the lowercase form of a declared suffix holds the agent with the new
instance, and no other key is in the map.  The new instance is freed, by the
agent, exactly when every lowercased suffix was a key already, and then the map
is the old map.  Registering the agent a second time, with the same suffix
list, leaves the map as it is and frees the second instance. -/
theorem AddDecoderPlugin_spec (env : Plugins) (a : Agent) (p : Player) :
    (∀ k, mapFind (AddDecoderPlugin env a p).m_DecoderPluginMap k =
        match mapFind p.m_DecoderPluginMap k with
        | some n => some n
        | none =>
          if k ∈ (env.FileSuffix a p.nextObj).map ToLower then some ⟨a, p.nextObj⟩ else none) ∧
    (AddDecoderPlugin env a p).calls =
      p.calls ++ PluginCall.CreateObject a p.nextObj ::
        (if ∀ k ∈ (env.FileSuffix a p.nextObj).map ToLower, mapFind p.m_DecoderPluginMap k ≠ none
          then [PluginCall.FreeObject a p.nextObj] else []) ∧
    ((∀ k ∈ (env.FileSuffix a p.nextObj).map ToLower, mapFind p.m_DecoderPluginMap k ≠ none) →
      (AddDecoderPlugin env a p).m_DecoderPluginMap = p.m_DecoderPluginMap) ∧
    (env.FileSuffix a (p.nextObj + 1) = env.FileSuffix a p.nextObj →
      (AddDecoderPlugin env a (AddDecoderPlugin env a p)).m_DecoderPluginMap =
        (AddDecoderPlugin env a p).m_DecoderPluginMap ∧
      (AddDecoderPlugin env a (AddDecoderPlugin env a p)).calls =
        (AddDecoderPlugin env a p).calls ++
          [PluginCall.CreateObject a (p.nextObj + 1), PluginCall.FreeObject a (p.nextObj + 1)]) := by
  have hfind : ∀ (q : Player) (k : String),
      mapFind (AddDecoderPlugin env a q).m_DecoderPluginMap k =
        match mapFind q.m_DecoderPluginMap k with
        | some n => some n
        | none =>
          if k ∈ (env.FileSuffix a q.nextObj).map ToLower then some ⟨a, q.nextObj⟩ else none := by
    intro q k
    rw [AddDecoderPlugin_map]
    exact AddDecoderPlugin.loop_find a q.nextObj _ _ false k
  have hsame : ∀ q : Player,
      (∀ k ∈ (env.FileSuffix a q.nextObj).map ToLower, mapFind q.m_DecoderPluginMap k ≠ none) →
      (AddDecoderPlugin env a q).m_DecoderPluginMap = q.m_DecoderPluginMap := by
    intro q hall
    rw [AddDecoderPlugin_map, AddDecoderPlugin.loop_unchanged a q.nextObj _ _ false hall]
  refine ⟨hfind p, AddDecoderPlugin_calls env a p, hsame p, ?_⟩
  intro hfix
  have hall : ∀ k ∈ (env.FileSuffix a (AddDecoderPlugin env a p).nextObj).map ToLower,
      mapFind (AddDecoderPlugin env a p).m_DecoderPluginMap k ≠ none := by
    intro k hk
    rw [AddDecoderPlugin_nextObj, hfix] at hk
    rw [hfind p k]
    cases mapFind p.m_DecoderPluginMap k with
    | some n => simp
    | none => simp [hk]
  refine ⟨hsame _ hall, ?_⟩
  rw [AddDecoderPlugin_calls env a (AddDecoderPlugin env a p), if_pos hall, AddDecoderPlugin_nextObj]

/-- Witness of C4: the synthetic decoder plugin registered twice. -/
theorem AddDecoderPlugin_spec_witness :
    (AddDecoderPlugin demoPlugins 0 Player.init).m_DecoderPluginMap = [("syn", ⟨0, 0⟩)] ∧
    (AddDecoderPlugin demoPlugins 0 (AddDecoderPlugin demoPlugins 0 Player.init)).m_DecoderPluginMap =
      (AddDecoderPlugin demoPlugins 0 Player.init).m_DecoderPluginMap ∧
    (AddDecoderPlugin demoPlugins 0 (AddDecoderPlugin demoPlugins 0 Player.init)).calls =
      (AddDecoderPlugin demoPlugins 0 Player.init).calls ++
        [PluginCall.CreateObject 0 (Player.init.nextObj + 1),
         PluginCall.FreeObject 0 (Player.init.nextObj + 1)] :=
  ⟨by decide, (AddDecoderPlugin_spec demoPlugins 0 Player.init).2.2.2 (by decide)⟩

theorem mapFind_of_mem {m : DecoderPluginMap} (hm : (m.map (fun entry => entry.1)).Nodup)
    {key : String} {node : DecoderPluginNode} (h : (key, node) ∈ m) :
    mapFind m key = some node := by
  induction m with
  | nil => cases h
  | cons e rest ih =>
    obtain ⟨k0, n0⟩ := e
    simp only [List.map_cons, List.nodup_cons] at hm
    rcases List.mem_cons.mp h with h1 | h1
    · cases h1
      simp [mapFind]
    · have hne : ¬ k0 = key := by
        intro h2
        apply hm.1
        rw [h2]
        exact List.mem_map.mpr ⟨(key, node), h1, rfl⟩
      simp [mapFind, hne, ih hm.2 h1]

theorem keys_nodup_filter {m : DecoderPluginMap} (hm : (m.map (fun entry => entry.1)).Nodup)
    (f : String × DecoderPluginNode → Bool) :
    ((m.filter f).map (fun entry => entry.1)).Nodup :=
  List.Nodup.sublist ((List.filter_sublist m).map _) hm

theorem Pause_fields (p : Player) :
    (Pause p).m_DecoderPluginMap = p.m_DecoderPluginMap ∧
    (Pause p).m_RendererPlugin = p.m_RendererPlugin ∧
    (Pause p).m_Renderer = p.m_Renderer ∧
    (Pause p).m_Decoder = p.m_Decoder ∧
    (Pause p).nextObj = p.nextObj ∧
    (Pause p).calls = p.calls := by
  unfold Pause
  by_cases h1 : p.m_Status = PlayerStatus.Paused
  · simp [h1]
  · by_cases h2 : p.m_SuspendRenderer = false <;> by_cases h3 : p.m_SuspendDecoder = false <;>
      simp [h1, h2, h3]

theorem Close_fields {p q : Player} (h : Close p = some q) :
    q.m_DecoderPluginMap = p.m_DecoderPluginMap ∧
    q.m_RendererPlugin = p.m_RendererPlugin ∧
    q.m_Renderer = p.m_Renderer ∧
    q.nextObj = p.nextObj := by
  have hp := Pause_fields p
  unfold Close at h
  split at h
  · cases h
    simp
  · simp only at h
    split at h
    · cases h
    · cases h
      simp [hp.1, hp.2.1, hp.2.2.1, hp.2.2.2.2.1]

theorem Close_isSome {p : Player} {d : Obj} (h : p.m_Decoder = some d) :
    ∃ q, Close p = some q := by
  have hp := (Pause_fields p).2.2.2.1
  rw [h] at hp
  unfold Close
  split
  · exact ⟨p, rfl⟩
  · simp only [hp]
    exact ⟨_, rfl⟩

/-- What the loop of `RemoveDecoderPlugin` leaves in a map with unique keys:
the entries of the agent under the lowercased suffixes are gone, the renderer
slot is as before. -/
theorem RemoveDecoderPlugin.loop_spec (a : Agent) (L : List String) (b : Bool) (p : Player)
    (hm : (p.m_DecoderPluginMap.map (fun entry => entry.1)).Nodup) :
    ∃ q, RemoveDecoderPlugin.loop a L b p = some q ∧
      q.m_DecoderPluginMap = p.m_DecoderPluginMap.filter
        (fun e => !(decide (e.1 ∈ L.map ToLower) && decide (e.2.agent = a))) ∧
      q.m_RendererPlugin = p.m_RendererPlugin ∧
      q.m_Renderer = p.m_Renderer := by
  induction L generalizing b p with
  | nil => exact ⟨p, rfl, by simp, rfl, rfl⟩
  | cons item rest ih =>
    have herase : ∀ node : DecoderPluginNode,
        mapFind p.m_DecoderPluginMap (ToLower item) = some node → node.agent = a →
        (mapErase p.m_DecoderPluginMap (ToLower item)).filter
            (fun e => !(decide (e.1 ∈ rest.map ToLower) && decide (e.2.agent = a))) =
          p.m_DecoderPluginMap.filter
            (fun e => !(decide (e.1 ∈ (item :: rest).map ToLower) && decide (e.2.agent = a))) := by
      intro node hs ha
      unfold mapErase
      rw [List.filter_filter]
      apply List.filter_congr
      intro e he
      by_cases hk : e.1 = ToLower item
      · have h2 : mapFind p.m_DecoderPluginMap e.1 = some e.2 := mapFind_of_mem hm he
        rw [hk, hs] at h2
        cases h2
        simp [hk, ha]
      · simp [hk]
    cases hs : mapFind p.m_DecoderPluginMap (ToLower item) with
    | none =>
      simp only [RemoveDecoderPlugin.loop, hs]
      obtain ⟨q, h1, h2, h3⟩ := ih b p hm
      refine ⟨q, h1, ?_, h3⟩
      rw [h2]
      apply List.filter_congr
      intro e he
      have hk : ¬ e.1 = ToLower item := by
        intro h4
        have h5 := (mapFind_eq_none_iff _ _).mp hs
        apply h5
        rw [← h4]
        exact List.mem_map.mpr ⟨e, he, rfl⟩
      simp [hk]
    | some node =>
      by_cases ha : node.agent = a
      · cases b with
        | false =>
          by_cases hd : some node.decoder = p.m_Decoder
          · obtain ⟨p1, hc⟩ := Close_isSome hd.symm
            have hf := Close_fields hc
            simp only [RemoveDecoderPlugin.loop, hs, ha, if_true, hd, hc]
            obtain ⟨q, h1, h2, h3, h4⟩ := ih true
              { p1 with calls := p1.calls ++ [PluginCall.FreeObject a node.decoder],
                        m_DecoderPluginMap := mapErase p1.m_DecoderPluginMap (ToLower item) }
              (by
                simp only [hf.1]
                exact keys_nodup_filter hm _)
            refine ⟨q, h1, ?_, ?_, ?_⟩
            · rw [h2]
              simp only [hf.1]
              exact herase node hs ha
            · rw [h3]
              exact hf.2.1
            · rw [h4]
              exact hf.2.2.1
          · simp only [RemoveDecoderPlugin.loop, hs, ha, if_true, hd, if_false]
            obtain ⟨q, h1, h2, h3, h4⟩ := ih true
              { p with calls := p.calls ++ [PluginCall.FreeObject a node.decoder],
                       m_DecoderPluginMap := mapErase p.m_DecoderPluginMap (ToLower item) }
              (keys_nodup_filter hm _)
            refine ⟨q, h1, ?_, h3, h4⟩
            rw [h2]
            exact herase node hs ha
        | true =>
          simp only [RemoveDecoderPlugin.loop, hs, ha, if_true, Bool.true_eq_false, if_false]
          obtain ⟨q, h1, h2, h3, h4⟩ := ih true
            { p with m_DecoderPluginMap := mapErase p.m_DecoderPluginMap (ToLower item) }
            (keys_nodup_filter hm _)
          refine ⟨q, h1, ?_, h3, h4⟩
          rw [h2]
          exact herase node hs ha
      · simp only [RemoveDecoderPlugin.loop, hs, ha, if_false]
        obtain ⟨q, h1, h2, h3⟩ := ih b p hm
        refine ⟨q, h1, ?_, h3⟩
        rw [h2]
        apply List.filter_congr
        intro e he
        by_cases hk : e.1 = ToLower item
        · have h5 : mapFind p.m_DecoderPluginMap e.1 = some e.2 := mapFind_of_mem hm he
          rw [hk, hs] at h5
          cases h5
          simp [ha]
        · simp [hk]

/-! ## The registry invariant -/

theorem Registered.mono {env : Plugins} {p q : Player} (hp : Registered env p)
    (hmap : q.m_DecoderPluginMap.Sublist p.m_DecoderPluginMap)
    (hagent : q.m_RendererPlugin = p.m_RendererPlugin)
    (hrend : q.m_Renderer = p.m_Renderer) : Registered env q where
  keys := List.Nodup.sublist (hmap.map _) hp.keys
  declared := fun e he => hp.declared e (hmap.subset he)
  decoders := fun e he => hp.decoders e (hmap.subset he)
  slot := by
    rw [hagent, hrend]
    exact hp.slot

theorem Registered.frame {env : Plugins} {p q : Player} (hp : Registered env p)
    (hmap : q.m_DecoderPluginMap = p.m_DecoderPluginMap)
    (hagent : q.m_RendererPlugin = p.m_RendererPlugin)
    (hrend : q.m_Renderer = p.m_Renderer) : Registered env q :=
  hp.mono (by rw [hmap]) hagent hrend

theorem RemoveDecoderPlugin_spec (env : Plugins) (a : Agent) (p : Player)
    (hm : (p.m_DecoderPluginMap.map (fun entry => entry.1)).Nodup) :
    ∃ q, RemoveDecoderPlugin env a p = some q ∧
      q.m_DecoderPluginMap = p.m_DecoderPluginMap.filter
        (fun e => !(decide (e.1 ∈ (env.FileSuffix a p.nextObj).map ToLower) &&
                    decide (e.2.agent = a))) ∧
      q.m_RendererPlugin = p.m_RendererPlugin ∧
      q.m_Renderer = p.m_Renderer := by
  unfold RemoveDecoderPlugin
  exact RemoveDecoderPlugin.loop_spec a (env.FileSuffix a p.nextObj) false
    { p with nextObj := p.nextObj + 1,
             calls := p.calls ++ [PluginCall.CreateObject a p.nextObj,
                                  PluginCall.FreeObject a p.nextObj] } hm

/-- The map that `RemoveDecoderPlugin` leaves for an agent with a fixed suffix
list: the old map without the entries of the agent. -/
theorem RemoveDecoderPlugin_map (env : Plugins) (a : Agent) (p : Player)
    (hp : Registered env p) (hfix : FixedSuffixes env a) :
    ∃ q, RemoveDecoderPlugin env a p = some q ∧
      q.m_DecoderPluginMap = p.m_DecoderPluginMap.filter (fun e => decide (e.2.agent ≠ a)) ∧
      q.m_RendererPlugin = p.m_RendererPlugin ∧
      q.m_Renderer = p.m_Renderer := by
  obtain ⟨q, h1, h2, h3⟩ := RemoveDecoderPlugin_spec env a p hp.keys
  refine ⟨q, h1, ?_, h3⟩
  rw [h2]
  apply List.filter_congr
  intro e he
  by_cases ha : e.2.agent = a
  · obtain ⟨o, ho⟩ := hp.declared e he
    rw [ha, hfix o p.nextObj] at ho
    simp [ha, ho]
  · simp [ha]

theorem Registered.removeDecoder {env : Plugins} {p q : Player} {a : Agent}
    (hp : Registered env p) (h : RemoveDecoderPlugin env a p = some q) : Registered env q := by
  obtain ⟨q2, h1, h2, h3, h4⟩ := RemoveDecoderPlugin_spec env a p hp.keys
  rw [h] at h1
  cases h1
  exact hp.mono (by rw [h2]; exact List.filter_sublist _) h3 h4

theorem Registered.registerDecoder {env : Plugins} {p : Player} (a : Agent)
    (hp : Registered env p) : Registered env (RegisterDecoderPlugin env a p) := by
  unfold RegisterDecoderPlugin
  split
  · next hty =>
    have hmap := AddDecoderPlugin_map env a p
    have hslot := AddDecoderPlugin_slot env a p
    refine ⟨?_, ?_, ?_, ?_⟩
    · rw [hmap]
      exact AddDecoderPlugin.loop_nodup a p.nextObj _ _ false hp.keys
    · intro e he
      rw [hmap] at he
      rcases AddDecoderPlugin.loop_mem a p.nextObj _ _ false e he with h1 | h1
      · exact hp.declared e h1
      · refine ⟨p.nextObj, ?_⟩
        rw [h1.1]
        exact h1.2
    · intro e he
      rw [hmap] at he
      rcases AddDecoderPlugin.loop_mem a p.nextObj _ _ false e he with h1 | h1
      · exact hp.decoders e h1
      · rw [h1.1]
        exact hty
    · rw [hslot.1, hslot.2]
      exact hp.slot
  · exact hp

theorem Registered.setRenderer {env : Plugins} {p : Player} (a : Option Agent)
    (hp : Registered env p) : Registered env (SetRendererPlugin a p) := by
  unfold SetRendererPlugin
  cases a with
  | none => exact hp
  | some a =>
    simp only
    split
    · exact hp
    · exact ⟨hp.keys, hp.declared, hp.decoders, by simp⟩

theorem Registered.unsetRenderer {env : Plugins} {p q : Player} {a : Option Agent}
    (hp : Registered env p) (h : UnsetRendererPlugin a p = some q) : Registered env q := by
  unfold UnsetRendererPlugin at h
  split at h
  · cases h
    exact hp
  · split at h
    · cases h
      exact hp
    · split at h
      · cases h
      · cases h
        exact ⟨hp.keys, hp.declared, hp.decoders, by simp⟩

theorem Open_fields (env : Plugins) (path : String) (p : Player) :
    (Open env path p).2.m_DecoderPluginMap = p.m_DecoderPluginMap ∧
    (Open env path p).2.m_RendererPlugin = p.m_RendererPlugin ∧
    (Open env path p).2.m_Renderer = p.m_Renderer := by
  simp only [Open]
  split
  · exact ⟨rfl, rfl, rfl⟩
  · split
    · exact ⟨rfl, rfl, rfl⟩
    · split
      · exact ⟨rfl, rfl, rfl⟩
      · split <;> exact ⟨rfl, rfl, rfl⟩

theorem Registered.unregisterAllLoop {env : Plugins} (fuel : Nat) {p q : Player}
    (hp : Registered env p) (h : UnregisterAll.loop env fuel p = some q) : Registered env q := by
  induction fuel generalizing p with
  | zero =>
    unfold UnregisterAll.loop at h
    split at h
    · cases h
      exact hp
    · cases h
  | succ n ih =>
    unfold UnregisterAll.loop at h
    split at h
    · cases h
      exact hp
    · next e rest hmap =>
      simp only at h
      split at h
      · cases h
      · next q1 hq1 => exact ih (hp.removeDecoder hq1) h

theorem Registered.of_reachable {env : Plugins} {p : Player} (h : Reachable env p) :
    Registered env p := by
  induction h with
  | init => exact ⟨by simp [Player.init], by simp [Player.init], by simp [Player.init], by simp [Player.init]⟩
  | registerDecoder a _ ih => exact ih.registerDecoder a
  | registerRenderer a _ ih =>
    unfold RegisterRendererPlugin
    split
    · exact ih.setRenderer _
    · exact ih
  | unregister a _ hq ih =>
    unfold UnregisterPlugin at hq
    split at hq
    · exact ih.removeDecoder hq
    · exact ih.unsetRenderer hq
    · cases hq
      exact ih
  | unregisterAll fuel _ hq ih =>
    unfold UnregisterAll at hq
    split at hq
    · cases hq
    · next q1 hq1 => exact (ih.unregisterAllLoop fuel hq1).unsetRenderer hq
  | openFile path _ ih =>
    exact ih.frame (Open_fields env path _).1 (Open_fields env path _).2.1
      (Open_fields env path _).2.2
  | close _ hq ih =>
    have hf := Close_fields hq
    exact ih.frame hf.1 hf.2.1 hf.2.2.1
  | other _ h1 h2 h3 ih => exact ih.frame h1 h2 h3

/-! ## UnregisterAll -/

theorem UnregisterAll.loop_nil (env : Plugins) (fuel : Nat) (p : Player)
    (h : p.m_DecoderPluginMap = []) : UnregisterAll.loop env fuel p = some p := by
  unfold UnregisterAll.loop
  simp only [h]

theorem UnregisterAll.loop_cons (env : Plugins) (fuel : Nat) (p : Player)
    (e : String × DecoderPluginNode) (rest : DecoderPluginMap)
    (h : p.m_DecoderPluginMap = e :: rest) :
    UnregisterAll.loop env (fuel + 1) p =
      match RemoveDecoderPlugin env e.2.agent p with
      | none => none
      | some q => UnregisterAll.loop env fuel q := by
  rw [UnregisterAll.loop]
  simp only [h]

theorem UnregisterAll.loop_terminates (env : Plugins) (hfix : ∀ a, FixedSuffixes env a)
    (n : Nat) (p : Player) (hp : Registered env p) (hn : p.m_DecoderPluginMap.length ≤ n) :
    ∃ q, UnregisterAll.loop env n p = some q ∧ q.m_DecoderPluginMap = [] ∧
      q.m_RendererPlugin = p.m_RendererPlugin ∧ q.m_Renderer = p.m_Renderer := by
  induction n generalizing p with
  | zero =>
    have hnil : p.m_DecoderPluginMap = [] := List.length_eq_zero.mp (Nat.le_zero.mp hn)
    exact ⟨p, UnregisterAll.loop_nil env 0 p hnil, hnil, rfl, rfl⟩
  | succ n ih =>
    cases hmap : p.m_DecoderPluginMap with
    | nil => exact ⟨p, UnregisterAll.loop_nil env _ p hmap, hmap, rfl, rfl⟩
    | cons e rest =>
      obtain ⟨q1, h1, h2, h3, h4⟩ := RemoveDecoderPlugin_map env e.2.agent p hp (hfix _)
      have hlen : q1.m_DecoderPluginMap.length ≤ n := by
        rw [h2, hmap]
        simp only [ne_eq, decide_not, List.filter_cons, decide_True, Bool.not_true,
          Bool.false_eq_true, if_false]
        have h5 := List.length_filter_le (fun x => !decide (x.2.agent = e.2.agent)) rest
        rw [hmap] at hn
        simp only [List.length_cons] at hn
        omega
      obtain ⟨q, h6, h7, h8, h9⟩ := ih q1 (hp.removeDecoder h1) hlen
      refine ⟨q, ?_, h7, by rw [h8, h3], by rw [h9, h4]⟩
      rw [UnregisterAll.loop_cons env n p e rest hmap, h1]
      exact h6

theorem UnregisterAll.loop_fuel (env : Plugins) (n : Nat) (p q : Player)
    (h : UnregisterAll.loop env n p = some q) (m : Nat) (hm : n ≤ m) :
    UnregisterAll.loop env m p = some q := by
  induction n generalizing p m with
  | zero =>
    cases hmap : p.m_DecoderPluginMap with
    | nil =>
      rw [UnregisterAll.loop_nil env 0 p hmap] at h
      rw [UnregisterAll.loop_nil env m p hmap]
      exact h
    | cons e rest =>
      rw [UnregisterAll.loop] at h
      simp only [hmap] at h
      cases h
  | succ n ih =>
    cases hmap : p.m_DecoderPluginMap with
    | nil =>
      rw [UnregisterAll.loop_nil env _ p hmap] at h
      rw [UnregisterAll.loop_nil env m p hmap]
      exact h
    | cons e rest =>
      obtain ⟨m1, rfl⟩ : ∃ m1, m = m1 + 1 := ⟨m - 1, by omega⟩
      rw [UnregisterAll.loop_cons env n p e rest hmap] at h
      rw [UnregisterAll.loop_cons env m1 p e rest hmap]
      cases hr : RemoveDecoderPlugin env e.2.agent p with
      | none =>
        rw [hr] at h
        cases h
      | some q1 =>
        rw [hr] at h
        exact ih q1 h m1 (by omega)

/-- When the waits of `Pause` return: with agents whose decoders declare a fixed
suffix list, in every reachable state the removal of the agent of the first map
entry returns and leaves a reachable state with a strictly shorter map, and
`UnregisterAll` returns, after at most as many iterations as the map has
entries, with an empty decoder map and an unset renderer slot.  The waits are
in `Latched.UnregisterAll`. -/
theorem UnregisterAll_terminates (env : Plugins) (p : Player)
    (hfix : ∀ a, FixedSuffixes env a) (hp : Reachable env p) :
    (∀ e rest, p.m_DecoderPluginMap = e :: rest →
      ∃ q, RemoveDecoderPlugin env e.2.agent p = some q ∧ Reachable env q ∧
        q.m_DecoderPluginMap.length < p.m_DecoderPluginMap.length) ∧
    (∃ q, (∀ fuel, p.m_DecoderPluginMap.length ≤ fuel → UnregisterAll env fuel p = some q) ∧
      q.m_DecoderPluginMap = [] ∧ q.m_RendererPlugin = none ∧ q.m_Renderer = none) := by
  have hreg := Registered.of_reachable hp
  constructor
  · intro e rest hmap
    have hmem : e ∈ p.m_DecoderPluginMap := by
      rw [hmap]
      exact List.mem_cons_self _ _
    obtain ⟨q, h1, h2, _, _⟩ := RemoveDecoderPlugin_map env e.2.agent p hreg (hfix _)
    refine ⟨q, h1, ?_, ?_⟩
    · apply Reachable.unregister e.2.agent hp
      unfold UnregisterPlugin
      rw [hreg.decoders e hmem]
      exact h1
    · rw [h2]
      exact List.length_filter_lt_length_iff_exists.mpr ⟨e, hmem, by simp⟩
  · obtain ⟨q1, h1, h2, h3, h4⟩ := UnregisterAll.loop_terminates env hfix
      p.m_DecoderPluginMap.length p hreg (Nat.le_refl _)
    have hreg1 := hreg.unregisterAllLoop _ h1
    cases hagent : q1.m_RendererPlugin with
    | none =>
      have hrend : q1.m_Renderer = none := hreg1.slot.mp hagent
      refine ⟨q1, ?_, h2, hagent, hrend⟩
      intro fuel hfuel
      unfold UnregisterAll
      rw [UnregisterAll.loop_fuel env _ p q1 h1 fuel hfuel]
      simp [UnsetRendererPlugin, hagent]
    | some a =>
      cases hrend : q1.m_Renderer with
      | none =>
        have h5 := hreg1.slot.mpr hrend
        rw [hagent] at h5
        cases h5
      | some r =>
        refine ⟨{ q1 with calls := q1.calls ++ [PluginCall.RendererClose r, PluginCall.FreeObject a r],
                          m_Renderer := none,
                          m_RendererPlugin := none }, ?_, h2, rfl, rfl⟩
        intro fuel hfuel
        unfold UnregisterAll
        rw [UnregisterAll.loop_fuel env _ p q1 h1 fuel hfuel]
        simp [UnsetRendererPlugin, hagent, hrend]

theorem demoPlugins_fixed : ∀ a, FixedSuffixes demoPlugins a :=
  fun _ _ _ => rfl

/-- An instance: the two decoder plugins and the renderer plugin of the
examples registered, with no file open, so that no `Pause` is called. -/
theorem UnregisterAll_terminates_witness :
    (∀ a, FixedSuffixes demoPlugins a) ∧
    Reachable demoPlugins
      (RegisterRendererPlugin demoPlugins 2
        (RegisterDecoderPlugin demoPlugins 1 (RegisterDecoderPlugin demoPlugins 0 Player.init))) ∧
    ∃ q, (∀ fuel,
        (RegisterRendererPlugin demoPlugins 2
          (RegisterDecoderPlugin demoPlugins 1
            (RegisterDecoderPlugin demoPlugins 0 Player.init))).m_DecoderPluginMap.length ≤ fuel →
        UnregisterAll demoPlugins fuel
          (RegisterRendererPlugin demoPlugins 2
            (RegisterDecoderPlugin demoPlugins 1
              (RegisterDecoderPlugin demoPlugins 0 Player.init))) = some q) ∧
      q.m_DecoderPluginMap = [] ∧ q.m_RendererPlugin = none ∧ q.m_Renderer = none :=
  ⟨demoPlugins_fixed,
   Reachable.registerRenderer 2 (Reachable.registerDecoder 1 (Reachable.registerDecoder 0 Reachable.init)),
   (UnregisterAll_terminates demoPlugins _ demoPlugins_fixed
      (Reachable.registerRenderer 2
        (Reachable.registerDecoder 1 (Reachable.registerDecoder 0 Reachable.init)))).2⟩

/-! ## Letter case of the suffix keys -/

theorem charToLower_isUpper (c : Char) : c.toLower.isUpper = false := by
  unfold Char.toLower
  simp only
  split
  · next h =>
    obtain ⟨h1, h2⟩ := h
    generalize c.toNat = n at h1 h2
    interval_cases n <;> decide
  · next h =>
    have h3 : ¬ (65 ≤ c.val.toNat ∧ c.val.toNat ≤ 90) := h
    simp only [Char.isUpper, ge_iff_le, UInt32.le_def, BitVec.le_def, Bool.and_eq_false_iff,
      decide_eq_false_iff_not]
    by_cases h1 : 65 ≤ c.val.toNat
    · right
      intro h2
      exact h3 ⟨h1, h2⟩
    · left
      intro h2
      exact h1 h2

theorem charToLower_of_not_isUpper (c : Char) (h : c.isUpper = false) : c.toLower = c := by
  unfold Char.toLower
  simp only
  split
  · next h1 =>
    have h2 : c.isUpper = true := by
      simp only [Char.isUpper, ge_iff_le, UInt32.le_def, BitVec.le_def, Bool.and_eq_true,
        decide_eq_true_eq]
      exact h1
    rw [h] at h2
    cases h2
  · rfl

theorem ToLower_isLowercase (s : String) : IsLowercase (ToLower s) := by
  intro c hc
  simp only [ToLower, List.mem_map] at hc
  obtain ⟨c0, _, rfl⟩ := hc
  exact charToLower_isUpper c0

theorem ToLower_of_isLowercase (s : String) (h : IsLowercase s) : ToLower s = s := by
  obtain ⟨cs⟩ := s
  have h2 : cs.map Char.toLower = cs := by
    conv_rhs => rw [← List.map_id cs]
    apply List.map_congr_left
    intro c hc
    exact charToLower_of_not_isUpper c (h c hc)
  simp only [ToLower, h2]

theorem Open_decoder (env : Plugins) (path : String) (p : Player) :
    (Open env path p).2.m_Decoder =
      match mapFind p.m_DecoderPluginMap (ToLower (FileHelper.FileSuffix path)) with
      | none => p.m_Decoder
      | some node => some node.decoder := by
  simp only [Open]
  split
  · rfl
  · split
    · rfl
    · split
      · rfl
      · split <;> rfl

theorem Open_noDecoder (env : Plugins) (path : String) (p : Player)
    (h : mapFind p.m_DecoderPluginMap (ToLower (FileHelper.FileSuffix path)) = none) :
    (Open env path p).1 = ErrorCode.PlayerNoDecoder := by
  simp only [Open, h]

/-- C9: in every reachable state every key of the decoder map, and so every
string that `SupportedSuffixes` returns, is without an uppercase letter and is
its own lowercase form; and for two paths whose suffixes have the same
lowercase form `Open` looks up the same entry, leaves the same active decoder,
and returns `PlayerNoDecoder` for both when that key is not in the map. -/
theorem suffix_keys_lowercase (env : Plugins) (p : Player) (hp : Reachable env p) :
    (∀ k ∈ SupportedSuffixes p, IsLowercase k ∧ ToLower k = k) ∧
    (∀ path1 path2 : String,
      ToLower (FileHelper.FileSuffix path1) = ToLower (FileHelper.FileSuffix path2) →
      mapFind p.m_DecoderPluginMap (ToLower (FileHelper.FileSuffix path1)) =
        mapFind p.m_DecoderPluginMap (ToLower (FileHelper.FileSuffix path2)) ∧
      (Open env path1 p).2.m_Decoder = (Open env path2 p).2.m_Decoder ∧
      (ToLower (FileHelper.FileSuffix path1) ∉ SupportedSuffixes p →
        (Open env path1 p).1 = ErrorCode.PlayerNoDecoder ∧
        (Open env path2 p).1 = ErrorCode.PlayerNoDecoder)) := by
  have hreg := Registered.of_reachable hp
  constructor
  · intro k hk
    simp only [SupportedSuffixes, List.mem_map] at hk
    obtain ⟨e, he, rfl⟩ := hk
    obtain ⟨o, ho⟩ := hreg.declared e he
    simp only [List.mem_map] at ho
    obtain ⟨s, _, hs⟩ := ho
    rw [← hs]
    exact ⟨ToLower_isLowercase s, ToLower_of_isLowercase _ (ToLower_isLowercase s)⟩
  · intro path1 path2 hcase
    refine ⟨by rw [hcase], ?_, ?_⟩
    · rw [Open_decoder, Open_decoder, hcase]
    · intro hno
      have h1 := (mapFind_eq_none_iff p.m_DecoderPluginMap _).mpr hno
      refine ⟨Open_noDecoder env path1 p h1, Open_noDecoder env path2 p ?_⟩
      rw [← hcase]
      exact h1

/-- Witness of C9: agent 1 declares `SYN`; the key is `syn`, and `a.syn` and
`b.Syn` resolve the same decoder. -/
theorem suffix_keys_lowercase_witness :
    SupportedSuffixes (RegisterDecoderPlugin demoPlugins 1 Player.init) = ["raw", "syn"] ∧
    (Open demoPlugins "a.syn" (RegisterDecoderPlugin demoPlugins 1 Player.init)).2.m_Decoder =
      (Open demoPlugins "b.Syn" (RegisterDecoderPlugin demoPlugins 1 Player.init)).2.m_Decoder :=
  ⟨by decide,
   ((suffix_keys_lowercase demoPlugins (RegisterDecoderPlugin demoPlugins 1 Player.init)
      (Reachable.registerDecoder 1 Reachable.init)).2 "a.syn" "b.Syn" (by decide)).2.1⟩

/-! ## The renderer slot -/

/-- C10: `SetRendererPlugin(agent)` on an empty slot stores the agent with a
newly created instance on which `Open` is called, and on an occupied slot
changes nothing; `UnsetRendererPlugin(agent)` with the stored agent calls
`Close` on the instance, frees it and empties the slot, and with another agent
or on an empty slot changes nothing; a null agent is never stored.  In every
reachable state the agent is set exactly when the instance is set. -/
theorem renderer_slot (env : Plugins) (a : Agent) (p : Player) :
    (p.m_RendererPlugin = none →
      SetRendererPlugin (some a) p =
        { p with m_RendererPlugin := some a,
                 m_Renderer := some p.nextObj,
                 nextObj := p.nextObj + 1,
                 calls := p.calls ++ [PluginCall.CreateObject a p.nextObj,
                                      PluginCall.RendererOpen p.nextObj] }) ∧
    (p.m_RendererPlugin ≠ none → SetRendererPlugin (some a) p = p) ∧
    (∀ r, p.m_RendererPlugin = some a → p.m_Renderer = some r →
      UnsetRendererPlugin (some a) p =
        some { p with calls := p.calls ++ [PluginCall.RendererClose r, PluginCall.FreeObject a r],
                      m_Renderer := none,
                      m_RendererPlugin := none }) ∧
    (∀ x : Option Agent, x ≠ p.m_RendererPlugin ∨ p.m_RendererPlugin = none →
      UnsetRendererPlugin x p = some p) ∧
    SetRendererPlugin none p = p ∧
    (Reachable env p → (p.m_RendererPlugin ≠ none ↔ p.m_Renderer ≠ none)) := by
  refine ⟨?_, ?_, ?_, ?_, rfl, ?_⟩
  · intro h
    simp [SetRendererPlugin, h]
  · intro h
    simp [SetRendererPlugin, h]
  · intro r h1 h2
    simp [UnsetRendererPlugin, h1, h2]
  · intro x h
    by_cases hx : x = p.m_RendererPlugin
    · rcases h with h | h
      · exact absurd hx h
      · simp [UnsetRendererPlugin, hx, h]
    · simp [UnsetRendererPlugin, hx]
  · intro h
    exact not_congr (Registered.of_reachable h).slot

/-- Witness of C10: the renderer plugin of the examples set, then unset. -/
theorem renderer_slot_witness :
    UnsetRendererPlugin (some 2) (SetRendererPlugin (some 2) Player.init) =
      some { Player.init with
        nextObj := 1
        calls := [PluginCall.CreateObject 2 0, PluginCall.RendererOpen 0,
                  PluginCall.RendererClose 0, PluginCall.FreeObject 2 0] } :=
  ((renderer_slot demoPlugins 2 (SetRendererPlugin (some 2) Player.init)).2.2.1 0
    (by decide) (by decide)).trans (by decide)

/-! ## Failing inputs -/

/-- C3: after `Close()` the status is Closed, the active decoder reference is
null and the filename is empty.  The code at the failing inputs: `Open` that
fails for want of a renderer leaves status Closed with `m_Decoder` set, and
`Open` that fails in `Setup` leaves status Closed with `m_Decoder` and the
filename set and the decoder open; `Close` then returns at its first test and
clears nothing. -/
theorem Close_after_failed_Open :
    (Open demoPlugins "a.syn" (RegisterDecoderPlugin demoPlugins 0 Player.init)).1
      = ErrorCode.PlayerNoRenderer ∧
    Close (Open demoPlugins "a.syn" (RegisterDecoderPlugin demoPlugins 0 Player.init)).2
      = some (Open demoPlugins "a.syn" (RegisterDecoderPlugin demoPlugins 0 Player.init)).2 ∧
    (Open demoPlugins "a.syn" (RegisterDecoderPlugin demoPlugins 0 Player.init)).2.m_Status
      = PlayerStatus.Closed ∧
    (Open demoPlugins "a.syn" (RegisterDecoderPlugin demoPlugins 0 Player.init)).2.m_Decoder
      = some 0 ∧
    (Open demoPluginsNoSetup "a.syn" (RegisterRendererPlugin demoPluginsNoSetup 2
        (RegisterDecoderPlugin demoPluginsNoSetup 0 Player.init))).1 = ErrorCode.Plugin 7 ∧
    (Close (Open demoPluginsNoSetup "a.syn" (RegisterRendererPlugin demoPluginsNoSetup 2
        (RegisterDecoderPlugin demoPluginsNoSetup 0 Player.init))).2).map
      (fun q => (q.m_Status, q.m_Decoder, q.m_DecodeFile, q.calls)) =
      some (PlayerStatus.Closed, some 0, "a.syn",
        [PluginCall.CreateObject 0 0, PluginCall.CreateObject 2 1, PluginCall.RendererOpen 1,
         PluginCall.DecoderOpen 0 "a.syn", PluginCall.RendererSetup 1 2 44100 16]) := by
  decide

/-- C5: all map entries of one agent hold the same decoder instance.  The code
at the failing input: register agent 0 (`syn`), register agent 1 (`SYN`,
`raw`), unregister agent 0, register agent 1 again; the state is reachable and
agent 1 holds `raw` with instance 1 and `syn` with instance 3. -/
theorem registry_two_instances :
    UnregisterPlugin demoPlugins 0
        (RegisterDecoderPlugin demoPlugins 1 (RegisterDecoderPlugin demoPlugins 0 Player.init))
      = some demoAfterUnregister ∧
    Reachable demoPlugins demoRegisteredAgain ∧
    demoRegisteredAgain.m_DecoderPluginMap = [("raw", ⟨1, 1⟩), ("syn", ⟨1, 3⟩)] :=
  ⟨by decide,
   Reachable.registerDecoder 1
     (Reachable.unregister 0
       (Reachable.registerDecoder 1 (Reachable.registerDecoder 0 Reachable.init)) (by decide)),
   by decide⟩

/-- C6: `RemoveDecoderPlugin(agent)` frees every live decoder instance that a
removed entry holds exactly once.  The code at the failing input, the player
in which agent 1 holds the instances 1 and 3: both entries are erased, the
throwaway instance 4 and the instance 3 are freed, the instance 1 is live and
is not freed. -/
theorem RemoveDecoderPlugin_leak :
    (RemoveDecoderPlugin demoPlugins 1 demoRegisteredAgain).map
        (fun q => (q.m_DecoderPluginMap, q.calls)) =
      some ([], demoRegisteredAgain.calls ++
        [PluginCall.CreateObject 1 4, PluginCall.FreeObject 1 4, PluginCall.FreeObject 1 3]) ∧
    ("raw", (⟨1, 1⟩ : DecoderPluginNode)) ∈ demoRegisteredAgain.m_DecoderPluginMap ∧
    PluginCall.CreateObject 1 1 ∈ demoRegisteredAgain.calls ∧
    (RemoveDecoderPlugin demoPlugins 1 demoRegisteredAgain).map
        (fun q => q.calls.count (PluginCall.FreeObject 1 1)) = some 0 := by
  decide

/-- C7: `UnregisterPlugin(A)` invokes `Close` when the open decoder is held by
an entry of A, and leaves status Closed and a null decoder reference.  The
code at the failing input, the player in which agent 1 holds the instances 1
and 3 and `x.raw` is open on instance 1: the status stays Stopped, `m_Decoder`
stays instance 1, and `Close` of the decoder is not called. -/
theorem UnregisterPlugin_keeps_decoder :
    demoOpened.m_Status = PlayerStatus.Stopped ∧
    demoOpened.m_Decoder = some 1 ∧
    mapFind demoOpened.m_DecoderPluginMap "raw" = some ⟨1, 1⟩ ∧
    (UnregisterPlugin demoPlugins 1 demoOpened).map
        (fun q => (q.m_Status, q.m_Decoder, q.m_DecoderPluginMap,
          decide (PluginCall.DecoderClose 1 ∈ q.calls))) =
      some (PlayerStatus.Stopped, some 1, [], false) := by
  decide

/-! ## Volume -/

/-- C11: `Volume()` returns -1 when no renderer is set, and else the volume
level that the renderer reports; `SetVolume(level)` with no renderer set
changes nothing. -/
theorem Volume_spec (env : Plugins) (level : Int) (p : Player) :
    (p.m_Renderer = none → Volume env p = -1 ∧ SetVolume level p = p) ∧
    (∀ r, p.m_Renderer = some r → Volume env p = env.VolumeLevel p.calls r) := by
  constructor
  · intro h
    simp [Volume, SetVolume, h]
  · intro r h
    simp [Volume, h]

/-- Witness of C11: a new player, and the player with the renderer plugin of
the examples. -/
theorem Volume_spec_witness :
    (Volume demoPlugins Player.init = -1 ∧ SetVolume 30 Player.init = Player.init) ∧
    Volume demoPlugins (RegisterRendererPlugin demoPlugins 2 Player.init) = 50 :=
  ⟨(Volume_spec demoPlugins 30 Player.init).1 (by decide),
   ((Volume_spec demoPlugins 30 (RegisterRendererPlugin demoPlugins 2 Player.init)).2 0
      (by decide)).trans (by decide)⟩

/-! ## Play, Pause and Resume -/

theorem PlayRange_some (beg end_ : Nat) (p : Player) (d : Obj) (hd : p.m_Decoder = some d) :
    PlayRange beg end_ p =
      some { p with m_UnitBeg := beg,
                    m_UnitEnd := end_,
                    m_DecoderIndex := beg,
                    m_RendererIndex := beg,
                    calls := p.calls ++ [PluginCall.SetUnitIndex d beg],
                    m_SuspendRenderer := false,
                    m_SuspendDecoder := false,
                    m_Status := PlayerStatus.Playing } := by
  simp [PlayRange, hd]

/-- C15: `Pause()` on a Playing player leaves status Paused and both suspend
flags set; on a Paused player it changes nothing; a second `Pause()` leaves
what the first left; `Pause()` does not assign the two indices and the range. -/
theorem Pause_idempotent (p : Player) :
    (p.m_Status = PlayerStatus.Playing →
      (Pause p).m_Status = PlayerStatus.Paused ∧
      (Pause p).m_SuspendRenderer = true ∧ (Pause p).m_SuspendDecoder = true) ∧
    (p.m_Status = PlayerStatus.Paused → Pause p = p) ∧
    Pause (Pause p) = Pause p ∧
    (Pause p).m_DecoderIndex = p.m_DecoderIndex ∧
    (Pause p).m_RendererIndex = p.m_RendererIndex ∧
    (Pause p).m_UnitBeg = p.m_UnitBeg ∧
    (Pause p).m_UnitEnd = p.m_UnitEnd := by
  by_cases h1 : p.m_Status = PlayerStatus.Paused
  · simp [Pause, h1]
  · by_cases h2 : p.m_SuspendRenderer = false <;> by_cases h3 : p.m_SuspendDecoder = false <;>
      simp [Pause, h1, h2, h3]

/-- Witness of C15: the Playing player of the examples. -/
theorem Pause_idempotent_witness :
    Play demoPlugins demoStopped = some demoPlaying ∧
    demoPlaying.m_Status = PlayerStatus.Playing ∧
    (Pause demoPlaying).m_Status = PlayerStatus.Paused ∧
    (Pause demoPlaying).m_SuspendRenderer = true ∧
    (Pause demoPlaying).m_SuspendDecoder = true :=
  ⟨by decide, by decide, (Pause_idempotent demoPlaying).1 (by decide)⟩

theorem Pause_indices (p : Player) :
    (Pause p).m_DecoderIndex = p.m_DecoderIndex ∧
    (Pause p).m_RendererIndex = p.m_RendererIndex ∧
    (Pause p).m_UnitBeg = p.m_UnitBeg ∧
    (Pause p).m_UnitEnd = p.m_UnitEnd ∧
    (Pause p).m_UnitPerMs = p.m_UnitPerMs := by
  by_cases h1 : p.m_Status = PlayerStatus.Paused
  · simp [Pause, h1]
  · by_cases h2 : p.m_SuspendRenderer = false <;> by_cases h3 : p.m_SuspendDecoder = false <;>
      simp [Pause, h1, h2, h3]

/-- C16: for a Paused player with a decoder, `Resume()` returns and sets
`m_DecoderIndex` to `m_RendererIndex`, leaves `m_RendererIndex`, calls
`SetUnitIndex` with that value on the decoder, clears both suspend flags and
sets the status to Playing; after `Pause()` and `Resume()` on a Playing player
both indices are the `m_RendererIndex` from before `Pause()`. -/
theorem Resume_spec (p : Player) (d : Obj) (hd : p.m_Decoder = some d) :
    (p.m_Status = PlayerStatus.Paused →
      ∃ q, Resume p = some q ∧
        q.m_DecoderIndex = p.m_RendererIndex ∧
        q.m_RendererIndex = p.m_RendererIndex ∧
        q.calls = p.calls ++ [PluginCall.SetUnitIndex d p.m_RendererIndex] ∧
        q.m_SuspendRenderer = false ∧
        q.m_SuspendDecoder = false ∧
        q.m_Status = PlayerStatus.Playing) ∧
    (p.m_Status = PlayerStatus.Playing →
      ∃ q, Resume (Pause p) = some q ∧
        q.m_DecoderIndex = p.m_RendererIndex ∧
        q.m_RendererIndex = p.m_RendererIndex ∧
        q.m_Status = PlayerStatus.Playing) := by
  constructor
  · intro _
    simp only [Resume, hd]
    exact ⟨_, rfl, rfl, rfl, rfl, rfl, rfl, rfl⟩
  · intro _
    have hp := Pause_fields p
    have hi := Pause_indices p
    have hd2 : (Pause p).m_Decoder = some d := by rw [hp.2.2.2.1, hd]
    simp only [Resume, hd2]
    exact ⟨_, rfl, hi.2.1, hi.2.1, rfl⟩

/-- Witness of C16: the Playing player of the examples, paused. -/
theorem Resume_spec_witness :
    (Pause demoPlaying).m_Status = PlayerStatus.Paused ∧
    ∃ q, Resume (Pause demoPlaying) = some q ∧
      q.m_DecoderIndex = (Pause demoPlaying).m_RendererIndex ∧
      q.m_RendererIndex = (Pause demoPlaying).m_RendererIndex ∧
      q.calls = (Pause demoPlaying).calls ++
        [PluginCall.SetUnitIndex 0 (Pause demoPlaying).m_RendererIndex] ∧
      q.m_SuspendRenderer = false ∧
      q.m_SuspendDecoder = false ∧
      q.m_Status = PlayerStatus.Playing :=
  ⟨by decide, (Resume_spec (Pause demoPlaying) 0 (by decide)).1 (by decide)⟩

/-- C13: `Resume()` in a status other than Paused is ignored.  The code at the
failing inputs: on the Stopped player of the examples, which has not played,
`Resume()` sets the status to Playing, clears both suspend flags and calls
`SetUnitIndex` on the decoder; on the Playing player of the examples it moves
`m_DecoderIndex` back to `m_RendererIndex` and calls `SetUnitIndex`; on a new
player, which is Closed, it dereferences the null `m_Decoder`. -/
theorem Resume_unguarded :
    demoStopped.m_Status = PlayerStatus.Stopped ∧
    Play demoPlugins demoStopped = some demoPlaying ∧
    (Resume demoStopped).map
        (fun q => (q.m_Status, q.m_SuspendRenderer, q.m_SuspendDecoder, q.calls)) =
      some (PlayerStatus.Playing, false, false,
        demoStopped.calls ++ [PluginCall.SetUnitIndex 0 0]) ∧
    ((ThDecoder.body demoPlugins ⟨some 256, 0, 256, 0⟩ demoPlaying).map
        (fun r => (r.1.m_DecoderIndex, r.1.m_RendererIndex))) = some (100, 0) ∧
    ((ThDecoder.body demoPlugins ⟨some 256, 0, 256, 0⟩ demoPlaying).bind
        (fun r => Resume r.1)).map
        (fun q => (q.m_Status, q.m_DecoderIndex, q.m_RendererIndex)) =
      some (PlayerStatus.Playing, 0, 0) ∧
    Player.init.m_Status = PlayerStatus.Closed ∧
    Resume Player.init = none := by
  decide

/-- C14: `Pause()`, `Play()` and `Play(msBegin, msEnd)` on a Closed player are
ignored.  The code at the failing inputs: on a new player `Pause()` sets the
status to Paused and `Play()` dereferences the null `m_Decoder`; after an
`Open` that failed for want of a renderer, both forms of `Play` set the range
and the status Playing and call `SetUnitIndex` on the decoder that was not
opened. -/
theorem Closed_unguarded :
    Player.init.m_Status = PlayerStatus.Closed ∧
    (Pause Player.init).m_Status = PlayerStatus.Paused ∧
    Play demoPlugins Player.init = none ∧
    Play2 demoPlugins demoArith 250 750 Player.init = none ∧
    (Open demoPlugins "a.syn" (RegisterDecoderPlugin demoPlugins 0 Player.init)).1
      = ErrorCode.PlayerNoRenderer ∧
    (Open demoPlugins "a.syn" (RegisterDecoderPlugin demoPlugins 0 Player.init)).2.m_Status
      = PlayerStatus.Closed ∧
    (Play demoPlugins
        (Open demoPlugins "a.syn" (RegisterDecoderPlugin demoPlugins 0 Player.init)).2).map
        (fun q => (q.m_Status, q.m_UnitBeg, q.m_UnitEnd, q.calls)) =
      some (PlayerStatus.Playing, 0, 1000,
        [PluginCall.CreateObject 0 0, PluginCall.SetUnitIndex 0 0]) ∧
    (Play2 demoPlugins demoArith 250 750
        (Open demoPlugins "a.syn" (RegisterDecoderPlugin demoPlugins 0 Player.init)).2).map
        (fun q => q.m_Status) = some PlayerStatus.Playing := by
  decide

/-! ## Seeking -/

theorem DoSeekUnit_some (unit : Nat) (p : Player) (d : Obj) (hd : p.m_Decoder = some d) :
    DoSeekUnit unit p =
      some { p with
        calls := p.calls ++ [PluginCall.SetUnitIndex d
          (if unit < p.m_UnitBeg then p.m_UnitBeg
           else if unit > p.m_UnitEnd then p.m_UnitEnd else unit)],
        m_DecoderIndex :=
          (if unit < p.m_UnitBeg then p.m_UnitBeg
           else if unit > p.m_UnitEnd then p.m_UnitEnd else unit),
        m_RendererIndex :=
          (if unit < p.m_UnitBeg then p.m_UnitBeg
           else if unit > p.m_UnitEnd then p.m_UnitEnd else unit) } := by
  simp [DoSeekUnit, hd]

theorem DoSeekUnit_none (unit : Nat) (p : Player) (hd : p.m_Decoder = none) :
    DoSeekUnit unit p = none := by
  simp [DoSeekUnit, hd]

theorem clamp_eq (unit beg end_ : Nat) (h : beg ≤ end_) :
    (if unit < beg then beg else if unit > end_ then end_ else unit) =
      max beg (min unit end_) := by
  split
  · omega
  · split <;> omega

theorem DoSeekUnit_fields {unit : Nat} {p q : Player} (h : DoSeekUnit unit p = some q) :
    q.m_Status = p.m_Status ∧ q.m_UnitBeg = p.m_UnitBeg ∧ q.m_UnitEnd = p.m_UnitEnd ∧
    q.m_Decoder = p.m_Decoder ∧ q.m_DecoderIndex = q.m_RendererIndex ∧
    (p.m_UnitBeg ≤ p.m_UnitEnd →
      p.m_UnitBeg ≤ q.m_RendererIndex ∧ q.m_RendererIndex ≤ p.m_UnitEnd) := by
  cases hd : p.m_Decoder with
  | none =>
    rw [DoSeekUnit_none unit p hd] at h
    cases h
  | some d =>
    rw [DoSeekUnit_some unit p d hd] at h
    cases h
    refine ⟨rfl, rfl, rfl, hd, rfl, ?_⟩
    intro hle
    simp only
    rw [clamp_eq unit _ _ hle]
    omega

theorem DoSeekTime_eq (env : Plugins) (fp : DoubleArith) (msPos : Nat) (p : Player) :
    DoSeekTime env fp msPos p =
      match p.m_Decoder with
      | none => none
      | some d =>
        DoSeekUnit (min (fp.scale p.m_UnitPerMs msPos) (env.UnitCount p.calls d)) p := by
  simp only [DoSeekTime]

theorem DoSeekTime_fields {env : Plugins} {fp : DoubleArith} {msPos : Nat} {p q : Player}
    (h : DoSeekTime env fp msPos p = some q) :
    q.m_Status = p.m_Status ∧ q.m_UnitBeg = p.m_UnitBeg ∧ q.m_UnitEnd = p.m_UnitEnd ∧
    q.m_Decoder = p.m_Decoder ∧ q.m_DecoderIndex = q.m_RendererIndex ∧
    (p.m_UnitBeg ≤ p.m_UnitEnd →
      p.m_UnitBeg ≤ q.m_RendererIndex ∧ q.m_RendererIndex ≤ p.m_UnitEnd) := by
  rw [DoSeekTime_eq] at h
  cases hd : p.m_Decoder with
  | none =>
    rw [hd] at h
    cases h
  | some d =>
    rw [hd] at h
    have h2 := DoSeekUnit_fields h
    rw [hd] at h2
    exact h2

theorem Resume_fields {p q : Player} (h : Resume p = some q) :
    q.m_Status = PlayerStatus.Playing ∧ q.m_UnitBeg = p.m_UnitBeg ∧ q.m_UnitEnd = p.m_UnitEnd ∧
    q.m_RendererIndex = p.m_RendererIndex ∧ q.m_DecoderIndex = p.m_RendererIndex := by
  cases hd : p.m_Decoder with
  | none =>
    simp [Resume, hd] at h
  | some d =>
    simp only [Resume, hd] at h
    cases h
    exact ⟨rfl, rfl, rfl, rfl, rfl⟩

theorem SeekTime_fields {env : Plugins} {fp : DoubleArith} {msPos : Nat} {p q : Player}
    (h : SeekTime env fp msPos p = some q) :
    q.m_Status = p.m_Status ∧ q.m_UnitBeg = p.m_UnitBeg ∧ q.m_UnitEnd = p.m_UnitEnd ∧
    (InRange p → InRange q) := by
  have hp := Pause_indices p
  unfold SeekTime at h
  split at h
  · next hs =>
    split at h
    · cases h
    · next q1 hq1 =>
      have h1 := DoSeekTime_fields hq1
      have h2 := Resume_fields h
      rw [hp.2.2.1, hp.2.2.2.1] at h1
      refine ⟨by rw [h2.1, hs], by rw [h2.2.1, h1.2.1], by rw [h2.2.2.1, h1.2.2.1], ?_⟩
      intro hin
      have h3 := h1.2.2.2.2.2 (Nat.le_trans hin.1 hin.2)
      unfold InRange
      rw [h2.2.1, h2.2.2.1, h2.2.2.2.1, h1.2.1, h1.2.2.1]
      exact h3
  · have h1 := DoSeekTime_fields h
    refine ⟨h1.1, h1.2.1, h1.2.2.1, ?_⟩
    intro hin
    have h3 := h1.2.2.2.2.2 (Nat.le_trans hin.1 hin.2)
    unfold InRange
    rw [h1.2.1, h1.2.2.1]
    exact h3
  · have h1 := DoSeekTime_fields h
    refine ⟨h1.1, h1.2.1, h1.2.2.1, ?_⟩
    intro hin
    have h3 := h1.2.2.2.2.2 (Nat.le_trans hin.1 hin.2)
    unfold InRange
    rw [h1.2.1, h1.2.2.1]
    exact h3
  · cases h
    exact ⟨rfl, rfl, rfl, fun hin => hin⟩

theorem SeekPercent_fields {fp : DoubleArith} {percent : Double} {p q : Player}
    (h : SeekPercent fp percent p = some q) :
    q.m_Status = p.m_Status ∧ q.m_UnitBeg = p.m_UnitBeg ∧ q.m_UnitEnd = p.m_UnitEnd ∧
    (InRange p → InRange q) := by
  have hp := Pause_indices p
  unfold SeekPercent at h
  simp only at h
  split at h
  · next hs =>
    split at h
    · cases h
    · next q1 hq1 =>
      have h1 := DoSeekUnit_fields hq1
      have h2 := Resume_fields h
      rw [hp.2.2.1, hp.2.2.2.1] at h1
      refine ⟨by rw [h2.1, hs], by rw [h2.2.1, h1.2.1], by rw [h2.2.2.1, h1.2.2.1], ?_⟩
      intro hin
      have h3 := h1.2.2.2.2.2 (Nat.le_trans hin.1 hin.2)
      unfold InRange
      rw [h2.2.1, h2.2.2.1, h2.2.2.2.1, h1.2.1, h1.2.2.1]
      exact h3
  · have h1 := DoSeekUnit_fields h
    refine ⟨h1.1, h1.2.1, h1.2.2.1, ?_⟩
    intro hin
    have h3 := h1.2.2.2.2.2 (Nat.le_trans hin.1 hin.2)
    unfold InRange
    rw [h1.2.1, h1.2.2.1]
    exact h3
  · have h1 := DoSeekUnit_fields h
    refine ⟨h1.1, h1.2.1, h1.2.2.1, ?_⟩
    intro hin
    have h3 := h1.2.2.2.2.2 (Nat.le_trans hin.1 hin.2)
    unfold InRange
    rw [h1.2.1, h1.2.2.1]
    exact h3
  · cases h
    exact ⟨rfl, rfl, rfl, fun hin => hin⟩

theorem writtenUnits_append (l1 l2 : List PluginCall) :
    writtenUnits (l1 ++ l2) = writtenUnits l1 + writtenUnits l2 := by
  induction l1 with
  | nil => simp [writtenUnits]
  | cons c rest ih =>
    cases c <;> simp [writtenUnits, ih]
    omega

/-- What one pass of the renderer loop does when the renderer is suspended,
and when it is not. -/
theorem ThRenderer.body_spec {buf : UnitBuffer} {p q : Player}
    (h : ThRenderer.body buf p = some q) :
    q.m_UnitBeg = p.m_UnitBeg ∧ q.m_UnitEnd = p.m_UnitEnd ∧ q.m_Status = p.m_Status ∧
    (p.m_SuspendRenderer = true → q = p) ∧
    (p.m_SuspendRenderer = false →
      q.m_RendererIndex = (p.m_RendererIndex + buf.unitCount) % 2 ^ 64 ∧
      writtenUnits q.calls = writtenUnits p.calls + buf.unitCount ∧
      (q.m_SuspendRenderer = true ↔ q.m_UnitEnd ≤ q.m_RendererIndex)) := by
  unfold ThRenderer.body at h
  by_cases hs : p.m_SuspendRenderer = true
  · simp only [hs, if_true] at h
    cases h
    simp [hs]
  · have hs2 : p.m_SuspendRenderer = false := by simpa using hs
    simp only [hs2, Bool.false_eq_true, if_false] at h
    cases hr : p.m_Renderer with
    | none =>
      rw [hr] at h
      cases h
    | some r =>
      rw [hr] at h
      simp only at h
      split at h
      · next hcross =>
        cases h
        refine ⟨rfl, rfl, rfl, by simp [hs2], fun _ => ⟨rfl, ?_, ?_⟩⟩
        · simp [writtenUnits_append, writtenUnits]
        · simpa using hcross
      · next hcross =>
        cases h
        refine ⟨rfl, rfl, rfl, by simp [hs2], fun _ => ⟨rfl, ?_, ?_⟩⟩
        · simp [writtenUnits_append, writtenUnits]
        · simp only [hs2, Bool.false_eq_true, false_iff]
          simpa using hcross

theorem ThRenderer.loop_step (buf : UnitBuffer) (rest : List UnitBuffer) (p : Player) :
    ThRenderer.loop (buf :: rest) p =
      match ThRenderer.body buf p with
      | none => none
      | some q => if q.m_SuspendRenderer = true then some q else ThRenderer.loop rest q := by
  rw [ThRenderer.loop]

/-- The renderer loop from a player that is not suspended, while the index
stays below `2 ^ 64`: the units written are the advance of `m_RendererIndex`,
and the loop is left with `m_RendererIndex` at or after `m_UnitEnd`. -/
theorem ThRenderer.loop_written (frames : List UnitBuffer) (p q : Player)
    (h : ThRenderer.loop frames p = some q) (hs : p.m_SuspendRenderer = false)
    (hsum : p.m_RendererIndex + (frames.map (fun f => f.unitCount)).sum < 2 ^ 64) :
    writtenUnits q.calls = writtenUnits p.calls + (q.m_RendererIndex - p.m_RendererIndex) ∧
    p.m_RendererIndex ≤ q.m_RendererIndex ∧
    q.m_UnitBeg = p.m_UnitBeg ∧ q.m_UnitEnd = p.m_UnitEnd ∧ q.m_Status = p.m_Status ∧
    (q.m_SuspendRenderer = true → q.m_UnitEnd ≤ q.m_RendererIndex) := by
  induction frames generalizing p with
  | nil =>
    simp only [ThRenderer.loop] at h
    cases h
    simp [hs]
  | cons buf rest ih =>
    rw [ThRenderer.loop_step] at h
    simp only [List.map_cons, List.sum_cons] at hsum
    cases hb : ThRenderer.body buf p with
    | none =>
      rw [hb] at h
      cases h
    | some p1 =>
      rw [hb] at h
      simp only at h
      have hspec := ThRenderer.body_spec hb
      obtain ⟨hbeg, hend, hst, _, hrun⟩ := hspec
      obtain ⟨hidx, hw, hcross⟩ := hrun hs
      have hidx2 : p1.m_RendererIndex = p.m_RendererIndex + buf.unitCount := by
        rw [hidx]
        exact Nat.mod_eq_of_lt (by omega)
      by_cases hs1 : p1.m_SuspendRenderer = true
      · simp only [hs1, if_true] at h
        cases h
        refine ⟨by rw [hw, hidx2]; omega, by omega, hbeg, hend, hst, fun _ => hcross.mp hs1⟩
      · have hs2 : p1.m_SuspendRenderer = false := by simpa using hs1
        simp only [hs2, Bool.false_eq_true, if_false] at h
        obtain ⟨h1, h2, h3, h4, h5, h6⟩ := ih p1 h hs2 (by rw [hidx2]; omega)
        refine ⟨by rw [h1, hw]; omega, by omega, by rw [h3, hbeg], by rw [h4, hend],
          by rw [h5, hst], h6⟩

/-- The renderer loop over slots of `u` units each, from an index below
`m_UnitEnd` with `u` dividing the distance, is left with `m_RendererIndex`
equal to `m_UnitEnd`. -/
theorem ThRenderer.loop_uniform (u : Nat) (frames : List UnitBuffer) (p q : Player)
    (hframes : ∀ f ∈ frames, f.unitCount = u)
    (h : ThRenderer.loop frames p = some q) (hs : p.m_SuspendRenderer = false)
    (hdone : q.m_SuspendRenderer = true)
    (hsum : p.m_RendererIndex + (frames.map (fun f => f.unitCount)).sum < 2 ^ 64)
    (hlt : p.m_RendererIndex < p.m_UnitEnd)
    (hdvd : u ∣ (p.m_UnitEnd - p.m_RendererIndex)) :
    q.m_RendererIndex = p.m_UnitEnd := by
  induction frames generalizing p with
  | nil =>
    simp only [ThRenderer.loop] at h
    cases h
    rw [hs] at hdone
    cases hdone
  | cons buf rest ih =>
    rw [ThRenderer.loop_step] at h
    simp only [List.map_cons, List.sum_cons] at hsum
    have hbu : buf.unitCount = u := hframes buf (List.mem_cons_self _ _)
    cases hb : ThRenderer.body buf p with
    | none =>
      rw [hb] at h
      cases h
    | some p1 =>
      rw [hb] at h
      simp only at h
      obtain ⟨hbeg, hend, hst, _, hrun⟩ := ThRenderer.body_spec hb
      obtain ⟨hidx, hw, hcross⟩ := hrun hs
      have hidx2 : p1.m_RendererIndex = p.m_RendererIndex + u := by
        rw [hidx, hbu]
        exact Nat.mod_eq_of_lt (by omega)
      obtain ⟨k, hk⟩ := hdvd
      have hkpos : 0 < k := by
        rcases Nat.eq_zero_or_pos k with h0 | h0
        · rw [h0] at hk
          omega
        · exact h0
      have hge : u ≤ p.m_UnitEnd - p.m_RendererIndex := by
        rw [hk]
        exact Nat.le_mul_of_pos_right u hkpos
      by_cases hs1 : p1.m_SuspendRenderer = true
      · simp only [hs1, if_true] at h
        cases h
        have h2 := hcross.mp hs1
        omega
      · have hs2 : p1.m_SuspendRenderer = false := by simpa using hs1
        simp only [hs2, Bool.false_eq_true, if_false] at h
        have hnot : ¬ p1.m_UnitEnd ≤ p1.m_RendererIndex := fun h3 => hs1 (hcross.mpr h3)
        have h4 := ih p1 (fun f hf => hframes f (List.mem_cons_of_mem _ hf)) h hs2
          (by rw [hidx2]; omega) (by omega)
          (by
            refine ⟨k - 1, ?_⟩
            rw [hend, hidx2, Nat.mul_sub, Nat.mul_one, ← hk]
            omega)
        rw [h4, hend]

theorem PlayRange_fields {a b : Nat} {p q : Player} (h : PlayRange a b p = some q) :
    q.m_UnitBeg = a ∧ q.m_UnitEnd = b ∧ q.m_RendererIndex = a ∧ q.m_DecoderIndex = a ∧
    q.m_SuspendRenderer = false ∧ q.m_SuspendDecoder = false ∧
    q.m_Status = PlayerStatus.Playing := by
  cases hd : p.m_Decoder with
  | none => simp [PlayRange, hd] at h
  | some d =>
    rw [PlayRange_some a b p d hd] at h
    cases h
    exact ⟨rfl, rfl, rfl, rfl, rfl, rfl, rfl⟩

/-- C19, as stated, fails: after `Play(250, 700)` on the Stopped player of the
examples the renderer thread writes five slots of 100 units and leaves
`m_RendererIndex` at 750, above `m_UnitEnd`, which is 700. -/
theorem renderer_index_counterexample :
    (Play2 demoPlugins demoArith 250 700 demoStopped).map
        (fun q => (q.m_UnitBeg, q.m_RendererIndex, q.m_UnitEnd)) = some (250, 250, 700) ∧
    ((Play2 demoPlugins demoArith 250 700 demoStopped).bind
        (ThRenderer.loop (List.replicate 5 demoFrame))).map
        (fun q => (q.m_UnitBeg, q.m_RendererIndex, q.m_UnitEnd)) = some (250, 750, 700) ∧
    ((Play2 demoPlugins demoArith 250 700 demoStopped).bind
        (ThRenderer.loop (List.replicate 5 demoFrame))).map
        (fun q => decide (q.m_RendererIndex ≤ q.m_UnitEnd)) = some false := by
  decide

/-- C19, amended: `PlayRange(a, b)` leaves `m_UnitBeg ≤ m_RendererIndex ≤
m_UnitEnd` exactly when `a ≤ b`.  From a player where this holds, it holds,
with the same range, after every run of `Pause`, `Resume`, `SeekTime`,
`SeekPercent` and steps of the renderer thread in which each slot written ends
at or before `m_UnitEnd`.  A step of the renderer thread with any slot keeps
`m_UnitBeg ≤ m_RendererIndex`, and from an index below `m_UnitEnd` it ends
less than the slot's unit count above `m_UnitEnd`. -/
theorem renderer_index_in_range (env : Plugins) (fp : DoubleArith) :
    (∀ (a b : Nat) (p q : Player), PlayRange a b p = some q → (InRange q ↔ a ≤ b)) ∧
    (∀ p q : Player, InRange p → p.m_UnitEnd < 2 ^ 64 → Playback env fp p q →
      InRange q ∧ q.m_UnitBeg = p.m_UnitBeg ∧ q.m_UnitEnd = p.m_UnitEnd) ∧
    (∀ (buf : UnitBuffer) (p q : Player), ThRenderer.body buf p = some q →
      p.m_RendererIndex + buf.unitCount < 2 ^ 64 →
      p.m_UnitBeg ≤ p.m_RendererIndex →
      q.m_UnitBeg ≤ q.m_RendererIndex ∧
      (p.m_RendererIndex < p.m_UnitEnd → q.m_RendererIndex < q.m_UnitEnd + buf.unitCount)) := by
  refine ⟨?_, ?_, ?_⟩
  · intro a b p q h
    obtain ⟨h1, h2, h3, _⟩ := PlayRange_fields h
    unfold InRange
    rw [h1, h2, h3]
    constructor
    · intro hin
      exact hin.2
    · intro hab
      exact ⟨Nat.le_refl a, hab⟩
  · intro p q hin hend hplay
    induction hplay with
    | start => exact ⟨hin, rfl, rfl⟩
    | @render q1 r1 buf _ hfit hbody ih =>
      obtain ⟨hinq, hb, he⟩ := ih
      obtain ⟨h1, h2, _, hsus, hrun⟩ := ThRenderer.body_spec hbody
      refine ⟨?_, by rw [h1, hb], by rw [h2, he]⟩
      by_cases hs : q1.m_SuspendRenderer = true
      · rw [hsus hs]
        exact hinq
      · have hs2 : q1.m_SuspendRenderer = false := by simpa using hs
        obtain ⟨hidx, _, _⟩ := hrun hs2
        have hidx2 : r1.m_RendererIndex = q1.m_RendererIndex + buf.unitCount := by
          rw [hidx]
          exact Nat.mod_eq_of_lt (by omega)
        unfold InRange at hinq ⊢
        rw [h1, h2, hidx2]
        omega
    | @pause q1 _ ih =>
      obtain ⟨hinq, hb, he⟩ := ih
      have hp := Pause_indices q1
      unfold InRange at hinq ⊢
      rw [hp.2.1, hp.2.2.1, hp.2.2.2.1]
      exact ⟨hinq, hb, he⟩
    | resume _ hres ih =>
      obtain ⟨hinq, hb, he⟩ := ih
      have hr := Resume_fields hres
      unfold InRange at hinq ⊢
      rw [hr.2.1, hr.2.2.1, hr.2.2.2.1]
      exact ⟨hinq, hb, he⟩
    | seekTime msPos _ hseek ih =>
      obtain ⟨hinq, hb, he⟩ := ih
      have hf := SeekTime_fields hseek
      exact ⟨hf.2.2.2 hinq, by rw [hf.2.1, hb], by rw [hf.2.2.1, he]⟩
    | seekPercent percent _ hseek ih =>
      obtain ⟨hinq, hb, he⟩ := ih
      have hf := SeekPercent_fields hseek
      exact ⟨hf.2.2.2 hinq, by rw [hf.2.1, hb], by rw [hf.2.2.1, he]⟩
  · intro buf p q hbody hno hbeg
    obtain ⟨h1, h2, _, hsus, hrun⟩ := ThRenderer.body_spec hbody
    by_cases hs : p.m_SuspendRenderer = true
    · rw [hsus hs]
      exact ⟨hbeg, fun h => by omega⟩
    · have hs2 : p.m_SuspendRenderer = false := by simpa using hs
      obtain ⟨hidx, _, _⟩ := hrun hs2
      have hidx2 : q.m_RendererIndex = p.m_RendererIndex + buf.unitCount := by
        rw [hidx]
        exact Nat.mod_eq_of_lt hno
      rw [h1, h2, hidx2]
      exact ⟨by omega, fun h => by omega⟩

/-- Witness of C19: the Playing player of the examples, range 0 to 1000, after
the renderer thread wrote one slot of 100 units and `Pause()`. -/
theorem renderer_index_in_range_witness :
    InRange demoPlaying ∧
    InRange (Pause ((ThRenderer.body demoFrame demoPlaying).getD demoPlaying)) ∧
    (Pause ((ThRenderer.body demoFrame demoPlaying).getD demoPlaying)).m_UnitBeg
      = demoPlaying.m_UnitBeg ∧
    (Pause ((ThRenderer.body demoFrame demoPlaying).getD demoPlaying)).m_UnitEnd
      = demoPlaying.m_UnitEnd :=
  ⟨⟨by decide, by decide⟩,
   (renderer_index_in_range demoPlugins demoArith).2.1 demoPlaying
      (Pause ((ThRenderer.body demoFrame demoPlaying).getD demoPlaying))
      ⟨by decide, by decide⟩ (by decide)
      (Playback.pause (Playback.render demoFrame Playback.start (by decide) (by decide)))⟩

/-! ## Natural completion -/

/-- C20, as stated, fails: after `Play(0, 50)` on the Stopped player of the
examples the decoder thread decodes one slot of 100 units and suspends, the
renderer thread writes that slot and ends the cycle with status Stopped and the
completion signal: 100 units are written for the range of 50. -/
theorem natural_completion_counterexample :
    (Play2 demoPlugins demoArith 0 50 demoStopped).map
        (fun q => (q.m_UnitBeg, q.m_UnitEnd)) = some (0, 50) ∧
    ((Play2 demoPlugins demoArith 0 50 demoStopped).bind
        (ThDecoder.body demoPlugins ⟨some 256, 0, 256, 0⟩)).map
        (fun r => (r.1.m_DecoderIndex, r.1.m_SuspendDecoder, r.2)) =
      some (100, true, some demoFrame) ∧
    ((Play2 demoPlugins demoArith 0 50 demoStopped).bind (ThRenderer [demoFrame])).map
        (fun q => (q.m_Status, q.m_SuspendRenderer, q.m_RendererIndex,
          writtenUnits q.calls, decide (PluginCall.SigFinished ∈ q.calls))) =
      some (PlayerStatus.Stopped, true, 100, 100, true) ∧
    ((Play2 demoPlugins demoArith 0 50 demoStopped).bind (ThRenderer [demoFrame])).map
        (fun q => decide (writtenUnits q.calls = q.m_UnitEnd - q.m_UnitBeg)) = some false := by
  decide

/-- C20, amended: when the renderer loop that follows `PlayRange(a, b)` is left
at the end of the range, with no `Pause` or seek in between and the index below
`2 ^ 64`, the units written are `m_RendererIndex - a`, which is at least
`b - a`; for `a ≤ b` they are `b - a` exactly when `m_RendererIndex` is `b`, as
it is when `a < b` and every slot holds the same number of units, a divisor of
`b - a`.  The cycle then sets the status to Stopped and fires the signal. -/
theorem natural_completion_units (a b : Nat) (frames : List UnitBuffer) (p0 p q : Player)
    (hplay : PlayRange a b p0 = some p)
    (hloop : ThRenderer.loop frames p = some q)
    (hdone : q.m_SuspendRenderer = true)
    (hsum : a + (frames.map (fun f => f.unitCount)).sum < 2 ^ 64) :
    writtenUnits q.calls - writtenUnits p.calls = q.m_RendererIndex - a ∧
    b - a ≤ writtenUnits q.calls - writtenUnits p.calls ∧
    (a ≤ b → (writtenUnits q.calls - writtenUnits p.calls = b - a ↔ q.m_RendererIndex = b)) ∧
    (∀ u, (∀ f ∈ frames, f.unitCount = u) → a < b → u ∣ (b - a) →
      writtenUnits q.calls - writtenUnits p.calls = b - a) ∧
    ThRenderer frames p =
      some { q with m_Status := PlayerStatus.Stopped,
                    calls := q.calls ++ [PluginCall.SigFinished] } := by
  obtain ⟨hbeg, hend, hidx, _, hsus, _, _⟩ := PlayRange_fields hplay
  obtain ⟨hw, hle, _, hqend, _, hcross⟩ := ThRenderer.loop_written frames p q hloop hsus
    (by rw [hidx]; exact hsum)
  have hge := hcross hdone
  rw [hidx] at hw hle
  rw [hqend, hend] at hge
  have hwritten : writtenUnits q.calls - writtenUnits p.calls = q.m_RendererIndex - a := by
    rw [hw]
    omega
  refine ⟨hwritten, by rw [hwritten]; omega, ?_, ?_, ?_⟩
  · intro hab
    rw [hwritten]
    omega
  · intro u hframes hab hdvd
    have h1 := ThRenderer.loop_uniform u frames p q hframes hloop hsus hdone
      (by rw [hidx]; exact hsum) (by rw [hidx, hend]; exact hab) (by rw [hidx, hend]; exact hdvd)
    rw [hwritten, h1, hend]
  · have hge2 : q.m_UnitEnd ≤ q.m_RendererIndex := hcross hdone
    simp only [ThRenderer, hloop, hdone, Bool.true_eq_false, if_false, ge_iff_le, hge2, if_true]

/-- Witness of C20: `PlayRange(250, 750)` on the Stopped player of the examples
and five slots of 100 units: 500 units are written. -/
theorem natural_completion_units_witness :
    PlayRange 250 750 demoStopped = some demoRanged ∧
    ThRenderer.loop (List.replicate 5 demoFrame) demoRanged = some demoRangedDone ∧
    demoRangedDone.m_SuspendRenderer = true ∧
    writtenUnits demoRangedDone.calls - writtenUnits demoRanged.calls = 750 - 250 :=
  ⟨by decide, by decide, by decide,
   (natural_completion_units 250 750 (List.replicate 5 demoFrame) demoStopped demoRanged
      demoRangedDone (by decide) (by decide) (by decide) (by decide)).2.2.2.1 100
      (by decide) (by decide) (by decide)⟩

/-! ## The end of a renderer cycle -/

theorem ThRenderer.body_signal {buf : UnitBuffer} {p q : Player}
    (h : ThRenderer.body buf p = some q) :
    q.calls.count PluginCall.SigFinished = p.calls.count PluginCall.SigFinished ∧
    q.m_Renderer = p.m_Renderer := by
  unfold ThRenderer.body at h
  by_cases hs : p.m_SuspendRenderer = true
  · simp only [hs, if_true] at h
    cases h
    exact ⟨rfl, rfl⟩
  · have hs2 : p.m_SuspendRenderer = false := by simpa using hs
    simp only [hs2, Bool.false_eq_true, if_false] at h
    cases hr : p.m_Renderer with
    | none =>
      rw [hr] at h
      cases h
    | some r =>
      rw [hr] at h
      simp only at h
      split at h <;>
      · cases h
        refine ⟨?_, rfl⟩
        simp [List.count_append]

theorem ThRenderer.body_some (buf : UnitBuffer) (p : Player) (r : Obj)
    (hr : p.m_Renderer = some r) : ∃ q, ThRenderer.body buf p = some q := by
  unfold ThRenderer.body
  by_cases hs : p.m_SuspendRenderer = true
  · exact ⟨p, by simp [hs]⟩
  · have hs2 : p.m_SuspendRenderer = false := by simpa using hs
    simp only [hs2, Bool.false_eq_true, if_false, hr]
    split <;> exact ⟨_, rfl⟩

/-- The renderer loop does not assign the status and does not fire the signal;
it returns for a player with a renderer. -/
theorem ThRenderer.loop_signal (frames : List UnitBuffer) (p : Player) :
    (∀ q, ThRenderer.loop frames p = some q →
      q.m_Status = p.m_Status ∧
      q.calls.count PluginCall.SigFinished = p.calls.count PluginCall.SigFinished) ∧
    (∀ r, p.m_Renderer = some r → ∃ q, ThRenderer.loop frames p = some q) := by
  induction frames generalizing p with
  | nil =>
    constructor
    · intro q h
      simp only [ThRenderer.loop] at h
      cases h
      exact ⟨rfl, rfl⟩
    · intro r _
      exact ⟨p, rfl⟩
  | cons buf rest ih =>
    constructor
    · intro q h
      rw [ThRenderer.loop_step] at h
      cases hb : ThRenderer.body buf p with
      | none =>
        rw [hb] at h
        cases h
      | some p1 =>
        rw [hb] at h
        simp only at h
        have h1 := (ThRenderer.body_spec hb).2.2.1
        have h2 := (ThRenderer.body_signal hb).1
        by_cases hs1 : p1.m_SuspendRenderer = true
        · simp only [hs1, if_true] at h
          cases h
          exact ⟨h1, h2⟩
        · have hs2 : p1.m_SuspendRenderer = false := by simpa using hs1
          simp only [hs2, Bool.false_eq_true, if_false] at h
          obtain ⟨h3, h4⟩ := (ih p1).1 q h
          exact ⟨by rw [h3, h1], by rw [h4, h2]⟩
    · intro r hr
      obtain ⟨p1, hb⟩ := ThRenderer.body_some buf p r hr
      rw [ThRenderer.loop_step, hb]
      simp only
      by_cases hs1 : p1.m_SuspendRenderer = true
      · exact ⟨p1, by simp [hs1]⟩
      · have hs2 : p1.m_SuspendRenderer = false := by simpa using hs1
        simp only [hs2, Bool.false_eq_true, if_false]
        exact (ih p1).2 r (by rw [(ThRenderer.body_signal hb).2, hr])

/-- C21: a cycle of the renderer thread returns for a player with a renderer.
When its inner loop is left with `m_RendererIndex` at or after `m_UnitEnd`, the
cycle sets the status to Stopped and fires the completion signal once; when
the loop is left with `m_RendererIndex` before `m_UnitEnd`, or is not left, the
cycle leaves the status and fires nothing.  So a cycle fires the signal at
most once, and once exactly when the loop is left at or after `m_UnitEnd`. -/
theorem ThRenderer_signal (frames : List UnitBuffer) (p : Player) :
    (∀ rd, p.m_Renderer = some rd → ∃ r, ThRenderer frames p = some r) ∧
    (∀ r, ThRenderer frames p = some r →
      ∃ q, ThRenderer.loop frames p = some q ∧
        (q.m_SuspendRenderer = true ∧ q.m_UnitEnd ≤ q.m_RendererIndex →
          r.m_Status = PlayerStatus.Stopped ∧
          r.calls = q.calls ++ [PluginCall.SigFinished] ∧
          r.calls.count PluginCall.SigFinished = p.calls.count PluginCall.SigFinished + 1) ∧
        (¬ (q.m_SuspendRenderer = true ∧ q.m_UnitEnd ≤ q.m_RendererIndex) →
          r = q ∧ r.m_Status = p.m_Status ∧
          r.calls.count PluginCall.SigFinished = p.calls.count PluginCall.SigFinished) ∧
        r.calls.count PluginCall.SigFinished ≤ p.calls.count PluginCall.SigFinished + 1 ∧
        (r.calls.count PluginCall.SigFinished = p.calls.count PluginCall.SigFinished + 1 ↔
          q.m_SuspendRenderer = true ∧ q.m_UnitEnd ≤ q.m_RendererIndex)) := by
  have hloop := ThRenderer.loop_signal frames p
  constructor
  · intro rd hrd
    obtain ⟨q, hq⟩ := hloop.2 rd hrd
    simp only [ThRenderer, hq]
    split
    · exact ⟨_, rfl⟩
    · split <;> exact ⟨_, rfl⟩
  · intro r hr
    cases hq : ThRenderer.loop frames p with
    | none => simp [ThRenderer, hq] at hr
    | some q =>
      obtain ⟨hst, hcount⟩ := hloop.1 q hq
      refine ⟨q, rfl, ?_⟩
      simp only [ThRenderer, hq] at hr
      by_cases hs : q.m_SuspendRenderer = true
      · by_cases hend : q.m_UnitEnd ≤ q.m_RendererIndex
        · simp only [hs, Bool.true_eq_false, if_false, ge_iff_le, hend, if_true] at hr
          cases hr
          have hc : (q.calls ++ [PluginCall.SigFinished]).count PluginCall.SigFinished =
              p.calls.count PluginCall.SigFinished + 1 := by
            simp [List.count_append, hcount]
          refine ⟨fun _ => ⟨rfl, rfl, hc⟩, fun hn => absurd ⟨hs, hend⟩ hn, ?_, ?_⟩
          · exact Nat.le_of_eq hc
          · exact ⟨fun _ => ⟨hs, hend⟩, fun _ => hc⟩
        · simp only [hs, Bool.true_eq_false, if_false, ge_iff_le, hend] at hr
          cases hr
          refine ⟨fun hy => absurd hy.2 hend, fun _ => ⟨rfl, hst, hcount⟩, ?_, ?_⟩
          · omega
          · exact ⟨fun hc => by omega, fun hy => absurd hy.2 hend⟩
      · have hs2 : q.m_SuspendRenderer = false := by simpa using hs
        simp only [hs2, if_true] at hr
        cases hr
        refine ⟨fun hy => absurd hy.1 hs, fun _ => ⟨rfl, hst, hcount⟩, ?_, ?_⟩
        · omega
        · exact ⟨fun hc => by omega, fun hy => absurd hy.1 hs⟩

/-- Witness of C21: the cycle after `PlayRange(250, 750)` over five slots of
100 units, and the cycle of the Playing player of the examples after `Pause`. -/
theorem ThRenderer_signal_witness :
    (ThRenderer (List.replicate 5 demoFrame) demoRanged).map
        (fun r => (r.m_Status, r.m_RendererIndex, r.calls.count PluginCall.SigFinished)) =
      some (PlayerStatus.Stopped, 750, 1) ∧
    (ThRenderer [demoFrame] (Pause demoPlaying)).map
        (fun r => (r.m_Status, r.m_RendererIndex, r.calls.count PluginCall.SigFinished)) =
      some (PlayerStatus.Paused, 0, 0) ∧
    ∃ r, ThRenderer (List.replicate 5 demoFrame) demoRanged = some r :=
  ⟨by decide, by decide,
   (ThRenderer_signal (List.replicate 5 demoFrame) demoRanged).1 1 (by decide)⟩

/-! ## The ring slots across Open and Close -/

theorem Open.prepare_spec (maxBytesPerUnit : Nat) (buf : UnitBuffer) :
    (Open.prepare maxBytesPerUnit buf).used = 0 ∧
    (Open.prepare maxBytesPerUnit buf).max = max buf.max maxBytesPerUnit ∧
    (Open.prepare maxBytesPerUnit buf).data =
      (if buf.max < maxBytesPerUnit then some maxBytesPerUnit else buf.data) ∧
    (Open.prepare maxBytesPerUnit buf).unitCount = buf.unitCount := by
  by_cases h : buf.max < maxBytesPerUnit
  · simp [Open.prepare, h, Nat.max_eq_right (Nat.le_of_lt h)]
  · simp [Open.prepare, h, Nat.max_eq_left (Nat.le_of_not_lt h)]

/-- The slots that `Open` leaves: the old ones, or the old ones prepared for
the decoder's `MaxBytesPerUnit()` when the decoder's `Open` returned `Ok`. -/
theorem Open_buffers (env : Plugins) (path : String) (p : Player) :
    (Open env path p).2.m_UnitBuffers = p.m_UnitBuffers ∨
    ∃ node, mapFind p.m_DecoderPluginMap (ToLower (FileHelper.FileSuffix path)) = some node ∧
      (Open env path p).2.m_UnitBuffers =
        p.m_UnitBuffers.map (Open.prepare
          (env.MaxBytesPerUnit (p.calls ++ [PluginCall.DecoderOpen node.decoder path])
            node.decoder)) := by
  simp only [Open]
  cases hf : mapFind p.m_DecoderPluginMap (ToLower (FileHelper.FileSuffix path)) with
  | none => exact Or.inl rfl
  | some node =>
    simp only
    split
    · exact Or.inl rfl
    · split
      · exact Or.inl rfl
      · split <;> exact Or.inr ⟨node, rfl, rfl⟩

theorem Open_buffers_ok (env : Plugins) (path : String) (p : Player)
    (node : DecoderPluginNode) (r : Obj)
    (hf : mapFind p.m_DecoderPluginMap (ToLower (FileHelper.FileSuffix path)) = some node)
    (hr : p.m_Renderer = some r)
    (hok : env.DecoderOpen p.calls node.decoder path = ErrorCode.Ok) :
    (Open env path p).2.m_UnitBuffers =
      p.m_UnitBuffers.map (Open.prepare
        (env.MaxBytesPerUnit (p.calls ++ [PluginCall.DecoderOpen node.decoder path])
          node.decoder)) := by
  simp only [Open, hf, hr, hok, ne_eq, not_true_eq_false, if_false]
  split <;> rfl

theorem Close_buffers {p q : Player} (h : Close p = some q) :
    q.m_UnitBuffers = p.m_UnitBuffers := by
  have hp : (Pause p).m_UnitBuffers = p.m_UnitBuffers := by
    unfold Pause
    by_cases h1 : p.m_Status = PlayerStatus.Paused
    · simp [h1]
    · by_cases h2 : p.m_SuspendRenderer = false <;> by_cases h3 : p.m_SuspendDecoder = false <;>
        simp [h1, h2, h3]
  unfold Close at h
  split at h
  · cases h
    rfl
  · simp only at h
    split at h
    · cases h
    · cases h
      exact hp

theorem forall₂_max_refl (l : List UnitBuffer) :
    List.Forall₂ (fun a b : UnitBuffer => a.max ≤ b.max) l l :=
  List.forall₂_same.mpr (fun _ _ => Nat.le_refl _)

theorem forall₂_max_trans {l1 l2 l3 : List UnitBuffer}
    (h1 : List.Forall₂ (fun a b : UnitBuffer => a.max ≤ b.max) l1 l2)
    (h2 : List.Forall₂ (fun a b : UnitBuffer => a.max ≤ b.max) l2 l3) :
    List.Forall₂ (fun a b : UnitBuffer => a.max ≤ b.max) l1 l3 := by
  induction h1 generalizing l3 with
  | nil =>
    cases h2
    exact List.Forall₂.nil
  | cons hab _ ih =>
    cases h2 with
    | cons hbc hrest => exact List.Forall₂.cons (Nat.le_trans hab hbc) (ih hrest)

theorem forall₂_max_prepare (m : Nat) (l : List UnitBuffer) :
    List.Forall₂ (fun a b : UnitBuffer => a.max ≤ b.max) l (l.map (Open.prepare m)) := by
  rw [List.forall₂_map_right_iff]
  exact List.forall₂_same.mpr (fun b _ => by
    rw [(Open.prepare_spec m b).2.1]
    exact Nat.le_max_left _ _)

/-- C22: when `Open` gets past the decoder's `Open`, every ring slot afterwards
has `used = 0` and the capacity `max(old capacity, MaxBytesPerUnit())`, so at
least `MaxBytesPerUnit()`, with a byte array of that length when it grew; and
over every run of `Open` and `Close` calls the ring keeps its slots in place
and no slot's capacity decreases. -/
theorem Open_slots (env : Plugins) (path : String) (p : Player) :
    (∀ node r,
      mapFind p.m_DecoderPluginMap (ToLower (FileHelper.FileSuffix path)) = some node →
      p.m_Renderer = some r →
      env.DecoderOpen p.calls node.decoder path = ErrorCode.Ok →
      (Open env path p).2.m_UnitBuffers =
        p.m_UnitBuffers.map (fun b =>
          { data :=
              if b.max < env.MaxBytesPerUnit
                  (p.calls ++ [PluginCall.DecoderOpen node.decoder path]) node.decoder
              then some (env.MaxBytesPerUnit
                  (p.calls ++ [PluginCall.DecoderOpen node.decoder path]) node.decoder)
              else b.data,
            used := 0,
            max := max b.max (env.MaxBytesPerUnit
              (p.calls ++ [PluginCall.DecoderOpen node.decoder path]) node.decoder),
            unitCount := b.unitCount }) ∧
      ∀ b ∈ (Open env path p).2.m_UnitBuffers,
        b.used = 0 ∧
        env.MaxBytesPerUnit (p.calls ++ [PluginCall.DecoderOpen node.decoder path])
          node.decoder ≤ b.max) ∧
    (∀ q, OpenClose env p q →
      List.Forall₂ (fun a b : UnitBuffer => a.max ≤ b.max) p.m_UnitBuffers q.m_UnitBuffers) := by
  constructor
  · intro node r hf hr hok
    have hbuf := Open_buffers_ok env path p node r hf hr hok
    constructor
    · rw [hbuf]
      apply List.map_congr_left
      intro b _
      obtain ⟨h1, h2, h3, h4⟩ := Open.prepare_spec
        (env.MaxBytesPerUnit (p.calls ++ [PluginCall.DecoderOpen node.decoder path])
          node.decoder) b
      cases hb : Open.prepare
        (env.MaxBytesPerUnit (p.calls ++ [PluginCall.DecoderOpen node.decoder path])
          node.decoder) b with
      | mk data used mx uc =>
        rw [hb] at h1 h2 h3 h4
        simp only at h1 h2 h3 h4
        rw [h1, h2, h3, h4]
    · intro b hb
      rw [hbuf] at hb
      obtain ⟨b0, _, rfl⟩ := List.mem_map.mp hb
      obtain ⟨h1, h2, _, _⟩ := Open.prepare_spec
        (env.MaxBytesPerUnit (p.calls ++ [PluginCall.DecoderOpen node.decoder path])
          node.decoder) b0
      exact ⟨h1, by rw [h2]; exact Nat.le_max_right _ _⟩
  · intro q hq
    induction hq with
    | start => exact forall₂_max_refl _
    | @openFile q1 path1 _ ih =>
      rcases Open_buffers env path1 q1 with h | ⟨node, _, h⟩
      · rw [h]
        exact ih
      · rw [h]
        exact forall₂_max_trans ih (forall₂_max_prepare _ _)
    | close _ hc ih =>
      rw [Close_buffers hc]
      exact ih

/-- Witness of C22: `Open("a.syn")` on the player of the examples with the
decoder plugin 0 and the renderer plugin. -/
theorem Open_slots_witness :
    demoStopped.m_UnitBuffers = List.replicate 5 ⟨some 256, 0, 256, 0⟩ ∧
    ∀ b ∈ (Open demoPlugins "a.syn"
        (RegisterRendererPlugin demoPlugins 2
          (RegisterDecoderPlugin demoPlugins 0 Player.init))).2.m_UnitBuffers,
      b.used = 0 ∧
      demoPlugins.MaxBytesPerUnit
        ((RegisterRendererPlugin demoPlugins 2
          (RegisterDecoderPlugin demoPlugins 0 Player.init)).calls ++
          [PluginCall.DecoderOpen (⟨0, 0⟩ : DecoderPluginNode).decoder "a.syn"])
        (⟨0, 0⟩ : DecoderPluginNode).decoder ≤ b.max :=
  ⟨by decide,
   ((Open_slots demoPlugins "a.syn"
      (RegisterRendererPlugin demoPlugins 2
        (RegisterDecoderPlugin demoPlugins 0 Player.init))).1 ⟨0, 0⟩ 1
      (by decide) (by decide) (by decide)).2⟩

/-! ## Sending a playlist in chunks -/

/-- The items read at `off`, `off + 1`, ... are the next `n` items of the list. -/
theorem range_getElem_eq_take_drop {α : Type} (l : List α) (off n : Nat)
    (h : off + n ≤ l.length) :
    (List.range n).map (fun i => l[off + i]?) = ((l.drop off).take n).map some := by
  apply List.ext_getElem?
  intro i
  by_cases hi : i < n
  · rw [List.getElem?_map, List.getElem?_range hi, List.getElem?_map, List.getElem?_take_of_lt hi,
      List.getElem?_drop]
    have hlt : off + i < l.length := by omega
    simp [List.getElem?_eq_getElem hlt]
  · have h1 : ((List.range n).map (fun i => l[off + i]?)).length ≤ i := by simp; omega
    have h2 : (((l.drop off).take n).map some).length ≤ i := by simp; omega
    rw [List.getElem?_eq_none h1, List.getElem?_eq_none h2]

/-- The send loop from offset `off`: with any fuel of at least the length of
the rest of the list it returns, and what it adds is a partition of the rest
of the list. -/
theorem SendMediaItemsByChunk.loop_partition {α : Type} (index : Int) (list : List α) :
    ∀ (n off : Nat), off ≤ list.length → list.length - off ≤ n →
      ∃ new,
        (∀ fuel sent, list.length - off ≤ fuel →
          SendMediaItemsByChunk.loop index list fuel off sent = some (sent ++ new)) ∧
        (new.map (fun c => c.items)).flatten = (list.drop off).map some ∧
        (∀ c ∈ new, 1 ≤ c.count ∧ c.count ≤ MEDIAITEMS_IN_CHUNK ∧
          c.items.length = c.count ∧ c.index = index) ∧
        (∀ c ∈ new.dropLast, c.count = MEDIAITEMS_IN_CHUNK) ∧
        (new.map (fun c => c.count)).sum = list.length - off ∧
        (off = list.length → new = []) := by
  have hdone : ∀ off, off = list.length →
      ∃ new : List (AppendPacket α),
        (∀ fuel sent, list.length - off ≤ fuel →
          SendMediaItemsByChunk.loop index list fuel off sent = some (sent ++ new)) ∧
        (new.map (fun c => c.items)).flatten = (list.drop off).map some ∧
        (∀ c ∈ new, 1 ≤ c.count ∧ c.count ≤ MEDIAITEMS_IN_CHUNK ∧
          c.items.length = c.count ∧ c.index = index) ∧
        (∀ c ∈ new.dropLast, c.count = MEDIAITEMS_IN_CHUNK) ∧
        (new.map (fun c => c.count)).sum = list.length - off ∧
        (off = list.length → new = []) := by
    intro off heq
    refine ⟨[], ?_, ?_, ?_, ?_, ?_, ?_⟩
    · intro fuel sent _
      cases fuel <;> simp [SendMediaItemsByChunk.loop, heq]
    · simp [heq]
    · simp
    · simp
    · simp [heq]
    · intro _; rfl
  intro n
  induction n with
  | zero =>
    intro off hoff hn
    exact hdone off (by omega)
  | succ n ih =>
    intro off hoff hn
    by_cases hlt : off < list.length
    · have hcount : off + min (list.length - off) MEDIAITEMS_IN_CHUNK ≤ list.length := by
        have := Nat.min_le_left (list.length - off) MEDIAITEMS_IN_CHUNK
        omega
      have hpos : 1 ≤ min (list.length - off) MEDIAITEMS_IN_CHUNK := by
        simp only [MEDIAITEMS_IN_CHUNK]; omega
      have hn2 : list.length - (off + min (list.length - off) MEDIAITEMS_IN_CHUNK) ≤ n := by
        omega
      obtain ⟨new, hrun, hflat, hall, hlast, hsum, hnil⟩ :=
        ih (off + min (list.length - off) MEDIAITEMS_IN_CHUNK) hcount hn2
      refine ⟨{ index := index, count := min (list.length - off) MEDIAITEMS_IN_CHUNK,
                items := (List.range (min (list.length - off) MEDIAITEMS_IN_CHUNK)).map
                  (fun i => list[off + i]?) } :: new, ?_, ?_, ?_, ?_, ?_, ?_⟩
      · intro fuel sent hfuel
        cases fuel with
        | zero => omega
        | succ fuel =>
          rw [SendMediaItemsByChunk.loop]
          simp only [hlt, if_true]
          rw [hrun fuel _ (by omega)]
          simp
      · simp only [List.map_cons, List.flatten_cons, hflat]
        rw [range_getElem_eq_take_drop list off _ hcount, ← List.map_append]
        congr 1
        have hd : List.drop (off + min (list.length - off) MEDIAITEMS_IN_CHUNK) list =
            List.drop (min (list.length - off) MEDIAITEMS_IN_CHUNK) (List.drop off list) := by
          simp [List.drop_drop, Nat.add_comm]
        rw [hd]
        exact List.take_append_drop _ _
      · intro c hc
        rcases List.mem_cons.mp hc with rfl | hc
        · exact ⟨hpos, Nat.min_le_right _ _, by simp, rfl⟩
        · exact hall c hc
      · intro c hc
        cases new with
        | nil => simp at hc
        | cons c2 rest =>
          rw [List.dropLast_cons₂] at hc
          rcases List.mem_cons.mp hc with rfl | hc
          · -- another chunk follows, so this one was not cut short
            have hne : off + min (list.length - off) MEDIAITEMS_IN_CHUNK ≠ list.length := by
              intro he
              have := hnil he
              simp at this
            show min (list.length - off) MEDIAITEMS_IN_CHUNK = MEDIAITEMS_IN_CHUNK
            simp only [MEDIAITEMS_IN_CHUNK] at hne ⊢
            omega
          · exact hlast c hc
      · simp only [List.map_cons, List.sum_cons, hsum]
        omega
      · intro he; omega
    · exact hdone off (by omega)

/-- C24: `SendMediaItemsByChunk` returns for every list, with any fuel of at
least the list's length, and sends the items in consecutive chunks that
partition the list in order: the items of the packets, one after the other,
are the items of the list; every packet has between 1 and
`MEDIAITEMS_IN_CHUNK` = 20 items, as many as its count field says, and carries
the playlist index; every packet but the last has exactly 20; the counts sum
to the size of the list; and nothing is sent for the empty list. -/
theorem SendMediaItemsByChunk_chunks {α : Type} (index : Int) (list : List α) :
    ∃ sent, (∀ fuel, list.length ≤ fuel → SendMediaItemsByChunk index list fuel = some sent) ∧
      (sent.map (fun c => c.items)).flatten = list.map some ∧
      (∀ c ∈ sent, 1 ≤ c.count ∧ c.count ≤ 20 ∧ c.items.length = c.count ∧ c.index = index) ∧
      (∀ c ∈ sent.dropLast, c.count = 20) ∧
      (sent.map (fun c => c.count)).sum = list.length ∧
      (list = [] → sent = []) := by
  obtain ⟨sent, hrun, hflat, hall, hlast, hsum, hnil⟩ :=
    SendMediaItemsByChunk.loop_partition index list list.length 0 (Nat.zero_le _)
      (Nat.le_refl _)
  refine ⟨sent, ?_, ?_, hall, hlast, ?_, ?_⟩
  · intro fuel hfuel
    simpa [SendMediaItemsByChunk] using hrun fuel [] (by omega)
  · simpa using hflat
  · simpa using hsum
  · intro he
    apply hnil
    simp [he]

/-- Runs of `SendMediaItemsByChunk`: 45 items go out in packets of 20, 20 and
5 that hold the items in order; three items go out in one packet; no packet
goes out for the empty list. -/
theorem SendMediaItemsByChunk_example :
    (SendMediaItemsByChunk 1 (List.range 45) 45).map (fun sent => sent.map (fun c => c.count)) =
      some [20, 20, 5] ∧
    (SendMediaItemsByChunk 1 (List.range 45) 45).map
        (fun sent => (sent.map (fun c => c.items)).flatten) =
      some ((List.range 45).map some) ∧
    SendMediaItemsByChunk 1 [7, 8, 9] 3 =
      some [{ index := 1, count := 3, items := [some 7, some 8, some 9] }] ∧
    SendMediaItemsByChunk 1 ([] : List Nat) 0 = some [] := by
  decide

/-! ## The scroll keys of the explorer -/

/-- An `int` value is its own value on 32 bits. -/
theorem int32_id (x : Int) (h1 : -2 ^ 31 ≤ x) (h2 : x < 2 ^ 31) : int32 x = x := by
  unfold int32
  omega

/-- Every value on 32 bits is an `int`. -/
theorem int32_bounds (x : Int) : -2 ^ 31 ≤ int32 x ∧ int32 x < 2 ^ 31 := by
  unfold int32
  omega

/-- The selection after `ScrollDown`. -/
theorem ScrollDown_sel (v : ExplorerView) :
    (ScrollDown v).sel =
      if v.sel < int32 (int32 (v.m_FileItems.length : Int) - 1) then int32 (v.sel + 1)
      else v.sel := by
  unfold ScrollDown
  with_reducible rfl

/-- The first visible index after `ScrollDown`. -/
theorem ScrollDown_beg (v : ExplorerView) :
    (ScrollDown v).beg =
      if (ScrollDown v).sel > Int.tdiv (int32 (v.h - 2)) 2 ∧
          v.beg < int32 (int32 (v.m_FileItems.length : Int) - int32 (int32 (v.h - 2) - 1)) then
        int32 (v.beg + 1)
      else v.beg := by
  unfold ScrollDown
  with_reducible rfl

/-- The selection after `ScrollUp`. -/
theorem ScrollUp_sel (v : ExplorerView) :
    (ScrollUp v).sel = if v.sel > 0 then int32 (v.sel - 1) else v.sel := by
  unfold ScrollUp
  with_reducible rfl

/-- The first visible index after `ScrollUp`. -/
theorem ScrollUp_beg (v : ExplorerView) :
    (ScrollUp v).beg =
      if (ScrollUp v).sel < int32 (v.beg + Int.tdiv (int32 (v.h - 2)) 2) ∧ v.beg > 0 then
        int32 (v.beg - 1)
      else v.beg := by
  unfold ScrollUp
  with_reducible rfl

/-- The list after `ScrollDown`. -/
theorem ScrollDown_items (v : ExplorerView) : (ScrollDown v).m_FileItems = v.m_FileItems := by
  unfold ScrollDown
  with_reducible rfl

/-- The list after `ScrollUp`. -/
theorem ScrollUp_items (v : ExplorerView) : (ScrollUp v).m_FileItems = v.m_FileItems := by
  unfold ScrollUp
  with_reducible rfl

/-- The function `ScrollDown` keeps a valid view valid, and the list as it is. -/
theorem ScrollDown_valid (v : ExplorerView) (hv : ValidView v) :
    ValidView (ScrollDown v) ∧ (ScrollDown v).m_FileItems = v.m_FileItems := by
  obtain ⟨hne, hlen, hs0, hs1, hb0, hb1⟩ := hv
  have hitems := ScrollDown_items v
  have hsize : int32 (v.m_FileItems.length : Int) = v.m_FileItems.length :=
    int32_id _ (by omega) hlen
  have hsize1 : int32 ((v.m_FileItems.length : Int) - 1) = v.m_FileItems.length - 1 :=
    int32_id _ (by omega) (by omega)
  have hu := int32_bounds ((v.m_FileItems.length : Int) - int32 (int32 (v.h - 2) - 1))
  have hsel : 0 ≤ (ScrollDown v).sel ∧ (ScrollDown v).sel < v.m_FileItems.length := by
    rw [ScrollDown_sel, hsize, hsize1]
    split
    · rw [int32_id _ (by omega) (by omega)]
      omega
    · exact ⟨hs0, hs1⟩
  have hbeg : 0 ≤ (ScrollDown v).beg ∧ (ScrollDown v).beg < 2 ^ 31 := by
    rw [ScrollDown_beg, hsize]
    split
    · rw [int32_id _ (by omega) (by omega)]
      omega
    · exact ⟨hb0, hb1⟩
  refine ⟨?_, hitems⟩
  unfold ValidView
  rw [hitems]
  exact ⟨hne, hlen, hsel.1, hsel.2, hbeg.1, hbeg.2⟩

/-- The function `ScrollUp` keeps a valid view valid, and the list as it is. -/
theorem ScrollUp_valid (v : ExplorerView) (hv : ValidView v) :
    ValidView (ScrollUp v) ∧ (ScrollUp v).m_FileItems = v.m_FileItems := by
  obtain ⟨hne, hlen, hs0, hs1, hb0, hb1⟩ := hv
  have hitems := ScrollUp_items v
  have hsel : 0 ≤ (ScrollUp v).sel ∧ (ScrollUp v).sel < v.m_FileItems.length := by
    rw [ScrollUp_sel]
    split
    · rw [int32_id _ (by omega) (by omega)]
      omega
    · exact ⟨hs0, hs1⟩
  have hbeg : 0 ≤ (ScrollUp v).beg ∧ (ScrollUp v).beg < 2 ^ 31 := by
    rw [ScrollUp_beg]
    split
    · rw [int32_id _ (by omega) (by omega)]
      omega
    · exact ⟨hb0, hb1⟩
  refine ⟨?_, hitems⟩
  unfold ValidView
  rw [hitems]
  exact ⟨hne, hlen, hsel.1, hsel.2, hbeg.1, hbeg.2⟩

/-- Any number of `ScrollDown` steps keeps a valid view valid. -/
theorem ScrollDown_iterate_valid (n : Nat) (v : ExplorerView) (hv : ValidView v) :
    ValidView (Nat.iterate ScrollDown n v) ∧
      (Nat.iterate ScrollDown n v).m_FileItems = v.m_FileItems := by
  induction n generalizing v with
  | zero =>
    rw [Function.iterate_zero_apply]
    exact ⟨hv, rfl⟩
  | succ n ih =>
    have h1 := ScrollDown_valid v hv
    have h2 := ih (ScrollDown v) h1.1
    rw [Function.iterate_succ_apply]
    exact ⟨h2.1, h2.2.trans h1.2⟩

/-- Any number of `ScrollUp` steps keeps a valid view valid. -/
theorem ScrollUp_iterate_valid (n : Nat) (v : ExplorerView) (hv : ValidView v) :
    ValidView (Nat.iterate ScrollUp n v) ∧
      (Nat.iterate ScrollUp n v).m_FileItems = v.m_FileItems := by
  induction n generalizing v with
  | zero =>
    rw [Function.iterate_zero_apply]
    exact ⟨hv, rfl⟩
  | succ n ih =>
    have h1 := ScrollUp_valid v hv
    have h2 := ih (ScrollUp v) h1.1
    rw [Function.iterate_succ_apply]
    exact ⟨h2.1, h2.2.trans h1.2⟩

/-- Every scroll key keeps a valid view valid, and the list as it is. -/
theorem InjectKey_keeps (key : Key) (v : ExplorerView) (hv : ValidView v) :
    ValidView (InjectKey key v) ∧ (InjectKey key v).m_FileItems = v.m_FileItems := by
  have hne := hv.1
  cases key with
  | KEY_DOWN =>
    simp only [InjectKey, hne, if_false]
    exact ScrollDown_valid v hv
  | KEY_UP =>
    simp only [InjectKey, hne, if_false]
    exact ScrollUp_valid v hv
  | KEY_NPAGE =>
    simp only [InjectKey, hne, if_false]
    exact ScrollDown_iterate_valid _ v hv
  | KEY_PPAGE =>
    simp only [InjectKey, hne, if_false]
    exact ScrollUp_iterate_valid _ v hv
  | KEY_HOME =>
    obtain ⟨_, hlen, hs0, hs1, hb0, hb1⟩ := hv
    simp only [InjectKey, hne, if_false]
    refine ⟨⟨hne, hlen, Int.le_refl 0, ?_, Int.le_refl 0, by norm_num⟩, trivial⟩
    show (0 : Int) < v.m_FileItems.length
    omega
  | KEY_END =>
    obtain ⟨_, hlen, hs0, hs1, hb0, hb1⟩ := hv
    simp only [InjectKey, hne, if_false]
    have hpos : (0 : Int) < v.m_FileItems.length := by omega
    have hu := int32_bounds (int32 (v.m_FileItems.length : Int) - int32 (v.h - 3))
    refine ⟨⟨hne, hlen, ?_, ?_, ?_, ?_⟩, trivial⟩
    · show 0 ≤ int32 ((v.m_FileItems.length : Int) - 1)
      rw [int32_id _ (by omega) (by omega)]
      omega
    · show int32 ((v.m_FileItems.length : Int) - 1) < v.m_FileItems.length
      rw [int32_id _ (by omega) (by omega)]
      omega
    · exact le_max_right _ _
    · exact max_lt hu.2 (by norm_num)

/-- C25: for a non-empty file list (of fewer than `2 ^ 31` items) whose
selection is an index of the list and whose first visible index is not
negative, and for any window height `h`, the handling of every scroll key
(down, up, page down, page up, Home, End) leaves the list as it is, the
selection within `[0, size - 1]` and the first visible index at least 0, so
that `m_FileItems[selection]` is an item of the list; `ScrollDown` at the last
item and `ScrollUp` at the first item leave the selection unchanged. -/
theorem InjectKey_selection (key : Key) (v : ExplorerView) (hv : ValidView v) :
    (InjectKey key v).m_FileItems = v.m_FileItems ∧
    0 ≤ (InjectKey key v).sel ∧
    (InjectKey key v).sel ≤ (v.m_FileItems.length : Int) - 1 ∧
    0 ≤ (InjectKey key v).beg ∧
    ((InjectKey key v).m_FileItems[(InjectKey key v).sel.toNat]?).isSome = true ∧
    (v.sel = (v.m_FileItems.length : Int) - 1 → (ScrollDown v).sel = v.sel) ∧
    (v.sel = 0 → (ScrollUp v).sel = v.sel) := by
  obtain ⟨⟨hne, hlen, hs0, hs1, hb0, hb1⟩, hitems⟩ := InjectKey_keeps key v hv
  rw [hitems] at hs1
  refine ⟨hitems, hs0, by omega, hb0, ?_, ?_, ?_⟩
  · rw [hitems]
    have hlt : (InjectKey key v).sel.toNat < v.m_FileItems.length := by omega
    simp [List.getElem?_eq_getElem hlt]
  · intro hlast
    have hsize1 : int32 (int32 (v.m_FileItems.length : Int) - 1) = v.m_FileItems.length - 1 := by
      rw [int32_id (v.m_FileItems.length : Int) (by omega) hv.2.1]
      exact int32_id _ (by omega) (by have := hv.2.1; omega)
    rw [ScrollDown_sel, hsize1, hlast]
    simp
  · intro hfirst
    rw [ScrollUp_sel, hfirst]
    simp

/-- Witness of C25: the End key on three files in a window of height 4 selects
the last file, and `ScrollDown` then stays there. -/
theorem InjectKey_selection_witness :
    ValidView demoView ∧
    0 ≤ (InjectKey Key.KEY_END demoView).sel ∧
    (InjectKey Key.KEY_END demoView).sel ≤ 2 ∧
    ((InjectKey Key.KEY_END demoView).m_FileItems[
      (InjectKey Key.KEY_END demoView).sel.toNat]?).isSome = true :=
  ⟨by decide,
   (InjectKey_selection Key.KEY_END demoView (by decide)).2.1,
   (InjectKey_selection Key.KEY_END demoView (by decide)).2.2.1,
   (InjectKey_selection Key.KEY_END demoView (by decide)).2.2.2.2.1⟩

/-- Runs of the scroll keys on three files in a window of height 4: End selects
the last file and `ScrollDown` then stays there; Home selects the first file
and `ScrollUp` then stays there. -/
theorem InjectKey_example :
    (InjectKey Key.KEY_END demoView).sel = 2 ∧
    (InjectKey Key.KEY_END demoView).beg = 2 ∧
    (ScrollDown (InjectKey Key.KEY_END demoView)).sel = 2 ∧
    (InjectKey Key.KEY_DOWN demoView).sel = 1 ∧
    (InjectKey Key.KEY_HOME demoView).sel = 0 ∧
    (ScrollUp (InjectKey Key.KEY_HOME demoView)).sel = 0 := by
  simp [InjectKey, ScrollDown, ScrollUp, demoView, int32]

/-! ## Rounding to binary64 -/

theorem roundHalfEven_intCast (n : ℤ) : roundHalfEven (n : ℚ) = n := by
  simp [roundHalfEven]

theorem floor_le_roundHalfEven (x : ℚ) : ⌊x⌋ ≤ roundHalfEven x := by
  unfold roundHalfEven
  split_ifs <;> omega

theorem roundHalfEven_le_floor_add_one (x : ℚ) : roundHalfEven x ≤ ⌊x⌋ + 1 := by
  unfold roundHalfEven
  split_ifs <;> omega

theorem roundHalfEven_mono {x y : ℚ} (h : x ≤ y) : roundHalfEven x ≤ roundHalfEven y := by
  have hf : ⌊x⌋ ≤ ⌊y⌋ := Int.floor_mono h
  rcases lt_or_eq_of_le hf with hlt | heq
  · calc roundHalfEven x ≤ ⌊x⌋ + 1 := roundHalfEven_le_floor_add_one x
      _ ≤ ⌊y⌋ := hlt
      _ ≤ roundHalfEven y := floor_le_roundHalfEven y
  · unfold roundHalfEven
    rw [← heq]
    split_ifs <;> first | omega | (exfalso; linarith)

theorem le_roundHalfEven {x : ℚ} {n : ℤ} (h : (n : ℚ) ≤ x) : n ≤ roundHalfEven x := by
  have := roundHalfEven_mono h
  rwa [roundHalfEven_intCast] at this

theorem roundHalfEven_le {x : ℚ} {n : ℤ} (h : x ≤ (n : ℚ)) : roundHalfEven x ≤ n := by
  have := roundHalfEven_mono h
  rwa [roundHalfEven_intCast] at this

theorem log2_eq {x : ℚ} {e : ℤ} (h1 : (2 : ℚ) ^ e ≤ x) (h2 : x < (2 : ℚ) ^ (e + 1)) :
    Int.log 2 x = e := by
  have hx : 0 < x := lt_of_lt_of_le (zpow_pos (by norm_num) e) h1
  have ha : e ≤ Int.log 2 x := by
    rw [← Int.zpow_le_iff_le_log (by norm_num) hx]
    simpa using h1
  have hb : Int.log 2 x < e + 1 := by
    rw [← Int.lt_zpow_iff_log_lt (by norm_num) hx]
    simpa using h2
  omega

theorem zpow_log2_le {x : ℚ} (hx : 0 < x) : (2 : ℚ) ^ Int.log 2 x ≤ x := by
  simpa using Int.zpow_log_le_self (b := 2) (by norm_num) hx

theorem lt_zpow_log2_succ (x : ℚ) : x < (2 : ℚ) ^ (Int.log 2 x + 1) := by
  simpa using Int.lt_zpow_succ_log_self (b := 2) (by norm_num) x

/-- The scaled value of a positive `x` lies in the binade of `2 ^ 52`. -/
theorem scaled_bounds {x : ℚ} (hx : 0 < x) :
    (2 : ℚ) ^ (52 : ℤ) ≤ x * 2 ^ (52 - Int.log 2 x) ∧
      x * 2 ^ (52 - Int.log 2 x) < (2 : ℚ) ^ (53 : ℤ) := by
  have hp : (0 : ℚ) < 2 ^ (52 - Int.log 2 x) := zpow_pos (by norm_num) _
  have h1 := zpow_log2_le hx
  have h2 := lt_zpow_log2_succ x
  constructor
  · have : (2 : ℚ) ^ (52 : ℤ) = 2 ^ Int.log 2 x * 2 ^ (52 - Int.log 2 x) := by
      rw [← zpow_add₀ (by norm_num : (2 : ℚ) ≠ 0)]
      congr 1
      omega
    rw [this]
    exact mul_le_mul_of_nonneg_right h1 hp.le
  · have : (2 : ℚ) ^ (53 : ℤ) = 2 ^ (Int.log 2 x + 1) * 2 ^ (52 - Int.log 2 x) := by
      rw [← zpow_add₀ (by norm_num : (2 : ℚ) ≠ 0)]
      congr 1
      omega
    rw [this]
    exact mul_lt_mul_of_pos_right h2 hp

/-- A positive `x` rounds to a significand of 53 bits at the exponent of `x`. -/
theorem binary64_repr {x : ℚ} (hx : 0 < x) :
    ∃ M : ℕ, 2 ^ 52 ≤ M ∧ M ≤ 2 ^ 53 ∧
      roundHalfEven (x * 2 ^ (52 - Int.log 2 x)) = (M : ℤ) ∧
      binary64 x = (M : ℚ) * 2 ^ (Int.log 2 x - 52) := by
  obtain ⟨h1, h2⟩ := scaled_bounds hx
  have hlo : (2 ^ 52 : ℤ) ≤ roundHalfEven (x * 2 ^ (52 - Int.log 2 x)) := by
    apply le_roundHalfEven
    have : ((2 ^ 52 : ℤ) : ℚ) = (2 : ℚ) ^ (52 : ℤ) := by norm_num
    rw [this]
    exact h1
  have hhi : roundHalfEven (x * 2 ^ (52 - Int.log 2 x)) ≤ (2 ^ 53 : ℤ) := by
    apply roundHalfEven_le
    have : ((2 ^ 53 : ℤ) : ℚ) = (2 : ℚ) ^ (53 : ℤ) := by norm_num
    rw [this]
    exact h2.le
  refine ⟨(roundHalfEven (x * 2 ^ (52 - Int.log 2 x))).toNat, ?_, ?_, ?_, ?_⟩
  · omega
  · omega
  · omega
  · have hM : (((roundHalfEven (x * 2 ^ (52 - Int.log 2 x))).toNat : ℕ) : ℚ) =
        ((roundHalfEven (x * 2 ^ (52 - Int.log 2 x)) : ℤ) : ℚ) := by
      have : (((roundHalfEven (x * 2 ^ (52 - Int.log 2 x))).toNat : ℕ) : ℤ) =
          roundHalfEven (x * 2 ^ (52 - Int.log 2 x)) := by omega
      exact_mod_cast this
    rw [hM]
    unfold binary64
    rw [if_neg hx.ne', abs_of_pos hx]

/-- A number with a significand of at most 53 bits is a binary64 value. -/
theorem binary64_dyadic (m : ℕ) (k : ℤ) (hm : m ≤ 2 ^ 53) :
    binary64 ((m : ℚ) * 2 ^ k) = (m : ℚ) * 2 ^ k := by
  rcases Nat.eq_zero_or_pos m with rfl | hpos
  · simp [binary64]
  have h2 : (2 : ℚ) ≠ 0 := by norm_num
  have hk : (0 : ℚ) < 2 ^ k := zpow_pos (by norm_num) k
  have hx : (0 : ℚ) < (m : ℚ) * 2 ^ k := mul_pos (by exact_mod_cast hpos) hk
  have hle := zpow_log2_le hx
  have hmq : (m : ℚ) ≤ 2 ^ (53 : ℤ) := by
    have : ((2 ^ 53 : ℕ) : ℚ) = (2 : ℚ) ^ (53 : ℤ) := by norm_num
    rw [← this]
    exact_mod_cast hm
  unfold binary64
  rw [if_neg hx.ne', abs_of_pos hx]
  by_cases he : Int.log 2 ((m : ℚ) * 2 ^ k) ≤ k + 52
  · -- the scaled value is a natural number
    obtain ⟨d, hd⟩ : ∃ d : ℕ, (d : ℤ) = k + 52 - Int.log 2 ((m : ℚ) * 2 ^ k) :=
      ⟨(k + 52 - Int.log 2 ((m : ℚ) * 2 ^ k)).toNat, by omega⟩
    have hs : (m : ℚ) * 2 ^ k * 2 ^ (52 - Int.log 2 ((m : ℚ) * 2 ^ k)) =
        (((m * 2 ^ d : ℕ) : ℤ) : ℚ) := by
      rw [mul_assoc, ← zpow_add₀ h2]
      have : k + (52 - Int.log 2 ((m : ℚ) * 2 ^ k)) = (d : ℤ) := by omega
      rw [this, zpow_natCast]
      push_cast
      ring
    rw [hs, roundHalfEven_intCast]
    push_cast
    rw [mul_assoc, ← zpow_natCast, ← zpow_add₀ h2]
    congr 2
    omega
  · -- the value is the power of two above the significands of 53 bits
    have he2 : k + 53 ≤ Int.log 2 ((m : ℚ) * 2 ^ k) := by omega
    have hup : (m : ℚ) * 2 ^ k ≤ 2 ^ (k + 53) := by
      rw [zpow_add₀ h2, mul_comm ((2 : ℚ) ^ k)]
      exact mul_le_mul_of_nonneg_right hmq hk.le
    have hlow : (2 : ℚ) ^ (k + 53) ≤ 2 ^ Int.log 2 ((m : ℚ) * 2 ^ k) :=
      zpow_le_zpow_right₀ (by norm_num) he2
    have hxe : (m : ℚ) * 2 ^ k = 2 ^ (k + 53) := le_antisymm hup (hlow.trans hle)
    have hlog : Int.log 2 ((m : ℚ) * 2 ^ k) = k + 53 := by
      rw [hxe]
      simpa using Int.log_zpow (R := ℚ) (b := 2) (by norm_num) (k + 53)
    rw [hlog, hxe, ← zpow_add₀ h2]
    have : k + 53 + (52 - (k + 53)) = 52 := by omega
    rw [this]
    have h52 : (2 : ℚ) ^ (52 : ℤ) = (((2 ^ 52 : ℤ)) : ℚ) := by norm_num
    rw [h52, roundHalfEven_intCast, ← h52, ← zpow_add₀ h2]
    congr 1
    omega

/-- A natural number below `2 ^ 53` is a binary64 value. -/
theorem binary64_natCast (n : ℕ) (h : n ≤ 2 ^ 53) : binary64 (n : ℚ) = n := by
  have := binary64_dyadic n 0 h
  simpa using this

theorem binary64_zero : binary64 0 = 0 := by
  simp [binary64]

theorem binary64_nonneg {x : ℚ} (hx : 0 ≤ x) : 0 ≤ binary64 x := by
  rcases eq_or_lt_of_le hx with rfl | hpos
  · rw [binary64_zero]
  · obtain ⟨M, _, _, _, hM⟩ := binary64_repr hpos
    rw [hM]
    exact mul_nonneg (Nat.cast_nonneg M) (zpow_pos (by norm_num) _).le

/-- Rounding a binary64 value again changes nothing. -/
theorem binary64_idem {x : ℚ} (hx : 0 ≤ x) : binary64 (binary64 x) = binary64 x := by
  rcases eq_or_lt_of_le hx with rfl | hpos
  · rw [binary64_zero, binary64_zero]
  · obtain ⟨M, _, hM2, _, hM⟩ := binary64_repr hpos
    rw [hM]
    exact binary64_dyadic M _ hM2

/-- Rounding to binary64 is monotone on the numbers that are not negative. -/
theorem binary64_mono {x y : ℚ} (hx : 0 ≤ x) (h : x ≤ y) : binary64 x ≤ binary64 y := by
  rcases eq_or_lt_of_le hx with rfl | hpos
  · rw [binary64_zero]
    exact binary64_nonneg h
  have hy : 0 < y := lt_of_lt_of_le hpos h
  have h2 : (2 : ℚ) ≠ 0 := by norm_num
  obtain ⟨M, _, hM2, hMr, hM⟩ := binary64_repr hpos
  obtain ⟨N, hN1, _, hNr, hN⟩ := binary64_repr hy
  have hlog : Int.log 2 x ≤ Int.log 2 y := Int.log_mono_right hpos h
  rw [hM, hN]
  rcases lt_or_eq_of_le hlog with hlt | heq
  · calc (M : ℚ) * 2 ^ (Int.log 2 x - 52)
        ≤ 2 ^ (53 : ℤ) * 2 ^ (Int.log 2 x - 52) := by
          apply mul_le_mul_of_nonneg_right _ (zpow_pos (by norm_num) _).le
          have : ((2 ^ 53 : ℕ) : ℚ) = (2 : ℚ) ^ (53 : ℤ) := by norm_num
          rw [← this]
          exact_mod_cast hM2
      _ = 2 ^ (Int.log 2 x + 1) := by
          rw [← zpow_add₀ h2]
          congr 1
          omega
      _ ≤ 2 ^ Int.log 2 y := zpow_le_zpow_right₀ (by norm_num) (by omega)
      _ = 2 ^ (52 : ℤ) * 2 ^ (Int.log 2 y - 52) := by
          rw [← zpow_add₀ h2]
          congr 1
          omega
      _ ≤ (N : ℚ) * 2 ^ (Int.log 2 y - 52) := by
          apply mul_le_mul_of_nonneg_right _ (zpow_pos (by norm_num) _).le
          have : ((2 ^ 52 : ℕ) : ℚ) = (2 : ℚ) ^ (52 : ℤ) := by norm_num
          rw [← this]
          exact_mod_cast hN1
  · have hs : x * 2 ^ (52 - Int.log 2 x) ≤ y * 2 ^ (52 - Int.log 2 y) := by
      rw [heq]
      exact mul_le_mul_of_nonneg_right h (zpow_pos (by norm_num) _).le
    have hr := roundHalfEven_mono hs
    rw [hMr, hNr] at hr
    rw [heq]
    apply mul_le_mul_of_nonneg_right _ (zpow_pos (by norm_num) _).le
    exact_mod_cast hr

/-! ## Conversions between `uint64_t` and `double` -/

theorem roundHalfEven_eq {x : ℚ} {n : ℤ} (h1 : (n : ℚ) - 1 / 2 < x) (h2 : x < (n : ℚ) + 1 / 2) :
    roundHalfEven x = n := by
  have hf1 : n - 1 ≤ ⌊x⌋ := by
    apply Int.le_floor.mpr
    push_cast
    linarith
  have hf2 : ⌊x⌋ < n + 1 := by
    apply Int.floor_lt.mpr
    push_cast
    linarith
  have hfl : (⌊x⌋ : ℚ) ≤ x := Int.floor_le x
  have hfu : x < (⌊x⌋ : ℚ) + 1 := Int.lt_floor_add_one x
  rcases (by omega : ⌊x⌋ = n - 1 ∨ ⌊x⌋ = n) with h | h
  · unfold roundHalfEven
    rw [h]
    have hc1 : ¬ (2 * (x - ((n - 1 : ℤ) : ℚ)) < 1) := by
      push_cast
      intro hc
      linarith
    have hc2 : 1 < 2 * (x - ((n - 1 : ℤ) : ℚ)) := by
      push_cast
      linarith
    rw [if_neg hc1, if_pos hc2]
    omega
  · unfold roundHalfEven
    rw [h]
    have hc1 : 2 * (x - (n : ℚ)) < 1 := by linarith
    rw [if_pos hc1]

theorem roundHalfEven_half_even (n : ℤ) (h : n % 2 = 0) :
    roundHalfEven ((n : ℚ) + 1 / 2) = n := by
  have hf : ⌊(n : ℚ) + 1 / 2⌋ = n := by
    rw [Int.floor_eq_iff]
    constructor <;> linarith
  unfold roundHalfEven
  rw [hf]
  have hc1 : ¬ (2 * ((n : ℚ) + 1 / 2 - (n : ℚ)) < 1) := by
    intro hc
    linarith
  have hc2 : ¬ (1 < 2 * ((n : ℚ) + 1 / 2 - (n : ℚ))) := by
    intro hc
    linarith
  rw [if_neg hc1, if_neg hc2, if_pos h]

/-- The conversion `(double)(2 ^ 64 - 2)` gives `2 ^ 64`. -/
theorem binary64_two_pow_64_sub_two : binary64 (2 ^ 64 - 2) = 2 ^ 64 := by
  have hlog : Int.log 2 ((2 : ℚ) ^ 64 - 2) = 63 := by
    apply log2_eq <;> norm_num
  unfold binary64
  have hne : ((2 : ℚ) ^ 64 - 2) ≠ 0 := by norm_num
  have habs : |(2 : ℚ) ^ 64 - 2| = 2 ^ 64 - 2 := abs_of_pos (by norm_num)
  rw [if_neg hne, habs, hlog]
  have hr : roundHalfEven (((2 : ℚ) ^ 64 - 2) * 2 ^ ((52 : ℤ) - 63)) = 2 ^ 53 := by
    apply roundHalfEven_eq <;> norm_num
  rw [hr]
  norm_num

/-- The conversion `(double)(2 ^ 53 + 1)` gives `2 ^ 53`. -/
theorem binary64_two_pow_53_add_one : binary64 (2 ^ 53 + 1) = 2 ^ 53 := by
  have hlog : Int.log 2 ((2 : ℚ) ^ 53 + 1) = 53 := by
    apply log2_eq <;> norm_num
  unfold binary64
  have hne : ((2 : ℚ) ^ 53 + 1) ≠ 0 := by norm_num
  have habs : |(2 : ℚ) ^ 53 + 1| = 2 ^ 53 + 1 := abs_of_pos (by norm_num)
  rw [if_neg hne, habs, hlog]
  have hs : ((2 : ℚ) ^ 53 + 1) * 2 ^ ((52 : ℤ) - 53) = ((2 ^ 52 : ℤ) : ℚ) + 1 / 2 := by
    norm_num
  rw [hs, roundHalfEven_half_even _ (by norm_num)]
  norm_num

theorem binary64_two_pow (k : ℕ) : binary64 (2 ^ k) = 2 ^ k := by
  have := binary64_dyadic 1 k (by norm_num)
  simpa using this

theorem ofUInt64_exact (n : ℕ) (h : n ≤ 2 ^ 53) : Double.ofUInt64 n = Double.finite n := by
  unfold Double.ofUInt64
  rw [binary64_natCast n h]

/-! ## The double arithmetic on its operands -/

theorem Double.div_finite (a b : ℚ) (hb : b ≠ 0) :
    Double.div (Double.finite a) (Double.finite b) = Double.finite (binary64 (a / b)) := by
  simp [Double.div, hb]

theorem Double.div_zero (a : ℚ) (ha : 0 < a) :
    Double.div (Double.finite a) (Double.finite 0) = Double.inf false := by
  simp [Double.div, ha.ne', not_lt.mpr ha.le]

theorem Double.mul_finite (a b : ℚ) :
    Double.mul (Double.finite a) (Double.finite b) = Double.finite (binary64 (a * b)) := rfl

theorem Double.add_finite (a b : ℚ) :
    Double.add (Double.finite a) (Double.finite b) = Double.finite (binary64 (a + b)) := rfl

theorem Double.toUInt64_finite (q : ℚ) (h0 : 0 ≤ q) (h1 : q < 2 ^ 64) :
    (Double.finite q).toUInt64 = ⌊q⌋₊ := by
  simp [Double.toUInt64, not_lt.mpr h0, h1]

theorem Double.toUInt64_overflow (q : ℚ) (h : 2 ^ 64 ≤ q) : (Double.finite q).toUInt64 = 0 := by
  have h0 : ¬ q < 0 := not_lt.mpr (le_trans (by norm_num) h)
  simp [Double.toUInt64, h0, not_lt.mpr h]

theorem Double.toUInt64_natCast (n : ℕ) (h : n < 2 ^ 64) :
    (Double.finite (n : ℚ)).toUInt64 = n := by
  rw [Double.toUInt64_finite _ (Nat.cast_nonneg n) (by exact_mod_cast h), Nat.floor_natCast]

/-! ## The range of Play -/

/-- The units for `2 ^ 63` ms at one unit per ms: the product `2 ^ 63` is below
`2 ^ 64` and is converted as it is. -/
theorem doubleArith_scale_two_pow_63 : doubleArith.scale (1000, 1000) (2 ^ 63) = 2 ^ 63 := by
  have h1 : Double.ofUInt64 1000 = Double.finite 1000 := by
    simpa using ofUInt64_exact 1000 (by norm_num)
  have h2 : Double.ofUInt64 (2 ^ 63) = Double.finite (2 ^ 63) := by
    unfold Double.ofUInt64
    rw [Nat.cast_pow, Nat.cast_ofNat, binary64_two_pow]
  have h3 : binary64 1 = 1 := by simpa using binary64_two_pow 0
  show (Double.mul (Double.div (Double.ofUInt64 1000) (Double.ofUInt64 1000))
    (Double.ofUInt64 (2 ^ 63))).toUInt64 = 2 ^ 63
  rw [h1, h2, Double.div_finite _ _ (by norm_num), div_self (by norm_num), h3,
    Double.mul_finite, one_mul, binary64_two_pow]
  have := Double.toUInt64_natCast (2 ^ 63) (by norm_num)
  simpa using this

/-- The units for `2 ^ 64 - 2` ms at one unit per ms: `(double)(2 ^ 64 - 2)` is
`2 ^ 64`, the product is `2 ^ 64`, and its conversion gives 0. -/
theorem doubleArith_scale_two_pow_64_sub_two :
    doubleArith.scale (1000, 1000) (2 ^ 64 - 2) = 0 := by
  have h1 : Double.ofUInt64 1000 = Double.finite 1000 := by
    simpa using ofUInt64_exact 1000 (by norm_num)
  have h2 : Double.ofUInt64 (2 ^ 64 - 2) = Double.finite (2 ^ 64) := by
    unfold Double.ofUInt64
    have : (((2 ^ 64 - 2 : ℕ)) : ℚ) = 2 ^ 64 - 2 := by norm_num
    rw [this, binary64_two_pow_64_sub_two]
  have h3 : binary64 1 = 1 := by simpa using binary64_two_pow 0
  show (Double.mul (Double.div (Double.ofUInt64 1000) (Double.ofUInt64 1000))
    (Double.ofUInt64 (2 ^ 64 - 2))).toUInt64 = 0
  rw [h1, h2, Double.div_finite _ _ (by norm_num), div_self (by norm_num), h3,
    Double.mul_finite, one_mul, binary64_two_pow]
  exact Double.toUInt64_overflow _ (le_refl _)

/-- The units for 0 ms when the duration is 0: the quotient `1000 / 0` is
`+inf`, the product `+inf * 0` is a NaN, and its conversion gives `2 ^ 63`. -/
theorem doubleArith_scale_nan : doubleArith.scale (1000, 0) 0 = 2 ^ 63 := by
  have h1 : Double.ofUInt64 1000 = Double.finite 1000 := by
    simpa using ofUInt64_exact 1000 (by norm_num)
  have h0 : Double.ofUInt64 0 = Double.finite 0 := by
    simpa using ofUInt64_exact 0 (by norm_num)
  show (Double.mul (Double.div (Double.ofUInt64 1000) (Double.ofUInt64 0))
    (Double.ofUInt64 0)).toUInt64 = 2 ^ 63
  rw [h1, h0, Double.div_zero _ (by norm_num)]
  simp [Double.mul, Double.toUInt64]

/-- The units for 5 ms when the duration is 0: the product `+inf * 5` is
`+inf`, and its conversion gives 0. -/
theorem doubleArith_scale_inf : doubleArith.scale (1000, 0) 5 = 0 := by
  have h1 : Double.ofUInt64 1000 = Double.finite 1000 := by
    simpa using ofUInt64_exact 1000 (by norm_num)
  have h0 : Double.ofUInt64 0 = Double.finite 0 := by
    simpa using ofUInt64_exact 0 (by norm_num)
  have h5 : Double.ofUInt64 5 = Double.finite 5 := by
    simpa using ofUInt64_exact 5 (by norm_num)
  show (Double.mul (Double.div (Double.ofUInt64 1000) (Double.ofUInt64 0))
    (Double.ofUInt64 5)).toUInt64 = 0
  rw [h1, h0, h5, Double.div_zero _ (by norm_num)]
  simp [Double.mul, Double.toUInt64]

/-- The range that `Play(msBegin, msEnd)` sets, for a player with a decoder. -/
theorem Play2_units (env : Plugins) (fp : DoubleArith) (msBegin msEnd : Nat) (p : Player)
    (d : Obj) (hd : p.m_Decoder = some d) :
    (Play2 env fp msBegin msEnd p).map (fun q => (q.m_UnitBeg, q.m_UnitEnd)) =
      some (min (fp.scale p.m_UnitPerMs msBegin) (env.UnitCount p.calls d),
            if msEnd ≠ 2 ^ 64 - 1 then min (fp.scale p.m_UnitPerMs msEnd) (env.UnitCount p.calls d)
            else env.UnitCount p.calls d) := by
  have hmin : ∀ a b : Nat, (if a > b then b else a) = min a b := by
    intro a b
    by_cases h : a > b
    · simp [h, Nat.min_eq_right (Nat.le_of_lt h)]
    · simp [h, Nat.min_eq_left (Nat.le_of_not_gt h)]
  simp only [Play2, hd]
  rw [PlayRange_some _ _ p d hd]
  simp only [hmin, Option.map_some']

/-- C23, failing inputs: on the Stopped player of the examples, 1000 units in
1000 ms, `Play(2 ^ 63, 2 ^ 64 - 2)` sets the range to `m_UnitBeg = 1000` and
`m_UnitEnd = 0`, and with a decoder that reports a duration of 0 ms
`Play(0, 5)` does the same, though `msBegin ≤ msEnd` and `msEnd` is not the
all-ones value: the product `m_UnitPerMs * msEnd` is `2 ^ 64` or `+inf`, and
`m_UnitPerMs * 0` is a NaN, outside the range of `uint64_t` when they are
converted, before the cap at `UnitCount()`. -/
theorem Play_overflow :
    (2 : Nat) ^ 63 ≤ 2 ^ 64 - 2 ∧ (2 : Nat) ^ 64 - 2 ≠ 2 ^ 64 - 1 ∧
    demoStopped.m_Status = PlayerStatus.Stopped ∧
    demoStopped.m_UnitPerMs = (1000, 1000) ∧
    (Play2 demoPlugins doubleArith (2 ^ 63) (2 ^ 64 - 2) demoStopped).map
        (fun q => (q.m_UnitBeg, q.m_UnitEnd)) = some (1000, 0) ∧
    demoNoDuration.m_Status = PlayerStatus.Stopped ∧
    demoNoDuration.m_UnitPerMs = (1000, 0) ∧
    (Play2 demoPluginsNoDuration doubleArith 0 5 demoNoDuration).map
        (fun q => (q.m_UnitBeg, q.m_UnitEnd)) = some (1000, 0) := by
  have hu1 : demoStopped.m_UnitPerMs = (1000, 1000) := by decide
  have hu2 : demoNoDuration.m_UnitPerMs = (1000, 0) := by decide
  refine ⟨by decide, by decide, by decide, hu1, ?_, by decide, hu2, ?_⟩
  · rw [Play2_units demoPlugins doubleArith _ _ demoStopped 0 (by decide), hu1,
      doubleArith_scale_two_pow_63, doubleArith_scale_two_pow_64_sub_two]
    decide
  · rw [Play2_units demoPluginsNoDuration doubleArith _ _ demoNoDuration 0 (by decide), hu2,
      doubleArith_scale_nan, doubleArith_scale_inf]
    decide

theorem binary64_pos {x : ℚ} (hx : 0 < x) : 0 < binary64 x := by
  obtain ⟨M, hM1, _, _, hM⟩ := binary64_repr hx
  rw [hM]
  have : (0 : ℚ) < (M : ℚ) := by
    have : 0 < M := lt_of_lt_of_le (by norm_num) hM1
    exact_mod_cast this
  exact mul_pos this (zpow_pos (by norm_num) _)

/-- The units for `ms` when the duration is not 0: the product is finite. -/
theorem doubleArith_scale_eq (c d ms : ℕ) (hd : d ≠ 0) :
    doubleArith.scale (c, d) ms =
      (Double.finite (binary64 (binary64 (binary64 c / binary64 d) * binary64 ms))).toUInt64 := by
  have hdq : binary64 (d : ℚ) ≠ 0 :=
    (binary64_pos (by exact_mod_cast Nat.pos_of_ne_zero hd)).ne'
  show (Double.mul (Double.div (Double.ofUInt64 c) (Double.ofUInt64 d))
    (Double.ofUInt64 ms)).toUInt64 = _
  unfold Double.ofUInt64
  rw [Double.div_finite _ _ hdq, Double.mul_finite]

/-- The units for `ms` are monotone in `ms` as long as the product is below
`2 ^ 64` and the duration is not 0. -/
theorem doubleArith_scale_le (c d a b : ℕ) (hd : d ≠ 0) (hab : a ≤ b)
    (hb : binary64 (binary64 (binary64 c / binary64 d) * binary64 b) < 2 ^ 64) :
    doubleArith.scale (c, d) a ≤ doubleArith.scale (c, d) b := by
  have hu : 0 ≤ binary64 (binary64 (c : ℚ) / binary64 (d : ℚ)) :=
    binary64_nonneg (div_nonneg (binary64_nonneg (Nat.cast_nonneg c))
      (binary64_nonneg (Nat.cast_nonneg d)))
  have hms : binary64 (a : ℚ) ≤ binary64 (b : ℚ) :=
    binary64_mono (Nat.cast_nonneg a) (by exact_mod_cast hab)
  have hpa : 0 ≤ binary64 (binary64 (c : ℚ) / binary64 (d : ℚ)) * binary64 (a : ℚ) :=
    mul_nonneg hu (binary64_nonneg (Nat.cast_nonneg a))
  have hle : binary64 (binary64 (binary64 (c : ℚ) / binary64 (d : ℚ)) * binary64 (a : ℚ)) ≤
      binary64 (binary64 (binary64 (c : ℚ) / binary64 (d : ℚ)) * binary64 (b : ℚ)) :=
    binary64_mono hpa (mul_le_mul_of_nonneg_left hms hu)
  rw [doubleArith_scale_eq c d a hd, doubleArith_scale_eq c d b hd,
    Double.toUInt64_finite _ (binary64_nonneg hpa) (lt_of_le_of_lt hle hb),
    Double.toUInt64_finite _ (le_trans (binary64_nonneg hpa) hle) hb]
  exact Nat.floor_mono hle

/-- The range of `Play(msBegin, msEnd)` is well formed for `msBegin ≤ msEnd` as
long as the duration is not 0 and the product for `msEnd` is below `2 ^ 64`. -/
theorem Play_in_range (env : Plugins) (msBegin msEnd : Nat) (p : Player) (d : Obj)
    (hd : p.m_Decoder = some d) (hdur : p.m_UnitPerMs.2 ≠ 0) (hle : msBegin ≤ msEnd)
    (hin : binary64 (binary64 (binary64 p.m_UnitPerMs.1 / binary64 p.m_UnitPerMs.2) *
      binary64 msEnd) < 2 ^ 64) :
    (Play2 env doubleArith msBegin msEnd p).map (fun q => decide (q.m_UnitBeg ≤ q.m_UnitEnd)) =
      some true := by
  have hs := doubleArith_scale_le p.m_UnitPerMs.1 p.m_UnitPerMs.2 msBegin msEnd hdur hle hin
  have hq := Play2_units env doubleArith msBegin msEnd p d hd
  cases hr : Play2 env doubleArith msBegin msEnd p with
  | none => rw [hr] at hq; simp at hq
  | some q =>
    rw [hr] at hq
    simp only [Option.map_some', Option.some.injEq, Prod.mk.injEq] at hq
    simp only [Option.map_some', Option.some.injEq, decide_eq_true_eq]
    rw [hq.1, hq.2]
    split
    · exact min_le_min_right _ hs
    · exact Nat.min_le_right _ _

/-- The range of `Play(250, 750)` on the Stopped player of the examples. -/
theorem Play_in_range_example :
    (Play2 demoPlugins doubleArith 250 750 demoStopped).map
      (fun q => decide (q.m_UnitBeg ≤ q.m_UnitEnd)) = some true := by
  have h3 : binary64 1 = 1 := by simpa using binary64_two_pow 0
  have h1000 : binary64 (1000 : ℚ) = 1000 := by
    simpa using binary64_natCast 1000 (by norm_num)
  have h750 : binary64 (750 : ℚ) = 750 := by
    simpa using binary64_natCast 750 (by norm_num)
  apply Play_in_range demoPlugins 250 750 demoStopped 0 (by decide) (by decide) (by decide)
  have hu : demoStopped.m_UnitPerMs = (1000, 1000) := by decide
  rw [hu]
  simp only [Nat.cast_ofNat]
  rw [h1000, div_self (by norm_num), h3, h750, one_mul, h750]
  norm_num

/-! ## SeekPercent at the ends of the range -/

/-- The value `(uint64_t)(index / m_UnitPerMs)` depends on the index through
`(double)index`. -/
theorem doubleArith_unscale_congr (upm : Nat × Nat) (i j : Nat)
    (h : binary64 (i : ℚ) = binary64 (j : ℚ)) :
    doubleArith.unscale upm i = doubleArith.unscale upm j := by
  show (Double.div (Double.ofUInt64 i) _).toUInt64 = (Double.div (Double.ofUInt64 j) _).toUInt64
  unfold Double.ofUInt64
  rw [h]

/-- The unit of `SeekPercent(0.0)`: `(double)beg`, converted back. -/
theorem doubleArith_lerp_zero (beg span : Nat) :
    doubleArith.lerp beg span (Double.finite 0) = (Double.finite (binary64 beg)).toUInt64 := by
  show (Double.add (Double.ofUInt64 beg)
    (Double.mul (Double.ofUInt64 span) (Double.finite 0))).toUInt64 = _
  unfold Double.ofUInt64
  rw [Double.mul_finite, mul_zero, binary64_zero, Double.add_finite, add_zero,
    binary64_idem (Nat.cast_nonneg beg)]

/-- The unit of `SeekPercent(1.0)` is the end of the range when that is at most
`2 ^ 53`. -/
theorem doubleArith_lerp_one (beg span : Nat) (h : beg + span ≤ 2 ^ 53) :
    doubleArith.lerp beg span (Double.finite 1) = beg + span := by
  show (Double.add (Double.ofUInt64 beg)
    (Double.mul (Double.ofUInt64 span) (Double.finite 1))).toUInt64 = _
  unfold Double.ofUInt64
  rw [binary64_natCast beg (by omega), binary64_natCast span (by omega), Double.mul_finite,
    mul_one, binary64_natCast span (by omega), Double.add_finite, ← Nat.cast_add,
    binary64_natCast (beg + span) h]
  exact Double.toUInt64_natCast _ (by omega)

/-- The conversion to `uint64_t` of a value that is not negative does not
exceed the value. -/
theorem Double.toUInt64_le (r : ℚ) (hr : 0 ≤ r) : ((Double.finite r).toUInt64 : ℚ) ≤ r := by
  by_cases h : r < 2 ^ 64
  · rw [Double.toUInt64_finite r hr h]
    exact Nat.floor_le hr
  · rw [Double.toUInt64_overflow r (not_lt.mp h)]
    simpa using hr

/-- The unit of `SeekPercent(0.0)`, clamped to the range, converts to the same
double as the begin of the range. -/
theorem binary64_clamp_lerp_zero (beg end_ span : Nat) (hle : beg ≤ end_) :
    binary64 (((if doubleArith.lerp beg span (Double.finite 0) < beg then beg
      else if doubleArith.lerp beg span (Double.finite 0) > end_ then end_
      else doubleArith.lerp beg span (Double.finite 0) : Nat)) : ℚ) = binary64 (beg : ℚ) := by
  have hu := Double.toUInt64_le (binary64 beg) (binary64_nonneg (Nat.cast_nonneg beg))
  rw [← doubleArith_lerp_zero beg span] at hu
  have hb0 : (0 : ℚ) ≤ (beg : ℚ) := Nat.cast_nonneg beg
  split
  · rfl
  · rename_i h1
    split
    · rename_i h2
      apply le_antisymm
      · have h3 : (end_ : ℚ) ≤ binary64 beg :=
          le_trans (by exact_mod_cast Nat.le_of_lt h2) hu
        have := binary64_mono (Nat.cast_nonneg end_) h3
        rwa [binary64_idem hb0] at this
      · exact binary64_mono hb0 (by exact_mod_cast hle)
    · apply le_antisymm
      · have := binary64_mono (Nat.cast_nonneg _) hu
        rwa [binary64_idem hb0] at this
      · exact binary64_mono hb0 (by exact_mod_cast Nat.le_of_not_lt h1)

/-- C18, as stated, fails: on the Paused player with the range 0 to
`2 ^ 53 + 1`, `SeekPercent(1.0)` leaves `m_RendererIndex` at `2 ^ 53`, one
unit before `m_UnitEnd`: the length `2 ^ 53 + 1` of the range is converted to
the double `2 ^ 53`. -/
theorem SeekPercent_one_counterexample :
    demoLongPaused.m_Status = PlayerStatus.Paused ∧
    demoLongPaused.m_UnitBeg ≤ demoLongPaused.m_UnitEnd ∧
    (SeekPercent doubleArith (Double.finite 1) demoLongPaused).map
        (fun q => (q.m_UnitEnd, q.m_RendererIndex)) = some (2 ^ 53 + 1, 2 ^ 53) ∧
    (SeekPercent doubleArith (Double.finite 1) demoLongPaused).map
        (fun q => decide (q.m_RendererIndex = q.m_UnitEnd)) = some false := by
  have hs : demoLongPaused.m_Status = PlayerStatus.Paused := by decide
  have hd : demoLongPaused.m_Decoder = some 0 := by decide
  have hb : demoLongPaused.m_UnitBeg = 0 := by decide
  have he : demoLongPaused.m_UnitEnd = 2 ^ 53 + 1 := by decide
  have hl : doubleArith.lerp 0 (2 ^ 53 + 1) (Double.finite 1) = 2 ^ 53 := by
    show (Double.add (Double.ofUInt64 0)
      (Double.mul (Double.ofUInt64 (2 ^ 53 + 1)) (Double.finite 1))).toUInt64 = _
    have h1 : Double.ofUInt64 (2 ^ 53 + 1) = Double.finite (2 ^ 53) := by
      unfold Double.ofUInt64
      rw [Nat.cast_add, Nat.cast_pow, Nat.cast_ofNat, Nat.cast_one, binary64_two_pow_53_add_one]
    have h0 : Double.ofUInt64 0 = Double.finite 0 := by
      simpa using ofUInt64_exact 0 (by norm_num)
    rw [h1, h0, Double.mul_finite, mul_one, binary64_two_pow, Double.add_finite, zero_add,
      binary64_two_pow]
    have := Double.toUInt64_natCast (2 ^ 53) (by norm_num)
    simpa using this
  have hseek : SeekPercent doubleArith (Double.finite 1) demoLongPaused =
      DoSeekUnit (2 ^ 53) demoLongPaused := by
    simp only [SeekPercent, hs, hb, he]
    have : (2 ^ 53 + 1 + 2 ^ 64 - 0) % 2 ^ 64 = 2 ^ 53 + 1 := by norm_num
    rw [this, hl]
  rw [hseek, DoSeekUnit_some _ _ 0 hd]
  refine ⟨hs, by rw [hb]; exact Nat.zero_le _, ?_, ?_⟩
  · simp only [Option.map_some', hb, he]
    decide
  · simp only [Option.map_some', hb, he]
    decide

/-- C18, amended: on a Paused or Stopped player with a decoder and
`m_UnitBeg ≤ m_UnitEnd`, `SeekPercent(0.0)` returns, leaves `m_RendererIndex`
in the range, and `CurrentMs()` then equals `RangeBegin()`; and when
`m_UnitEnd` is at most `2 ^ 53`, `SeekPercent(1.0)` returns with
`m_RendererIndex` equal to `m_UnitEnd`, so that `CurrentMs()` equals
`RangeEnd()`. -/
theorem SeekPercent_ends (p : Player) (d : Obj) (hd : p.m_Decoder = some d)
    (hs : p.m_Status = PlayerStatus.Paused ∨ p.m_Status = PlayerStatus.Stopped)
    (hle : p.m_UnitBeg ≤ p.m_UnitEnd) :
    (∃ q, SeekPercent doubleArith (Double.finite 0) p = some q ∧
      p.m_UnitBeg ≤ q.m_RendererIndex ∧ q.m_RendererIndex ≤ p.m_UnitEnd ∧
      CurrentMs doubleArith q = RangeBegin doubleArith q) ∧
    (p.m_UnitEnd ≤ 2 ^ 53 →
      ∃ q, SeekPercent doubleArith (Double.finite 1) p = some q ∧
        q.m_RendererIndex = q.m_UnitEnd ∧
        CurrentMs doubleArith q = RangeEnd doubleArith q) := by
  have hseek : ∀ percent, SeekPercent doubleArith percent p =
      DoSeekUnit (doubleArith.lerp p.m_UnitBeg ((p.m_UnitEnd + 2 ^ 64 - p.m_UnitBeg) % 2 ^ 64)
        percent) p := by
    intro percent
    rcases hs with hs | hs <;> simp [SeekPercent, hs]
  constructor
  · rw [hseek, DoSeekUnit_some _ _ d hd]
    refine ⟨_, rfl, ?_, ?_, ?_⟩
    · simp only
      rw [clamp_eq _ _ _ hle]
      omega
    · simp only
      rw [clamp_eq _ _ _ hle]
      omega
    · simp only [CurrentMs, RangeBegin]
      exact doubleArith_unscale_congr _ _ _ (binary64_clamp_lerp_zero _ _ _ hle)
  · intro hend
    have hspan : (p.m_UnitEnd + 2 ^ 64 - p.m_UnitBeg) % 2 ^ 64 = p.m_UnitEnd - p.m_UnitBeg := by
      omega
    have hl : doubleArith.lerp p.m_UnitBeg (p.m_UnitEnd - p.m_UnitBeg) (Double.finite 1) =
        p.m_UnitEnd := by
      rw [doubleArith_lerp_one _ _ (by omega)]
      omega
    rw [hseek, hspan, hl, DoSeekUnit_some _ _ d hd]
    have hc : (if p.m_UnitEnd < p.m_UnitBeg then p.m_UnitBeg
        else if p.m_UnitEnd > p.m_UnitEnd then p.m_UnitEnd else p.m_UnitEnd) = p.m_UnitEnd := by
      rw [if_neg (by omega), if_neg (by omega)]
    refine ⟨_, rfl, ?_, ?_⟩
    · simp only
      exact hc
    · simp only [CurrentMs, RangeEnd]
      rw [hc]

/-- Witness of C18: the Playing player of the examples after `Pause`, Paused
with the range 0 to 1000. -/
theorem SeekPercent_ends_witness :
    (Pause demoPlaying).m_Status = PlayerStatus.Paused ∧
    ((Pause demoPlaying).m_UnitBeg, (Pause demoPlaying).m_UnitEnd) = (0, 1000) ∧
    ∃ q, SeekPercent doubleArith (Double.finite 1) (Pause demoPlaying) = some q ∧
      q.m_RendererIndex = q.m_UnitEnd ∧
      CurrentMs doubleArith q = RangeEnd doubleArith q :=
  ⟨by decide, by decide,
   (SeekPercent_ends (Pause demoPlaying) 0 (by decide) (Or.inl (by decide)) (by decide)).2
     (by decide)⟩

/-! ## The waits of Pause -/

/-- The function `Pause` blocks exactly when the player is not Paused and a
worker is not in a cycle with its end latch not posted. -/
theorem Latched.Pause_blocks_iff (s : Latched) :
    Latched.Pause s = Outcome.blocks ↔
      s.player.m_Status ≠ PlayerStatus.Paused ∧
        ((s.rendererCycle = false ∧ s.m_SemRendererEnd = 0) ∨
         (s.decoderCycle = false ∧ s.m_SemDecoderEnd = 0)) := by
  unfold Latched.Pause Latched.waitRendererEnd Latched.waitDecoderEnd
  by_cases hs : s.player.m_Status = PlayerStatus.Paused
  · simp [hs]
  · cases hr : s.rendererCycle <;> cases hd : s.decoderCycle <;>
      by_cases h1 : 0 < s.m_SemRendererEnd <;> by_cases h2 : 0 < s.m_SemDecoderEnd <;>
      simp [hs, hr, hd, h1, h2] <;> omega

/-- The function `Pause` returns, with the assignments of `Pause`, when the
player is Paused or both workers are in a cycle or have posted their end
latches. -/
theorem Latched.Pause_returns (s : Latched)
    (h : s.player.m_Status = PlayerStatus.Paused ∨
      ((s.rendererCycle = true ∨ 0 < s.m_SemRendererEnd) ∧
       (s.decoderCycle = true ∨ 0 < s.m_SemDecoderEnd))) :
    ∃ s1, Latched.Pause s = Outcome.returns s1 ∧ s1.player = mous.Pause s.player := by
  unfold Latched.Pause Latched.waitRendererEnd Latched.waitDecoderEnd
  by_cases hs : s.player.m_Status = PlayerStatus.Paused
  · refine ⟨s, by simp [hs], ?_⟩
    simp [mous.Pause, hs]
  · rcases h with h | ⟨h1, h2⟩
    · exact absurd h hs
    · cases hr : s.rendererCycle <;> cases hd : s.decoderCycle <;>
        simp_all

/-- C8, failing input: the player after `RegisterDecoderPlugin`,
`RegisterRendererPlugin` and `Open("a.syn")` is reachable and Stopped, its map
holds the agent of the open decoder, and no `Play` or `Resume` has run, so both
workers wait on their wake latches and no end latch is posted.  There
`UnregisterAll` does not return, with whatever fuel: its first iteration calls
`RemoveDecoderPlugin` for the agent of the open decoder, that calls `Close`,
`Close` calls `Pause`, and `Pause` waits on `m_SemRendererEnd`.  After `Play()`
the same call returns with an empty map and an unset renderer slot. -/
theorem UnregisterAll_blocks :
    Reachable demoPlugins demoStopped ∧
    demoStopped.m_Status = PlayerStatus.Stopped ∧
    demoStopped.m_DecoderPluginMap = [("syn", ⟨0, 0⟩)] ∧
    demoStopped.m_Decoder = some 0 ∧
    Latched.Pause demoLatchedStopped = Outcome.blocks ∧
    Latched.Close demoLatchedStopped = Outcome.blocks ∧
    Latched.RemoveDecoderPlugin demoPlugins 0 demoLatchedStopped = Outcome.blocks ∧
    (∀ fuel, 0 < fuel →
      Latched.UnregisterAll demoPlugins fuel demoLatchedStopped = Outcome.blocks) ∧
    (((Latched.Play demoPlugins demoLatchedStopped).toOption.map
        (Latched.UnregisterAll demoPlugins 1)).map
      (fun r => r.toOption.map (fun s =>
        (s.player.m_DecoderPluginMap, s.player.m_RendererPlugin, s.player.m_Status)))) =
      some (some ([], none, PlayerStatus.Closed)) := by
  refine ⟨?_, by decide, by decide, by decide, by decide, by decide, by decide, ?_, by decide⟩
  · exact Reachable.openFile "a.syn"
      (Reachable.registerRenderer 2 (Reachable.registerDecoder 0 Reachable.init))
  · intro fuel hfuel
    cases fuel with
    | zero => omega
    | succ n =>
      have hmap : demoLatchedStopped.player.m_DecoderPluginMap = [("syn", ⟨0, 0⟩)] := by decide
      have hrem : Latched.RemoveDecoderPlugin demoPlugins 0 demoLatchedStopped =
          Outcome.blocks := by decide
      unfold Latched.UnregisterAll
      rw [Latched.UnregisterAll.loop]
      simp only [hmap, hrem]

/-- With returning waits, `Close` does what the embedding without latches does,
and leaves the player Closed. -/
theorem Latched.Close_returns (s : Latched) (q : Player) (hI : Latched.Pending s)
    (h : mous.Close s.player = some q) :
    ∃ s1, Latched.Close s = Outcome.returns s1 ∧ s1.player = q ∧ Latched.Pending s1 := by
  unfold Latched.Close
  unfold mous.Close at h
  by_cases hc : s.player.m_Status = PlayerStatus.Closed
  · rw [if_pos hc] at h
    rw [if_pos hc]
    cases h
    exact ⟨s, rfl, rfl, hI⟩
  · rw [if_neg hc] at h
    rw [if_neg hc]
    have hI2 : s.player.m_Status = PlayerStatus.Paused ∨
        ((s.rendererCycle = true ∨ 0 < s.m_SemRendererEnd) ∧
         (s.decoderCycle = true ∨ 0 < s.m_SemDecoderEnd)) := by
      rcases hI with h1 | h1
      · exact absurd h1 hc
      · exact h1
    obtain ⟨s1, hs1, hp1⟩ := Latched.Pause_returns s hI2
    rw [hs1]
    simp only
    rw [hp1]
    simp only at h
    cases hd : (mous.Pause s.player).m_Decoder with
    | none =>
      rw [hd] at h
      cases h
    | some d =>
      rw [hd] at h
      simp only at h
      cases h
      exact ⟨_, rfl, rfl, Or.inl rfl⟩

/-- With returning waits, the loop of `RemoveDecoderPlugin` does what the
embedding without latches does. -/
theorem Latched.RemoveDecoderPlugin_loop_returns (a : Agent) (L : List String) :
    ∀ (b : Bool) (s : Latched) (q : Player), Latched.Pending s →
      mous.RemoveDecoderPlugin.loop a L b s.player = some q →
      ∃ s1, Latched.RemoveDecoderPlugin.loop a L b s = Outcome.returns s1 ∧ s1.player = q ∧
        Latched.Pending s1 := by
  induction L with
  | nil =>
    intro b s q hI h
    simp only [mous.RemoveDecoderPlugin.loop] at h
    cases h
    exact ⟨s, rfl, rfl, hI⟩
  | cons item rest ih =>
    intro b s q hI h
    rw [mous.RemoveDecoderPlugin.loop] at h
    rw [Latched.RemoveDecoderPlugin.loop]
    simp only at h ⊢
    cases hf : mapFind s.player.m_DecoderPluginMap (ToLower item) with
    | none =>
      rw [hf] at h
      simp only at h ⊢
      exact ih b s q hI h
    | some node =>
      rw [hf] at h
      simp only at h ⊢
      by_cases ha : node.agent = a
      · rw [if_pos ha] at h
        rw [if_pos ha]
        by_cases hb : b = false
        · rw [if_pos hb] at h
          rw [if_pos hb]
          by_cases hdec : some node.decoder = s.player.m_Decoder
          · rw [if_pos hdec] at h
            rw [if_pos hdec]
            cases hc : mous.Close s.player with
            | none =>
              rw [hc] at h
              cases h
            | some p1 =>
              rw [hc] at h
              simp only at h
              obtain ⟨s1, hs1, hp1, hI1⟩ := Latched.Close_returns s p1 hI hc
              rw [hs1]
              simp only
              rw [hp1]
              exact ih true _ q (by
                unfold Latched.Pending at hI1 ⊢
                rw [hp1] at hI1
                exact hI1) h
          · rw [if_neg hdec] at h
            rw [if_neg hdec]
            simp only at h ⊢
            exact ih true _ q hI h
        · rw [if_neg hb] at h
          rw [if_neg hb]
          exact ih b _ q hI h
      · rw [if_neg ha] at h
        rw [if_neg ha]
        exact ih b s q hI h

/-- With returning waits, `RemoveDecoderPlugin` does what the embedding without
latches does. -/
theorem Latched.RemoveDecoderPlugin_returns (env : Plugins) (a : Agent) (s : Latched)
    (q : Player) (hI : Latched.Pending s) (h : mous.RemoveDecoderPlugin env a s.player = some q) :
    ∃ s1, Latched.RemoveDecoderPlugin env a s = Outcome.returns s1 ∧ s1.player = q ∧
      Latched.Pending s1 := by
  unfold mous.RemoveDecoderPlugin at h
  unfold Latched.RemoveDecoderPlugin
  exact Latched.RemoveDecoderPlugin_loop_returns a _ false _ q hI h

/-- With returning waits, the loop of `UnregisterAll` does what the embedding
without latches does. -/
theorem Latched.UnregisterAll_loop_returns (env : Plugins) :
    ∀ (fuel : Nat) (s : Latched) (q : Player), Latched.Pending s →
      mous.UnregisterAll.loop env fuel s.player = some q →
      ∃ s1, Latched.UnregisterAll.loop env fuel s = Outcome.returns s1 ∧ s1.player = q := by
  intro fuel
  induction fuel with
  | zero =>
    intro s q hI h
    rw [mous.UnregisterAll.loop] at h
    rw [Latched.UnregisterAll.loop]
    cases hm : s.player.m_DecoderPluginMap with
    | nil =>
      rw [hm] at h
      simp only at h ⊢
      cases h
      exact ⟨s, rfl, rfl⟩
    | cons e rest =>
      rw [hm] at h
      simp only at h
      cases h
  | succ n ih =>
    intro s q hI h
    rw [mous.UnregisterAll.loop] at h
    rw [Latched.UnregisterAll.loop]
    cases hm : s.player.m_DecoderPluginMap with
    | nil =>
      rw [hm] at h
      simp only at h ⊢
      cases h
      exact ⟨s, rfl, rfl⟩
    | cons e rest =>
      rw [hm] at h
      simp only at h ⊢
      cases hr : mous.RemoveDecoderPlugin env e.2.agent s.player with
      | none =>
        rw [hr] at h
        cases h
      | some p1 =>
        rw [hr] at h
        simp only at h
        obtain ⟨s1, hs1, hp1, hI1⟩ := Latched.RemoveDecoderPlugin_returns env e.2.agent s p1 hI hr
        rw [hs1]
        simp only
        exact ih s1 q hI1 (by rw [hp1]; exact h)

/-- With returning waits, `UnregisterAll` terminates: for agents whose decoders
declare a fixed suffix list, from every reachable state whose player is Closed
or Paused or whose workers are in a cycle or have posted their end latches,
`UnregisterAll` returns, with any fuel of at least the length of the map, and
leaves an empty decoder map and an unset renderer slot. -/
theorem Latched.UnregisterAll_returns (env : Plugins) (s : Latched)
    (hfix : ∀ a, FixedSuffixes env a) (hp : Reachable env s.player)
    (hI : Latched.Pending s) (fuel : Nat) (hfuel : s.player.m_DecoderPluginMap.length ≤ fuel) :
    ∃ s1, Latched.UnregisterAll env fuel s = Outcome.returns s1 ∧
      s1.player.m_DecoderPluginMap = [] ∧ s1.player.m_RendererPlugin = none ∧
      s1.player.m_Renderer = none := by
  obtain ⟨q, hq, h1, h2, h3⟩ := (UnregisterAll_terminates env s.player hfix hp).2
  have hf := hq fuel hfuel
  unfold mous.UnregisterAll at hf
  cases hl : mous.UnregisterAll.loop env fuel s.player with
  | none =>
    rw [hl] at hf
    cases hf
  | some q2 =>
    rw [hl] at hf
    simp only at hf
    obtain ⟨s2, hs2, hp2⟩ := Latched.UnregisterAll_loop_returns env fuel s q2 hI hl
    unfold Latched.UnregisterAll
    rw [hs2]
    simp only
    rw [hp2, hf]
    exact ⟨_, rfl, h1, h2, h3⟩

/-- The arithmetic of the examples computes the units that the code computes
when the decoder reports as many units as ms and the time is at most `2 ^ 53`
ms: both give `ms` units. -/
theorem demoArith_scale_eq (n ms : ℕ) (hn : 0 < n) (hms : ms ≤ 2 ^ 53) :
    demoArith.scale (n, n) ms = doubleArith.scale (n, n) ms ∧ demoArith.scale (n, n) ms = ms := by
  have h1 : demoArith.scale (n, n) ms = ms := by
    simp only [demoArith, Nat.pos_iff_ne_zero.mp hn, if_false]
    exact Nat.mul_div_cancel_left ms hn
  have hnq : binary64 (n : ℚ) ≠ 0 := (binary64_pos (by exact_mod_cast hn)).ne'
  have h3 : binary64 1 = 1 := by simpa using binary64_two_pow 0
  refine ⟨?_, h1⟩
  rw [h1, doubleArith_scale_eq n n ms (Nat.pos_iff_ne_zero.mp hn), div_self hnq, h3,
    binary64_natCast ms hms, one_mul, binary64_natCast ms hms]
  exact (Double.toUInt64_natCast ms (by omega)).symm

end mous
